import Mathlib

/-!
# Verification of the ncSender Replicator plugin core (src/index.js)

Shallow embedding of the plugin's geometric/text engine:
* the modal bounds analyzer (`analyzeGCodeBounds`) and the arc bounding-box
  helper (`calculateArcBounds`), over exact reals (JS floats are modelled as
  real numbers; decimal numerals parse exactly);
* the skip-specification parser (`parseSkipInstances`) and validator
  (`validateSkipInstances`) over exact integers;
* the grid planner, the per-instance stateful line offset transform
  (`createOffsetFn`), the tool segmenter (`parseToolSegments`), the comment
  repositioning replay (`processLinesWithCommentRepositioning`) and the full
  assembler (`generateReplicatedGCode`), all over strings and exact rationals.

JS strings are modelled through their character lists; JS `split`, `trim`,
`toUpperCase` and the handful of regular expressions the source uses are
implemented directly as scanners on `List Char`.  JS numbers are modelled as
`ℚ` (or `ℝ` where trigonometry is involved) — decimal literals are parsed
exactly and `toFixed(3)` rounds half away from zero, the behaviour of the
JS algorithm on exactly-representable values.
-/

namespace Replicator

/-! ## JS string primitives -/

/-- Whitespace class used by JS `trim` and `\s` (ASCII subset). -/
def isWS (c : Char) : Bool := c.isWhitespace

/-- JS `String.trim` on a character list. -/
def jsTrim (cs : List Char) : List Char :=
  ((cs.dropWhile isWS).reverse.dropWhile isWS).reverse

/-- JS `String.trim` on a string. -/
def jsTrimS (s : String) : String := (jsTrim s.data).asString

/-- JS `toUpperCase` (ASCII). -/
def upper (cs : List Char) : List Char := cs.map Char.toUpper

/-- Trimmed, upper-cased view of a line, as computed by
`line.trim().toUpperCase()` throughout the source. -/
def trimUpper (s : String) : List Char := upper (jsTrim s.data)

/-- JS `String.split(sep)` for a single-character separator:
`"a,,b".split(",") = ["a","","b"]`, `"".split(",") = [""]`. -/
def splitCh (sep : Char) : List Char → List (List Char)
  | [] => [[]]
  | c :: r =>
    let rest := splitCh sep r
    if c = sep then [] :: rest
    else
      match rest with
      | h :: t => (c :: h) :: t
      | [] => [[c]]

/-- Substring occurrence, JS `String.includes`. -/
def hasSub (sub : List Char) : List Char → Bool
  | [] => sub.isEmpty
  | c :: cs => sub.isPrefixOf (c :: cs) || hasSub sub cs

/-- `includes` on a string against a string literal needle. -/
def hasSubS (s : String) (sub : String) : Bool := hasSub sub.data s.data

/-- First character test. -/
def headIs (c : Char) : List Char → Bool
  | [] => false
  | d :: _ => d = c

/-- Last character test (JS `endsWith` for one character). -/
def lastIs (c : Char) (cs : List Char) : Bool :=
  match cs.getLast? with
  | some d => d = c
  | none => false

/-- Word character for JS `\b` boundaries: `[A-Za-z0-9_]`. -/
def isWordCh (c : Char) : Bool := c.isAlphanum || c = '_'

/-- Decimal digit list → natural value. -/
def digitsVal (ds : List Char) : ℕ :=
  ds.foldl (fun acc c => 10 * acc + (c.toNat - 48)) 0

/-- Decimal digit list → integer value. -/
def digitsValZ (ds : List Char) : ℤ := (digitsVal ds : ℤ)

/-- JS `parseInt(s, 10)`: skip leading whitespace, optional sign, then the
longest digit prefix; `NaN` (here `none`) when no digit follows. -/
def jsParseInt (cs : List Char) : Option ℤ :=
  let cs0 := cs.dropWhile isWS
  let (sgn, cs1) : ℤ × List Char :=
    match cs0 with
    | '+' :: t => (1, t)
    | '-' :: t => (-1, t)
    | _ => (1, cs0)
  let ds := cs1.takeWhile Char.isDigit
  if ds.isEmpty then none else some (sgn * digitsValZ ds)

/-- Decimal rendering of a natural number (JS integer-to-string). -/
def decStr (n : ℕ) : List Char :=
  if h : n < 10 then [Char.ofNat (48 + n)]
  else decStr (n / 10) ++ [Char.ofNat (48 + n % 10)]
  decreasing_by exact Nat.div_lt_self (Nat.lt_of_lt_of_le (by omega) (Nat.le_of_not_lt h)) (by omega)

/-- Decimal rendering of an integer. -/
def intStr (z : ℤ) : List Char :=
  if z < 0 then '-' :: decStr z.natAbs else decStr z.natAbs

/-- String form of `decStr`. -/
def decStrS (n : ℕ) : String := (decStr n).asString

/-! ## Skip-specification parser and validator (src/index.js 737–807) -/

/-- The integers added by the JS loop
`for (let i = start; i <= Math.min(end, maxParts); i++) skipSet.add(i)`. -/
def rangeAdd (a b : ℤ) : Finset ℤ :=
  ((List.range (b - a + 1).toNat).map (fun i : ℕ => a + (i : ℤ))).toFinset

/-- One token of `parseSkipInstances`' loop body. -/
def parseSkipToken (maxParts : ℤ) (acc : Finset ℤ) (part : List Char) : Finset ℤ :=
  if part.contains '-' then
    let rp := (splitCh '-' part).map jsTrim
    let startStr := rp.headD []
    let endStr := (rp.drop 1).headD []
    match jsParseInt startStr, jsParseInt endStr with
    | some a, some b =>
      if a > 0 ∧ b ≥ a then acc ∪ rangeAdd a (min b maxParts) else acc
    | _, _ => acc
  else
    match jsParseInt part with
    | some n => if n > 0 ∧ n ≤ maxParts then insert n acc else acc
    | none => acc

/-- `parseSkipInstances(input, maxParts)` (src/index.js 737–762): the set of
instance numbers denoted by a comma-separated list of integers and `a-b`
ranges; ranges are clamped to `maxParts`, invalid tokens contribute nothing. -/
def parseSkipInstances (input : String) (maxParts : ℤ) : Finset ℤ :=
  if jsTrim input.data = [] then ∅
  else
    let parts := ((splitCh ',' input.data).map jsTrim).filter (· ≠ [])
    parts.foldl (parseSkipToken maxParts) ∅

/-- One token of `validateSkipInstances`' loop body: the first error for this
token, or `none`. -/
def validateSkipToken (maxParts : ℤ) (part : List Char) : Option String :=
  if part.contains '-' then
    let rp := splitCh '-' part
    if rp.length ≠ 2 then some ("Invalid range format: " ++ part.asString)
    else
      let startStr := jsTrim (rp.headD [])
      let endStr := jsTrim ((rp.drop 1).headD [])
      if startStr = [] ∨ endStr = [] then some ("Invalid range: " ++ part.asString)
      else
        match jsParseInt startStr, jsParseInt endStr with
        | some a, some b =>
          if a < 1 then some ("Range start must be >= 1: " ++ part.asString)
          else if b < a then some ("Range end must be >= start: " ++ part.asString)
          else if a > maxParts then
            some ("Range start exceeds total parts (" ++ (intStr maxParts).asString ++ "): " ++ part.asString)
          else none
        | _, _ => some ("Invalid numbers in range: " ++ part.asString)
  else
    match jsParseInt part with
    | none => some ("Invalid number: " ++ part.asString)
    | some n =>
      if n < 1 then some ("Instance must be >= 1: " ++ part.asString)
      else if n > maxParts then
        some ("Instance exceeds total parts (" ++ (intStr maxParts).asString ++ "): " ++ part.asString)
      else none

/-- `validateSkipInstances(input, maxParts)` (src/index.js 765–807): first
error message encountered (fail-fast), or `none` when the input is valid. -/
def validateSkipInstances (input : String) (maxParts : ℤ) : Option String :=
  if jsTrim input.data = [] then none
  else
    let parts := ((splitCh ',' input.data).map jsTrim).filter (· ≠ [])
    parts.findSome? (validateSkipToken maxParts)

/-! ## Regular-expression scanners used by the interpreter -/

/-- `\b` after a token: end of string or a non-word character. -/
def boundaryOk : List Char → Bool
  | [] => true
  | c :: _ => !isWordCh c

/-- After the leading letter of a `\b<letter>0*<digits>\b` pattern: skip the
`0*` run greedily, then require `digits` and a trailing boundary.  For the
pattern `G0*0` (i.e. `digits = "0"`) the zero run itself must be non-empty. -/
def tokAfter (t : List Char) (rest : List Char) : Bool :=
  let zs := rest.takeWhile (· = '0')
  let r := rest.dropWhile (· = '0')
  if t = ['0'] then !zs.isEmpty && boundaryOk r
  else t.isPrefixOf r && boundaryOk (r.drop t.length)

/-- Scan for `\b<letter>0*<t>\b`, tracking whether the previous character was
a word character (for the leading `\b`). -/
def hasWordTokAux (letter : Char) (t : List Char) : Bool → List Char → Bool
  | _, [] => false
  | prevW, c :: r =>
    (c = letter && !prevW && tokAfter t r) || hasWordTokAux letter t (isWordCh c) r

/-- `new RegExp("\\b" + letter + "0*" + t + "\\b").test(cs)`. -/
def hasWordTok (letter : Char) (t : List Char) (cs : List Char) : Bool :=
  hasWordTokAux letter t false cs

/-- Digits-then-optional-fraction part of the numeral regex `\d*\.?\d+`,
with the regex engine's backtracking semantics: greedy integer part, then a
fractional part only when at least one digit follows the dot.  Returns the
exact value and the remaining characters. -/
def scanNumBody (sgn : ℚ) (cs1 : List Char) : Option (ℚ × List Char) :=
  let d1 := cs1.takeWhile Char.isDigit
  match cs1.dropWhile Char.isDigit with
  | '.' :: cs3 =>
    let d2 := cs3.takeWhile Char.isDigit
    if !d2.isEmpty then
      some (sgn * ((digitsVal d1 : ℚ) + (digitsVal d2 : ℚ) / 10 ^ d2.length),
        cs3.dropWhile Char.isDigit)
    else if !d1.isEmpty then some (sgn * (digitsVal d1 : ℚ), '.' :: cs3)
    else none
  | _ => if !d1.isEmpty then some (sgn * (digitsVal d1 : ℚ), cs1.dropWhile Char.isDigit)
         else none

/-- The numeral regex `([+-]?\d*\.?\d+)` immediately after a coordinate
letter: optional sign, then `scanNumBody`. -/
def scanNum (cs : List Char) : Option (ℚ × List Char) :=
  match cs with
  | '+' :: t => scanNumBody 1 t
  | '-' :: t => scanNumBody (-1) t
  | _ => scanNumBody 1 cs

/-- First match of `<letter>([+-]?\d*\.?\d+)`: the regex engine scans left to
right and keeps looking at later occurrences of the letter when the numeral
fails to parse. -/
def findNum (letter : Char) : List Char → Option ℚ
  | [] => none
  | c :: r =>
    if c = letter then
      match scanNum r with
      | some (v, _) => some v
      | none => findNum letter r
    else findNum letter r

/-! ## Bounds analyzer (src/index.js 42–171) -/

/-- Everything the `analyzeGCodeBounds` loop body extracts from one line
before doing arithmetic: the comment test, the `includes` tests, the
word-boundary motion-mode tests and the five coordinate matches. -/
structure ScannedLine where
  isComment : Bool
  hasG901 : Bool
  hasG911 : Bool
  hasG90 : Bool
  hasG91 : Bool
  hasG53 : Bool
  isG0 : Bool
  isG1 : Bool
  isG2 : Bool
  isG3 : Bool
  xMatch : Option ℚ
  yMatch : Option ℚ
  zMatch : Option ℚ
  iMatch : Option ℚ
  jMatch : Option ℚ
deriving DecidableEq

/-- Scan one line exactly as the top of the `analyzeGCodeBounds` loop does
(on `line.trim().toUpperCase()`). -/
def scanLine (line : String) : ScannedLine :=
  let t := trimUpper line
  { isComment := headIs '(' t || headIs ';' t || headIs '%' t
    hasG901 := hasSub "G90.1".data t
    hasG911 := hasSub "G91.1".data t
    hasG90 := hasSub "G90".data t
    hasG91 := hasSub "G91".data t
    hasG53 := hasSub "G53".data t
    isG0 := hasWordTok 'G' ['0'] t
    isG1 := hasWordTok 'G' ['1'] t
    isG2 := hasWordTok 'G' ['2'] t
    isG3 := hasWordTok 'G' ['3'] t
    xMatch := findNum 'X' t
    yMatch := findNum 'Y' t
    zMatch := findNum 'Z' t
    iMatch := findNum 'I' t
    jMatch := findNum 'J' t }

/-- JS `Math.atan2` on exact reals. -/
noncomputable def jsAtan2 (y x : ℝ) : ℝ :=
  if x > 0 then Real.arctan (y / x)
  else if x < 0 ∧ 0 ≤ y then Real.arctan (y / x) + Real.pi
  else if x < 0 ∧ y < 0 then Real.arctan (y / x) - Real.pi
  else if x = 0 ∧ y > 0 then Real.pi / 2
  else if x = 0 ∧ y < 0 then -(Real.pi / 2)
  else 0

/-- The `while (angle < 0) angle += 2π; while (angle >= 2π) angle -= 2π`
normalization of `calculateArcBounds`, in closed form. -/
noncomputable def normalizeAngle (a : ℝ) : ℝ :=
  a - 2 * Real.pi * ⌊a / (2 * Real.pi)⌋

/-- Result rectangle of `calculateArcBounds`. -/
structure ArcBox where
  minX : ℝ
  maxX : ℝ
  minY : ℝ
  maxY : ℝ

section
open Classical

/-- `isAngleInArc` of `calculateArcBounds` (src/index.js 185–202). -/
noncomputable def angleInArc (isClockwise : Bool) (start e : ℝ) (angle : ℝ) : Prop :=
  let a := normalizeAngle angle
  if isClockwise then
    if start ≥ e then a ≤ start ∧ a ≥ e else a ≤ start ∨ a ≥ e
  else
    if start ≤ e then a ≥ start ∧ a ≤ e else a ≥ start ∨ a ≤ e

/-- `calculateArcBounds(centerX, centerY, radius, startAngle, endAngle,
isClockwise)` (src/index.js 173–226): endpoint rectangle extended by each
cardinal-angle extreme the sweep covers. -/
noncomputable def calculateArcBounds (cx cy r sa ea : ℝ) (cw : Bool) : ArcBox :=
  let start := normalizeAngle sa
  let e := normalizeAngle ea
  let startX := cx + r * Real.cos sa
  let startY := cy + r * Real.sin sa
  let endX := cx + r * Real.cos ea
  let endY := cy + r * Real.sin ea
  let minX0 := min startX endX
  let maxX0 := max startX endX
  let minY0 := min startY endY
  let maxY0 := max startY endY
  let maxX1 := if angleInArc cw start e 0 then cx + r else maxX0
  let maxY1 := if angleInArc cw start e (Real.pi / 2) then cy + r else maxY0
  let minX1 := if angleInArc cw start e Real.pi then cx - r else minX0
  let minY1 := if angleInArc cw start e (3 * Real.pi / 2) then cy - r else minY0
  ⟨minX1, maxX1, minY1, maxY1⟩

end

/-- Running state of the bounds interpreter: six one-sided bounds (`none`
models the `±Infinity` sentinel), the current position and the three modal
flags. -/
structure AState where
  bMinX : Option ℝ
  bMinY : Option ℝ
  bMinZ : Option ℝ
  bMaxX : Option ℝ
  bMaxY : Option ℝ
  bMaxZ : Option ℝ
  curX : ℝ
  curY : ℝ
  curZ : ℝ
  isAbsolute : Bool
  isArcAbsolute : Bool
  motionMode : ℕ

/-- `Math.min` against a possibly-still-infinite bound. -/
noncomputable def optMin (o : Option ℝ) (v : ℝ) : Option ℝ :=
  some (match o with | none => v | some m => min m v)

/-- `Math.max` against a possibly-still-infinite bound. -/
noncomputable def optMax (o : Option ℝ) (v : ℝ) : Option ℝ :=
  some (match o with | none => v | some m => max m v)

/-- One iteration of the `analyzeGCodeBounds` loop (src/index.js 55–161),
in exactly the source's order: comment skip, arc-center-mode and
positioning-mode updates, `G53` skip, motion-mode updates, end-position
computation, arc bounding, position update, cutting-move bounds update. -/
noncomputable def analyzeStep (st : AState) (line : String) : AState :=
  let s := scanLine line
  if s.isComment then st
  else
    let isArcAbs1 := if s.hasG901 then true else st.isArcAbsolute
    let isArcAbs2 := if s.hasG911 then false else isArcAbs1
    let isAbs1 := if s.hasG90 && !s.hasG901 then true else st.isAbsolute
    let isAbs2 := if s.hasG91 && !s.hasG911 then false else isAbs1
    if s.hasG53 then
      { st with isAbsolute := isAbs2, isArcAbsolute := isArcAbs2 }
    else
      let mm0 := if s.isG0 then 0 else st.motionMode
      let mm1 := if s.isG1 then 1 else mm0
      let mm2 := if s.isG2 then 2 else mm1
      let mm := if s.isG3 then 3 else mm2
      let startX := st.curX
      let startY := st.curY
      let endX := match s.xMatch with
        | some v => if isAbs2 then (v : ℝ) else st.curX + v
        | none => st.curX
      let endY := match s.yMatch with
        | some v => if isAbs2 then (v : ℝ) else st.curY + v
        | none => st.curY
      let endZ := match s.zMatch with
        | some v => if isAbs2 then (v : ℝ) else st.curZ + v
        | none => st.curZ
      let st1 :=
        if (mm == 2 || mm == 3) && (s.iMatch.isSome || s.jMatch.isSome) then
          let i : ℝ := match s.iMatch with | some v => (v : ℝ) | none => 0
          let j : ℝ := match s.jMatch with | some v => (v : ℝ) | none => 0
          let cX := if isArcAbs2 then i else startX + i
          let cY := if isArcAbs2 then j else startY + j
          let radius := Real.sqrt ((startX - cX) ^ 2 + (startY - cY) ^ 2)
          let sa := jsAtan2 (startY - cY) (startX - cX)
          let ea := jsAtan2 (endY - cY) (endX - cX)
          let ab := calculateArcBounds cX cY radius sa ea (mm == 2)
          { st with bMinX := optMin st.bMinX ab.minX, bMinY := optMin st.bMinY ab.minY,
                    bMaxX := optMax st.bMaxX ab.maxX, bMaxY := optMax st.bMaxY ab.maxY }
        else st
      let st2 :=
        { st1 with
          curX := endX, curY := endY, curZ := endZ,
          isAbsolute := isAbs2, isArcAbsolute := isArcAbs2, motionMode := mm }
      if mm ≥ 1 then
        { st2 with
          bMinX := if s.xMatch.isSome then optMin st2.bMinX endX else st2.bMinX,
          bMaxX := if s.xMatch.isSome then optMax st2.bMaxX endX else st2.bMaxX,
          bMinY := if s.yMatch.isSome then optMin st2.bMinY endY else st2.bMinY,
          bMaxY := if s.yMatch.isSome then optMax st2.bMaxY endY else st2.bMaxY,
          bMinZ := if s.zMatch.isSome then optMin st2.bMinZ endZ else st2.bMinZ,
          bMaxZ := if s.zMatch.isSome then optMax st2.bMaxZ endZ else st2.bMaxZ }
      else st2

/-- A 3-D point of the result. -/
structure GPoint where
  x : ℝ
  y : ℝ
  z : ℝ

/-- Result of `analyzeGCodeBounds`. -/
structure BoundsBox where
  min : GPoint
  max : GPoint

/-- `analyzeGCodeBounds(gcodeContent)` (src/index.js 42–171): fold the step
over the `\n`-split lines from the origin in absolute mode, then collapse
any still-infinite bound to `0`. -/
noncomputable def analyzeGCodeBounds (gcodeContent : String) : BoundsBox :=
  let lines := (splitCh '\n' gcodeContent.data).map List.asString
  let st0 : AState := ⟨none, none, none, none, none, none, 0, 0, 0, true, false, 0⟩
  let st := lines.foldl analyzeStep st0
  { min := ⟨st.bMinX.getD 0, st.bMinY.getD 0, st.bMinZ.getD 0⟩
    max := ⟨st.bMaxX.getD 0, st.bMaxY.getD 0, st.bMaxZ.getD 0⟩ }

/-! ## Number formatting and the X/Y rewrite (src/index.js 890–927) -/

/-- JS `Number.prototype.toFixed(3)` on an exact rational: sign of the
value, then the magnitude rounded half away from zero to three decimals. -/
def qToFixed3 (q : ℚ) : List Char :=
  let n : ℕ := (⌊|q| * 1000 + 1 / 2⌋).toNat
  let fp := n % 1000
  let fd :=
    if fp < 10 then '0' :: '0' :: decStr fp
    else if fp < 100 then '0' :: decStr fp
    else decStr fp
  (if q < 0 then ['-'] else []) ++ decStr (n / 1000) ++ '.' :: fd

theorem dropWhile_length_le (p : Char → Bool) (l : List Char) :
    (l.dropWhile p).length ≤ l.length := by
  induction l with
  | nil => simp
  | cons c t ih => by_cases h : p c <;> simp [List.dropWhile, h] <;> omega

theorem takeWhile_add_dropWhile_length (p : Char → Bool) (l : List Char) :
    (l.takeWhile p).length + (l.dropWhile p).length = l.length := by
  rw [← List.length_append, List.takeWhile_append_dropWhile]

theorem scanNumBody_shrink {sgn v : ℚ} {cs1 r' : List Char}
    (h : scanNumBody sgn cs1 = some (v, r')) : r'.length < cs1.length := by
  have hsum := takeWhile_add_dropWhile_length Char.isDigit cs1
  unfold scanNumBody at h
  dsimp only at h
  split at h
  case h_1 cs3 heq =>
    have hlen3 : cs3.length + 1 ≤ cs1.length := by
      rw [heq] at hsum; simp at hsum; omega
    split at h
    · simp only [Option.some.injEq, Prod.mk.injEq] at h
      obtain ⟨-, hr⟩ := h; subst hr
      have := dropWhile_length_le Char.isDigit cs3
      omega
    · split at h
      · rename_i hd1
        simp only [Option.some.injEq, Prod.mk.injEq] at h
        obtain ⟨-, hr⟩ := h; subst hr
        have hdw : (cs1.dropWhile Char.isDigit).length = cs3.length + 1 := by
          rw [heq]; simp
        have hd1' : (cs1.takeWhile Char.isDigit).length ≠ 0 := by
          intro hz
          rw [List.length_eq_zero] at hz
          simp [hz] at hd1
        simp only [List.length_cons]
        omega
      · exact absurd h (by simp)
  case h_2 heq₂ =>
    split at h
    · rename_i hd1
      simp only [Option.some.injEq, Prod.mk.injEq] at h
      obtain ⟨-, hr⟩ := h; subst hr
      have hd1' : (cs1.takeWhile Char.isDigit).length ≠ 0 := by
        intro hz
        rw [List.length_eq_zero] at hz
        simp [hz] at hd1
      omega
    · exact absurd h (by simp)

theorem scanNum_shrink {cs r' : List Char} {v : ℚ} (h : scanNum cs = some (v, r')) :
    r'.length < cs.length := by
  unfold scanNum at h
  split at h
  · have := scanNumBody_shrink h; simp only [List.length_cons]; omega
  · have := scanNumBody_shrink h; simp only [List.length_cons]; omega
  · exact scanNumBody_shrink h

/-- JS `result.replace(/L([+-]?\d*\.?\d+)/gi, (m, v) => 'L' +
(parseFloat(v)+off).toFixed(3))` for a coordinate letter `L` (`lo` is the
lower-case form, `hi` the upper-case form emitted in the replacement):
left-to-right, non-overlapping, resuming after each match. -/
def replNum (lo hi : Char) (off : ℚ) : List Char → List Char
  | [] => []
  | c :: rest =>
    if c = lo || c = hi then
      match h : scanNum rest with
      | some vr => (hi :: qToFixed3 (vr.1 + off)) ++ replNum lo hi off vr.2
      | none => c :: replNum lo hi off rest
    else c :: replNum lo hi off rest
termination_by l => l.length
decreasing_by
  · have := scanNum_shrink h
    simp only [List.length_cons]
    omega
  · simp only [List.length_cons]; omega
  · simp only [List.length_cons]; omega

/-- `createOffsetFn(offsetX, offsetY)` (src/index.js 890–927), with the
closure's captured `isAbsolute` flag made explicit: returns the rewritten
line and the new flag. -/
def createOffsetFn (offsetX offsetY : ℚ) (isAbsolute : Bool) (line : String) :
    String × Bool :=
  let t := trimUpper line
  if headIs '(' t || headIs ';' t || t.isEmpty || hasSub "G53".data t then
    (line, isAbsolute)
  else
    let abs1 := if hasSub "G90".data t && !hasSub "G90.1".data t then true else isAbsolute
    let abs2 := if hasSub "G91".data t && !hasSub "G91.1".data t then false else abs1
    if !t.contains 'X' && !t.contains 'Y' then (line, abs2)
    else if !abs2 then (line, abs2)
    else
      let r1 := replNum 'x' 'X' offsetX line.data
      let r2 := replNum 'y' 'Y' offsetY r1
      (r2.asString, abs2)

/-! ## Line classifiers (src/index.js 930–972) -/

/-- Strip a leading `N<digits><ws>` line number (`/^N\d+\s*\/i`). -/
def stripLineNum (cs : List Char) : List Char :=
  match cs with
  | c :: rest =>
    if c = 'N' || c = 'n' then
      if (rest.takeWhile Char.isDigit).isEmpty then cs
      else (rest.dropWhile Char.isDigit).dropWhile isWS
    else cs
  | [] => []

/-- `isGcodeComment(command)` (src/index.js 930–936). -/
def isGcodeComment (command : String) : Bool :=
  let w := stripLineNum (jsTrim command.data)
  headIs ';' w || (headIs '(' w && lastIs ')' w)

/-- `(?:^|[^A-Z0-9])` context before the `M` of the spindle-stop pattern. -/
def stopPrevOk : Option Char → Bool
  | none => true
  | some c => !c.isAlphanum

/-- `(?:[^0-9]|$)` context after the `5` of the spindle-stop pattern. -/
def stopNextOk : List Char → Bool
  | [] => true
  | c :: _ => !c.isDigit

/-- After an `M`: `0*5` then the trailing context. -/
def stopAt (rest : List Char) : Bool :=
  match rest.dropWhile (· = '0') with
  | '5' :: r2 => stopNextOk r2
  | _ => false

/-- Scan for `(?:^|[^A-Z0-9])M0*5(?:[^0-9]|$)`, tracking the previous
character. -/
def stopScan : Option Char → List Char → Bool
  | _, [] => false
  | prev, c :: r => (c = 'M' && stopPrevOk prev && stopAt r) || stopScan (some c) r

/-- `isSpindleStopCommand(command)` (src/index.js 939–944): not a comment,
and the spindle-stop pattern matches the trimmed upper-cased text. -/
def isSpindleStopCommand (command : String) : Bool :=
  !isGcodeComment command && stopScan none (upper (jsTrim command.data))

/-- `isOperationNameComment(line)` (src/index.js 947–962). -/
def isOperationNameComment (line : String) : Bool :=
  let t := jsTrim line.data
  if !(headIs '(' t && lastIs ')' t) then false
  else if t.length > 50 then false
  else
    let content := jsTrim ((t.drop 1).dropLast)
    if content.length < 2 then false
    else if content.contains ':' || content.contains '=' then false
    else
      (!content.isEmpty &&
        content.all (fun c => c.isAlphanum || c = '_' || c = ' ' || c = '-')) &&
      content.length < 30

/-- `[+-]?\d` immediately after an `X`/`Y`. -/
def xyDigitAfter : List Char → Bool
  | '+' :: d :: _ => d.isDigit
  | '-' :: d :: _ => d.isDigit
  | d :: _ => d.isDigit
  | [] => false

/-- `/[XY][+-]?\d/` scan. -/
def hasXYDigit : List Char → Bool
  | [] => false
  | c :: r => ((c = 'X' || c = 'Y') && xyDigitAfter r) || hasXYDigit r

/-- `isOperationStart(line)` (src/index.js 965–972): a spindle start, or a
`G0`/`G1` move with an X/Y coordinate that is not a machine-frame move. -/
def isOperationStart (line : String) : Bool :=
  let t := trimUpper line
  (hasWordTok 'M' ['3'] t || hasWordTok 'M' ['4'] t) ||
    ((hasWordTok 'G' ['0'] t || hasWordTok 'G' ['1'] t) && hasXYDigit t &&
      !hasSub "G53".data t)

/-! ## Tool segmenter (src/index.js 1022–1057) -/

/-- `M6\s*T(\d+)` at the current position. -/
def m6At (cs : List Char) : Option (List Char) :=
  match cs with
  | 'M' :: '6' :: r =>
    match r.dropWhile isWS with
    | 'T' :: r2 =>
      let ds := r2.takeWhile Char.isDigit
      if ds.isEmpty then none else some ds
    | _ => none
  | _ => none

/-- `T(\d+)\s*M6` at the current position. -/
def tm6At (cs : List Char) : Option (List Char) :=
  match cs with
  | 'T' :: r =>
    let ds := r.takeWhile Char.isDigit
    if ds.isEmpty then none
    else
      match (r.dropWhile Char.isDigit).dropWhile isWS with
      | 'M' :: '6' :: _ => some ds
      | _ => none
  | _ => none

/-- `trimmed.match(/M6\s*T(\d+)|T(\d+)\s*M6/i)`: leftmost match, first
alternative preferred at each position; returns the captured digit group. -/
def m6MatchTool : List Char → Option (List Char)
  | [] => none
  | c :: r =>
    match m6At (c :: r) with
    | some ds => some ds
    | none =>
      match tm6At (c :: r) with
      | some ds => some ds
      | none => m6MatchTool r

/-- `trimmed.match(/^T(\d+)$/i)`: a standalone tool-select line. -/
def tMatchTool (t : List Char) : Option (List Char) :=
  match t with
  | 'T' :: r => if !r.isEmpty && r.all Char.isDigit then some r else none
  | _ => none

/-- A trimmed upper-cased line that `parseToolSegments` treats as a
tool-change trigger. -/
def isToolChangeTok (t : List Char) : Bool :=
  (m6MatchTool t).isSome || (tMatchTool t).isSome

/-- One tool segment: `toolNum = none` marks the header. -/
structure Segment where
  toolNum : Option ℕ
  lines : List String
  isHeader : Bool
deriving DecidableEq

/-- The tool number the source extracts from a trigger line
(`m6Match ? m6Match[1] || m6Match[2] : tMatch[1]`, then `parseInt`). -/
def triggerToolNum (t : List Char) : ℕ :=
  match m6MatchTool t with
  | some ds => digitsVal ds
  | none =>
    match tMatchTool t with
    | some ds => digitsVal ds
    | none => 0

/-- One iteration of the `parseToolSegments` loop. -/
def segStep (acc : List Segment × Segment) (line : String) : List Segment × Segment :=
  let (done, cur) := acc
  let t := trimUpper line
  if t = "M30".data || t = "M2".data then acc
  else if isToolChangeTok t then
    (if cur.lines ≠ [] then done ++ [cur] else done,
      ⟨some (triggerToolNum t), [], false⟩)
  else (done, { cur with lines := cur.lines ++ [line] })

/-- `parseToolSegments(gcode)` (src/index.js 1022–1057). -/
def parseToolSegments (gcode : String) : List Segment :=
  let lines := (splitCh '\n' gcode.data).map List.asString
  let (done, cur) := lines.foldl segStep ([], ⟨none, [], true⟩)
  if cur.lines ≠ [] then done ++ [cur] else done

/-! ## Preamble / cutting / postamble split (src/index.js 1118–1149,
duplicated at 1244–1274) -/

/-- The three phases of the no-tool-changes fallback. -/
structure Phases where
  preamble : List String
  cutting : List String
  postamble : List String
deriving DecidableEq

/-- One iteration of the phase-splitting loop; the `ℕ` is the phase
(0 = preamble, 1 = cutting, 2 = postamble). -/
def phaseStep (acc : Phases × ℕ) (line : String) : Phases × ℕ :=
  let (ph, p) := acc
  let t := trimUpper line
  if hasWordTok 'M' "30".data t || hasWordTok 'M' ['2'] t then acc
  else
    let p1 :=
      if p = 0 then
        if (hasWordTok 'M' ['3'] t || hasWordTok 'M' ['4'] t) ||
            (hasXYDigit t && !hasSub "G53".data t) then 1 else 0
      else p
    let p2 :=
      if p1 = 1 then
        if hasSub "G53".data t || isSpindleStopCommand line then 2 else 1
      else p1
    if p2 = 0 then ({ ph with preamble := ph.preamble ++ [line] }, p2)
    else if p2 = 1 then ({ ph with cutting := ph.cutting ++ [line] }, p2)
    else ({ ph with postamble := ph.postamble ++ [line] }, p2)

/-- Split the fallback source lines into preamble, cutting body and
postamble. -/
def splitPhases (sourceLines : List String) : Phases :=
  (sourceLines.foldl phaseStep (⟨[], [], []⟩, 0)).1

/-! ## Comment-repositioning replay (src/index.js 976–1020) -/

/-- State of `processLinesWithCommentRepositioning` plus the captured
`createOffsetFn` closure state. -/
structure RepState where
  pending : Option String
  afterG53 : Bool
  offAbs : Bool
deriving DecidableEq

/-- One iteration of the `processLinesWithCommentRepositioning` loop, with
`applyOffsetFn = createOffsetFn offX offY` (its only instantiation in the
source). -/
def procStep (ox oy : ℚ) (skipStop : Bool) (acc : List String × RepState)
    (line : String) : List String × RepState :=
  let (out, st) := acc
  let t := trimUpper line
  let ag1 := if hasSub "G53".data t then true else st.afterG53
  if skipStop && isSpindleStopCommand line then (out, ⟨st.pending, ag1, st.offAbs⟩)
  else if isOperationNameComment line && ag1 then (out, ⟨some line, ag1, st.offAbs⟩)
  else
    let fl :=
      if st.pending.isSome && isOperationStart line then
        (st.pending.toList, (none : Option String), false)
      else ([], st.pending, ag1)
    let ol := createOffsetFn ox oy st.offAbs line
    let ag3 :=
      if !headIs '(' t && !headIs ';' t && !t.isEmpty then
        if !hasSub "G53".data t then false else fl.2.2
      else fl.2.2
    (out ++ fl.1 ++ [ol.1], ⟨fl.2.1, ag3, ol.2⟩)

/-- `processLinesWithCommentRepositioning(lines, createOffsetFn(ox, oy),
skipSpindleStop, output)` (src/index.js 976–1020): a pending operation-name
comment left at the end is discarded. -/
def processLinesWithCommentRepositioning (lines : List String) (ox oy : ℚ)
    (skipStop : Bool) : List String :=
  (lines.foldl (procStep ox oy skipStop) ([], ⟨none, false, true⟩)).1

/-! ## Grid planner and assembler (src/index.js 1059–1347) -/

/-- One surviving grid instance (`positions` entries, src/index.js
1089–1095): 1-based part number, row and column, and the XY offset. -/
structure Pos where
  partNum : ℕ
  row : ℕ
  col : ℕ
  offsetX : ℚ
  offsetY : ℚ
deriving DecidableEq

/-- The `positions` double loop (src/index.js 1084–1097): row-major
enumeration, skipping part numbers in the skip set. -/
def generatePositions (rows columns : ℕ) (spacingX spacingY : ℚ) (xm ym : ℚ)
    (skipSet : Finset ℤ) : List Pos :=
  (List.range rows).flatMap fun row =>
    (List.range columns).filterMap fun col =>
      let partNum := row * columns + col + 1
      if (partNum : ℤ) ∈ skipSet then none
      else some ⟨partNum, row + 1, col + 1, (col : ℚ) * spacingX * xm,
        (row : ℚ) * spacingY * ym⟩

/-- Options record of `generateReplicatedGCode`. -/
structure GenOptions where
  rows : ℕ
  columns : ℕ
  rowDirection : String
  columnDirection : String
  spacingX : ℚ
  spacingY : ℚ
  gapX : ℚ
  gapY : ℚ
  sortByTool : Bool
  skipInstances : String
  originalFilename : String

/-- Pair each element with whether it is the last one (the
`index === length - 1` tests of the source's loops). -/
def lastFlags : List α → List (α × Bool)
  | [] => []
  | [a] => [(a, true)]
  | a :: b :: r => (a, false) :: lastFlags (b :: r)

/-- `toFixed(3)` as a string. -/
def qToFixed3S (q : ℚ) : String := (qToFixed3 q).asString

/-- First-seen-order deduplication (`toolOrder`, src/index.js 1181–1189). -/
def firstSeenAux (seen : List ℕ) : List ℕ → List ℕ
  | [] => []
  | t :: r => if t ∈ seen then firstSeenAux seen r else t :: firstSeenAux (t :: seen) r

/-- First-seen order of tool numbers. -/
def firstSeen (l : List ℕ) : List ℕ := firstSeenAux [] l

/-- Flattened lines of all segments of one tool
(`allLinesForTool`, src/index.js 1204–1208). -/
def groupLines (toolSegs : List Segment) (t : ℕ) : List String :=
  (toolSegs.filter (fun s => s.toolNum = some t)).flatMap (·.lines)

/-- The `(Part N of T - Row r, Col c)` comment. -/
def partComment (totalParts : ℕ) (p : Pos) : String :=
  "(Part " ++ decStrS p.partNum ++ " of " ++ decStrS totalParts ++ " - Row " ++
    decStrS p.row ++ ", Col " ++ decStrS p.col ++ ")"

/-- The `(Offset: X=…, Y=…)` comment. -/
def offsetComment (p : Pos) : String :=
  "(Offset: X=" ++ qToFixed3S p.offsetX ++ ", Y=" ++ qToFixed3S p.offsetY ++ ")"

/-- The standard fallback's per-position cutting replay (src/index.js
1288–1294): plain offset application with spindle-stop suppression, no
comment repositioning. -/
def offsetReplay (lines : List String) (ox oy : ℚ) (isLast : Bool) : List String :=
  (lines.foldl
    (fun (acc : List String × Bool) line =>
      if !isLast && isSpindleStopCommand line then acc
      else
        let ol := createOffsetFn ox oy acc.2 line
        (acc.1 ++ [ol.1], ol.2))
    ([], true)).1

/-- Header comment block of the output (src/index.js 1071–1081). -/
def genBanner (o : GenOptions) (totalParts : ℕ) (skipSet : Finset ℤ) : List String :=
  ["(Replicated G-code generated by Replicator Plugin)",
   "(Source: " ++ o.originalFilename ++ ")",
   "(Grid: " ++ decStrS o.columns ++ " columns x " ++ decStrS o.rows ++ " rows = " ++
     decStrS totalParts ++ " parts)"] ++
  (if skipSet.card > 0 then
    ["(Skipped instances: " ++
       String.intercalate ", " ((skipSet.sort (· ≤ ·)).map fun z => (intStr z).asString) ++ ")",
     "(Generating: " ++ decStrS (totalParts - skipSet.card) ++ " parts)"]
   else []) ++
  ["(Gap: X=" ++ qToFixed3S o.gapX ++ "mm, Y=" ++ qToFixed3S o.gapY ++ "mm)",
   "(X Direction: " ++ o.columnDirection ++ ", Y Direction: " ++ o.rowDirection ++ ")",
   "(Sort by Tool: " ++ (if o.sortByTool then "Yes" else "No") ++ ")",
   ""]

/-- Per-position block of the sort-by-tool fallback (src/index.js
1158–1173): comment-repositioning replay of the cutting body. -/
def sortFallbackBlock (cutting : List String) (totalParts : ℕ)
    (pl : Pos × Bool) : List String :=
  [partComment totalParts pl.1, offsetComment pl.1] ++
    processLinesWithCommentRepositioning cutting pl.1.offsetX pl.1.offsetY (!pl.2) ++ [""]

/-- Per-position block of the standard fallback (src/index.js 1281–1296). -/
def stdFallbackBlock (cutting : List String) (totalParts : ℕ)
    (pl : Pos × Bool) : List String :=
  [partComment totalParts pl.1, offsetComment pl.1] ++
    offsetReplay cutting pl.1.offsetX pl.1.offsetY pl.2 ++ [""]

/-- Per-position block of the standard multi-tool path (src/index.js
1316–1340): every tool segment replayed in order, one `T<n> M6` line per
segment, spindle stops suppressed unless last position and last segment. -/
def stdToolBlock (toolSegs : List Segment) (totalParts : ℕ)
    (pl : Pos × Bool) : List String :=
  [partComment totalParts pl.1, offsetComment pl.1, ""] ++
    (lastFlags toolSegs).flatMap fun sl =>
      ["T" ++ decStrS (sl.1.toolNum.getD 0) ++ " M6"] ++
        processLinesWithCommentRepositioning sl.1.lines pl.1.offsetX pl.1.offsetY
          (!(pl.2 && sl.2)) ++ [""]

/-- Per-tool block of the sort-by-tool multi-tool path (src/index.js
1197–1226): one `M6 T<n>` line, then the tool's flattened lines replayed
once per position, spindle stops suppressed except at the last position. -/
def sortToolGroupBlock (toolSegs : List Segment) (totalParts : ℕ)
    (positions : List Pos) (t : ℕ) : List String :=
  ["(Tool T" ++ decStrS t ++ " - All Parts)", "M6 T" ++ decStrS t, ""] ++
    (lastFlags positions).flatMap fun pl =>
      ["(T" ++ decStrS t ++ " Part " ++ decStrS pl.1.partNum ++ " - Row " ++
         decStrS pl.1.row ++ ", Col " ++ decStrS pl.1.col ++ ")",
       offsetComment pl.1] ++
        processLinesWithCommentRepositioning (groupLines toolSegs t)
          pl.1.offsetX pl.1.offsetY (!pl.2) ++ [""]

/-- `generateReplicatedGCode(originalGcode, options)` (src/index.js
1059–1347), as the list of output lines later joined with `\n`. -/
def generateReplicatedGCodeLines (originalGcode : String) (o : GenOptions) :
    List String :=
  let xm : ℚ := if o.columnDirection = "positive" then 1 else -1
  let ym : ℚ := if o.rowDirection = "positive" then 1 else -1
  let totalParts := o.rows * o.columns
  let skipSet := parseSkipInstances o.skipInstances (totalParts : ℤ)
  let positions := generatePositions o.rows o.columns o.spacingX o.spacingY xm ym skipSet
  let segments := parseToolSegments originalGcode
  let headerSegment := segments.find? (·.isHeader)
  let toolSegs := segments.filter (fun s => !s.isHeader)
  let sourceLines :=
    match headerSegment with
    | some h => h.lines
    | none => (splitCh '\n' originalGcode.data).map List.asString
  let body :=
    if o.sortByTool then
      if toolSegs.isEmpty then
        let ph := splitPhases sourceLines
        ["(No tool changes detected, using standard replication)", ""] ++
          ph.preamble ++ [""] ++
          (lastFlags positions).flatMap (sortFallbackBlock ph.cutting totalParts) ++
          ph.postamble
      else
        let toolOrder := firstSeen (toolSegs.filterMap (·.toolNum))
        ["(Tool order optimized to minimize tool changes)",
         "(Unique tools: " ++
           String.intercalate ", " (toolOrder.map fun t => "T" ++ decStrS t) ++ ")",
         "(Total tool changes: " ++ decStrS toolOrder.length ++ ", reduced from " ++
           decStrS (toolSegs.length * totalParts) ++ ")",
         ""] ++
          toolOrder.flatMap (sortToolGroupBlock toolSegs totalParts positions)
    else
      if toolSegs.isEmpty then
        let ph := splitPhases sourceLines
        ph.preamble ++ [""] ++
          (lastFlags positions).flatMap (stdFallbackBlock ph.cutting totalParts) ++
          ph.postamble
      else
        ["(Standard replication - all tools per part in original order)",
         "(Tool changes per part: " ++ decStrS toolSegs.length ++ ")", ""] ++
          (match headerSegment with
           | some h => if h.lines ≠ [] then h.lines ++ [""] else []
           | none => []) ++
          (lastFlags positions).flatMap (stdToolBlock toolSegs totalParts)
  genBanner o totalParts skipSet ++ body ++ ["M30 (Program end)"]

/-- `generateReplicatedGCode` joined to a single string
(`output.join('\n')`, src/index.js 1346). -/
def generateReplicatedGCode (originalGcode : String) (o : GenOptions) : String :=
  String.intercalate "\n" (generateReplicatedGCodeLines originalGcode o)

/-! ## C3: concrete skip-spec behaviour -/

/-- **C3.** `parseSkipSpec` behaviour: `"1-4, 7, 9"` with `maxParts = 10`
yields `{1,2,3,4,7,9}` and no validation error; `"5-3"` yields an error
message containing the literal token `5-3`; `"100"` with `maxParts = 10`
yields an error; and empty or whitespace-only input yields the empty set and
no error for every `maxParts`. -/
theorem claim_C3 :
    parseSkipInstances "1-4, 7, 9" 10 = ({1, 2, 3, 4, 7, 9} : Finset ℤ) ∧
    validateSkipInstances "1-4, 7, 9" 10 = none ∧
    (∃ e : String, validateSkipInstances "5-3" 10 = some e ∧
      hasSub "5-3".data e.data = true) ∧
    (validateSkipInstances "100" 10).isSome = true ∧
    (∀ (maxParts : ℤ) (s : String), jsTrim s.data = [] →
      parseSkipInstances s maxParts = ∅ ∧ validateSkipInstances s maxParts = none) := by
  refine ⟨by decide, by decide,
    ⟨"Range end must be >= start: 5-3", by decide, by decide⟩, by decide, ?_⟩
  intro mp s h
  exact ⟨by simp [parseSkipInstances, h], by simp [validateSkipInstances, h]⟩

/-- Witness for C3's universally-quantified clause at a whitespace-only
input. -/
theorem claim_C3_witness :
    jsTrim "  ".data = [] ∧
    (parseSkipInstances "  " 10 = ∅ ∧ validateSkipInstances "  " 10 = none) :=
  ⟨by decide, claim_C3.2.2.2.2 10 "  " (by decide)⟩

/-! ## C10: parser range invariant -/

theorem rangeAdd_mem {a c k : ℤ} (h : k ∈ rangeAdd a c) : a ≤ k ∧ k ≤ c := by
  rw [rangeAdd, List.mem_toFinset, List.mem_map] at h
  obtain ⟨i, hi, hk⟩ := h
  rw [List.mem_range] at hi
  subst hk
  omega

theorem parseSkipToken_mem {mp : ℤ} {acc : Finset ℤ} {part : List Char} {k : ℤ}
    (hk : k ∈ parseSkipToken mp acc part) : k ∈ acc ∨ (1 ≤ k ∧ k ≤ mp) := by
  unfold parseSkipToken at hk
  dsimp only at hk
  split at hk
  · split at hk
    · split at hk
      · rename_i a b hab
        rw [Finset.mem_union] at hk
        rcases hk with hk | hk
        · exact Or.inl hk
        · have := rangeAdd_mem hk
          right
          omega
      · exact Or.inl hk
    · exact Or.inl hk
  · split at hk
    · split at hk
      · rename_i n hn
        rw [Finset.mem_insert] at hk
        rcases hk with hk | hk
        · right; omega
        · exact Or.inl hk
      · exact Or.inl hk
    · exact Or.inl hk

theorem foldl_skipToken_mem {mp : ℤ} (parts : List (List Char)) :
    ∀ (acc : Finset ℤ) (k : ℤ), k ∈ parts.foldl (parseSkipToken mp) acc →
      k ∈ acc ∨ (1 ≤ k ∧ k ≤ mp) := by
  induction parts with
  | nil => intro acc k h; exact Or.inl h
  | cons p r ih =>
    intro acc k h
    rcases ih (parseSkipToken mp acc p) k h with h' | h'
    · exact parseSkipToken_mem h'
    · exact Or.inr h'

/-- **C10.** Every integer returned by the skip-specification parser lies in
`[1, maxParts]`; a range whose end exceeds `maxParts` is silently clamped
(e.g. `"2-9"` with `maxParts = 4` gives `{2,3,4}`), while an out-of-range
single token or a malformed token contributes nothing. -/
theorem claim_C10 :
    (∀ (input : String) (maxParts : ℤ), 1 ≤ maxParts →
      ∀ k ∈ parseSkipInstances input maxParts, 1 ≤ k ∧ k ≤ maxParts) ∧
    parseSkipInstances "2-9" 4 = ({2, 3, 4} : Finset ℤ) ∧
    parseSkipInstances "100" 10 = ∅ ∧
    parseSkipInstances "abc" 10 = ∅ := by
  refine ⟨?_, by decide, by decide, by decide⟩
  intro input mp _ k hk
  unfold parseSkipInstances at hk
  split at hk
  · simp at hk
  · rcases foldl_skipToken_mem _ _ _ hk with h | h
    · simp at h
    · exact h

/-- Witness for C10's universally-quantified clause. -/
theorem claim_C10_witness :
    (1 ≤ (4 : ℤ)) ∧ ((3 : ℤ) ∈ parseSkipInstances "2-9" 4) ∧
      (1 ≤ (3 : ℤ) ∧ (3 : ℤ) ≤ 4) :=
  ⟨by decide, by decide, claim_C10.1 "2-9" 4 (by decide) 3 (by decide)⟩

/-! ## C4: grid planner -/

theorem filterMap_ite {α β : Type} (q : α → Prop) [DecidablePred q] (f : α → β)
    (l : List α) :
    (l.filterMap fun a => if q a then none else some (f a)) =
      (l.filter fun a => !decide (q a)).map f := by
  induction l with
  | nil => rfl
  | cons a t ih => by_cases h : q a <;> simp [h, ih]

theorem range_mul_flatMap (rows columns : ℕ) :
    List.range (rows * columns) =
      (List.range rows).flatMap (fun r => (List.range columns).map (fun c => r * columns + c)) := by
  induction rows with
  | zero => simp
  | succ n ih =>
    rw [Nat.succ_mul, List.range_add, ih, List.range_succ, List.flatMap_append]
    simp

/-- The 1-based part numbers `1 .. N` in order. -/
def partNumList (N : ℕ) : List ℕ := (List.range N).map (fun k : ℕ => k + 1)

/-- Whether a part number is in the skip set. -/
def inSkip (S : Finset ℤ) (k : ℕ) : Bool := decide ((k : ℤ) ∈ S)

theorem generatePositions_eq (rows columns : ℕ) (spX spY xm ym : ℚ) (S : Finset ℤ) :
    generatePositions rows columns spX spY xm ym S =
      (List.range rows).flatMap (fun r =>
        ((List.range columns).filter
            (fun c => !inSkip S (r * columns + c + 1))).map
          (fun c => (⟨r * columns + c + 1, r + 1, c + 1, (c : ℚ) * spX * xm,
            (r : ℚ) * spY * ym⟩ : Pos))) := by
  unfold generatePositions
  refine congrArg _ (funext fun r => ?_)
  exact filterMap_ite (fun c => ((r * columns + c + 1 : ℕ) : ℤ) ∈ S) _ _

theorem partNums_eq (rows columns : ℕ) (spX spY xm ym : ℚ) (S : Finset ℤ) :
    (generatePositions rows columns spX spY xm ym S).map Pos.partNum =
      (partNumList (rows * columns)).filter (fun k => !inSkip S k) := by
  rw [generatePositions_eq, List.map_flatMap, partNumList, range_mul_flatMap,
    List.map_flatMap, List.filter_flatMap]
  refine congrArg _ (funext fun r => ?_)
  rw [List.map_map, List.map_map, List.filter_map]
  rfl

theorem filter_inSkip_length (N : ℕ) (S : Finset ℤ)
    (hsub : S ⊆ Finset.Icc 1 (N : ℤ)) :
    ((partNumList N).filter (inSkip S)).length = S.card := by
  have hcomp : inSkip S = (fun z : ℤ => decide (z ∈ S)) ∘ Int.ofNat := by
    funext k; rfl
  have hlen : ((partNumList N).filter (inSkip S)).length =
      ((List.map Int.ofNat (partNumList N)).filter
        (fun z : ℤ => decide (z ∈ S))).length := by
    rw [List.filter_map, hcomp, List.length_map]
  rw [hlen]
  set KZ : List ℤ := List.map Int.ofNat (partNumList N) with hKZ
  have hnodupPN : (partNumList N).Nodup := by
    refine (List.nodup_range N).map ?_
    intro a b h
    simp only [] at h
    omega
  have hnodup : KZ.Nodup := by
    refine hnodupPN.map ?_
    intro a b h
    exact Int.ofNat_inj.mp h
  have hmemKZ : ∀ z : ℤ, z ∈ S → z ∈ KZ := by
    intro z hz
    have hz' := hsub hz
    rw [Finset.mem_Icc] at hz'
    rw [hKZ, partNumList, List.map_map, List.mem_map]
    refine ⟨z.toNat - 1, ?_, ?_⟩
    · rw [List.mem_range]; omega
    · simp only [Function.comp, Int.ofNat_eq_natCast]; omega
  have htf : (KZ.filter (fun z : ℤ => decide (z ∈ S))).toFinset = S := by
    rw [List.toFinset_filter]
    ext z
    simp only [Finset.mem_filter, List.mem_toFinset, decide_eq_true_eq]
    exact ⟨fun h => h.2, fun h => ⟨hmemKZ z h, h⟩⟩
  calc (KZ.filter (fun z : ℤ => decide (z ∈ S))).length
      = (KZ.filter (fun z : ℤ => decide (z ∈ S))).toFinset.card :=
        (List.toFinset_card_of_nodup (hnodup.filter _)).symm
    _ = S.card := by rw [htf]

/-- **C4.** For `rows ≥ 1`, `columns ≥ 1` and a validated skip set contained
in `[1, rows·columns]`, the grid planner emits exactly
`rows·columns − |skipSet|` instances, in strictly row-major order (part
numbers strictly increasing); each emitted instance comes from a 0-based
`(r, c)` cell with `partNumber = r·columns + c + 1`,
`offsetX = c·spacingX·xm`, `offsetY = r·spacingY·ym`, and no emitted part
number is in the skip set. -/
theorem claim_C4 (rows columns : ℕ) (spX spY xm ym : ℚ) (S : Finset ℤ)
    (hrows : 1 ≤ rows) (hcols : 1 ≤ columns)
    (hsub : S ⊆ Finset.Icc 1 ((rows * columns : ℕ) : ℤ)) :
    (generatePositions rows columns spX spY xm ym S).length =
        rows * columns - S.card ∧
    ((generatePositions rows columns spX spY xm ym S).map Pos.partNum).Pairwise (· < ·) ∧
    (∀ p ∈ generatePositions rows columns spX spY xm ym S,
      ∃ r < rows, ∃ c < columns,
        p = ⟨r * columns + c + 1, r + 1, c + 1, (c : ℚ) * spX * xm,
          (r : ℚ) * spY * ym⟩ ∧ ((p.partNum : ℕ) : ℤ) ∉ S) := by
  refine ⟨?_, ?_, ?_⟩
  · have h1 : (generatePositions rows columns spX spY xm ym S).length =
        ((partNumList (rows * columns)).filter (fun k => !inSkip S k)).length := by
      rw [← partNums_eq rows columns spX spY xm ym S, List.length_map]
    rw [h1]
    have h2 := List.length_eq_length_filter_add
      (l := partNumList (rows * columns)) (inSkip S)
    have h3 := filter_inSkip_length (rows * columns) S hsub
    have h4 : (partNumList (rows * columns)).length = rows * columns := by
      simp [partNumList]
    omega
  · rw [partNums_eq]
    refine List.Pairwise.sublist (List.filter_sublist _) ?_
    exact (List.pairwise_lt_range _).map _ (fun h => by omega)
  · intro p hp
    rw [generatePositions_eq] at hp
    simp only [List.mem_flatMap, List.mem_map, List.mem_filter, List.mem_range] at hp
    obtain ⟨r, hr, c, ⟨hc, hcond⟩, rfl⟩ := hp
    refine ⟨r, hr, c, hc, rfl, ?_⟩
    simpa [inSkip] using hcond

/-- Witness for C4 at a 2×2 grid skipping part 2. -/
theorem claim_C4_witness :
    (1 ≤ 2 ∧ 1 ≤ 2 ∧ ({2} : Finset ℤ) ⊆ Finset.Icc 1 ((2 * 2 : ℕ) : ℤ)) ∧
    ((generatePositions 2 2 10 20 1 (-1) {2}).length = 2 * 2 - ({2} : Finset ℤ).card ∧
      ((generatePositions 2 2 10 20 1 (-1) {2}).map Pos.partNum).Pairwise (· < ·) ∧
      (∀ p ∈ generatePositions 2 2 10 20 1 (-1) {2},
        ∃ r < 2, ∃ c < 2,
          p = ⟨r * 2 + c + 1, r + 1, c + 1, (c : ℚ) * 10 * 1,
            (r : ℚ) * 20 * (-1)⟩ ∧ ((p.partNum : ℕ) : ℤ) ∉ ({2} : Finset ℤ))) :=
  ⟨⟨by omega, by omega, by decide⟩,
    claim_C4 2 2 10 20 1 (-1) {2} (by omega) (by omega) (by decide)⟩

/-! ## C2: full-circle arc bounds -/

theorem normalizeAngle_zero : normalizeAngle 0 = 0 := by
  unfold normalizeAngle
  norm_num

theorem normalizeAngle_of_lt (a : ℝ) (h0 : 0 ≤ a) (h1 : a < 2 * Real.pi) :
    normalizeAngle a = a := by
  unfold normalizeAngle
  have hpi := Real.pi_pos
  have hfl : ⌊a / (2 * Real.pi)⌋ = 0 := by
    rw [Int.floor_eq_zero_iff]
    constructor
    · positivity
    · rw [div_lt_one (by positivity)]
      simpa using h1
  rw [hfl]
  norm_num

theorem angleInArc_self_zero : angleInArc true 0 0 0 := by
  unfold angleInArc
  rw [normalizeAngle_zero]
  norm_num

theorem angleInArc_pos_not (a : ℝ) (h0 : 0 < a) (h1 : a < 2 * Real.pi) :
    ¬ angleInArc true 0 0 a := by
  unfold angleInArc
  rw [normalizeAngle_of_lt a h0.le h1]
  simp only [ge_iff_le, le_refl, if_pos, if_true]
  intro hcon
  exact absurd hcon.1 (by linarith)

/-- **C2 (code evaluation).** On the spec's full-circle example — radius 5
centred at the origin, start = end at angle 0, clockwise — the arc bounds
calculation returns the degenerate box `[5,5] × [0,0]` (only the cardinal
angle equal to the normalized start angle counts as covered when the
normalized start and end angles coincide), not the full-circle box
`[-5,5] × [-5,5]` the claim requires. -/
theorem claim_C2_code_eval :
    calculateArcBounds 0 0 5 0 0 true = ⟨5, 5, 0, 0⟩ ∧
    calculateArcBounds 0 0 5 0 0 true ≠ ⟨-5, 5, -5, 5⟩ := by
  have hpi := Real.pi_pos
  have h2pi : Real.pi < 2 * Real.pi := by linarith
  have hhalf : Real.pi / 2 < 2 * Real.pi := by linarith
  have hthree : 3 * Real.pi / 2 < 2 * Real.pi := by linarith
  have hmain : calculateArcBounds 0 0 5 0 0 true = ⟨5, 5, 0, 0⟩ := by
    unfold calculateArcBounds
    rw [normalizeAngle_zero]
    dsimp only
    rw [if_pos angleInArc_self_zero,
      if_neg (angleInArc_pos_not _ (by positivity) hhalf),
      if_neg (angleInArc_pos_not _ hpi h2pi),
      if_neg (angleInArc_pos_not _ (by positivity) hthree)]
    norm_num
  refine ⟨hmain, ?_⟩
  rw [hmain]
  intro hcon
  have := congrArg ArcBox.minX hcon
  norm_num at this

/-! ## C1: bounds of `G1 X10 Y20` -/

theorem analyzeGCodeBounds_single :
    analyzeGCodeBounds "G1 X10 Y20" = ⟨⟨10, 20, 0⟩, ⟨10, 20, 0⟩⟩ := by
  have hsplit : (splitCh '\n' "G1 X10 Y20".data).map List.asString = ["G1 X10 Y20"] := by
    decide
  have hscan : scanLine "G1 X10 Y20" =
      ⟨false, false, false, false, false, false, false, true, false, false,
        some 10, some 20, none, none, none⟩ := by with_unfolding_all decide
  unfold analyzeGCodeBounds
  rw [hsplit]
  simp only [List.foldl_cons, List.foldl_nil]
  unfold analyzeStep
  rw [hscan]
  norm_num [optMin, optMax]

/-- **C1 (counterexample).** The bounds analyzer on the one-line program
`G1 X10 Y20` does not return `min = (0,0,0)`: only the post-motion endpoint
extends the bounding box, so `min.x = 10`, not `0`. -/
theorem claim_C1_counterexample :
    analyzeGCodeBounds "G1 X10 Y20" ≠ ⟨⟨0, 0, 0⟩, ⟨10, 20, 0⟩⟩ := by
  rw [analyzeGCodeBounds_single]
  intro hcon
  have h1 := congrArg (fun b : BoundsBox => b.min.x) hcon
  norm_num at h1

/-- **C1 (amended).** For the program whose only line is `G1 X10 Y20`,
starting at the origin with default modal state, `analyzeGCodeBounds`
returns `min = (10, 20, 0)` and `max = (10, 20, 0)`: the analyzer extends
the box only with the endpoint of each cutting move (the start point is not
included), and the untouched Z axis collapses to `0`. -/
theorem claim_C1_amended :
    analyzeGCodeBounds "G1 X10 Y20" = ⟨⟨10, 20, 0⟩, ⟨10, 20, 0⟩⟩ :=
  analyzeGCodeBounds_single

/-! ## C8: incremental mode pass-through and per-instance fresh state -/

theorem createOffsetFn_shape (ox oy : ℚ) (st : Bool) (line : String) :
    (createOffsetFn ox oy st line).1 = line ∨
      (createOffsetFn ox oy st line).2 = true := by
  unfold createOffsetFn
  dsimp only
  repeat' split
  all_goals first
    | exact Or.inl rfl
    | (right; simp_all)

theorem createOffsetFn_incremental (ox oy : ℚ) (st : Bool) (line : String) :
    (createOffsetFn ox oy st line).2 = false →
    (createOffsetFn ox oy st line).1 = line := by
  intro h
  rcases createOffsetFn_shape ox oy st line with h1 | h1
  · exact h1
  · rw [h] at h1; cases h1

/-- **C8.** The per-instance line offset transformer returns any line
processed in Incremental mode (the tracked flag after the line's own mode
updates) character-for-character unchanged; and each instance's transformer
starts from a fresh Absolute state, so a mode switch during one instance's
rewrite does not leak into the next instance: with a source body ending in
`G91` / `G1 X2`, instance 2's leading `G1 X1` is still offset
(`G1 X11.000`) while the incremental `G1 X2` is replayed verbatim in both
instances. -/
theorem claim_C8 :
    (∀ (ox oy : ℚ) (st : Bool) (line : String),
      (createOffsetFn ox oy st line).2 = false →
      (createOffsetFn ox oy st line).1 = line) ∧
    generateReplicatedGCodeLines "T1 M6\nG1 X1\nG91\nG1 X2"
        ⟨1, 2, "positive", "positive", 10, 10, 5, 5, false, "", "p.nc"⟩ =
      ["(Replicated G-code generated by Replicator Plugin)", "(Source: p.nc)",
       "(Grid: 2 columns x 1 rows = 2 parts)", "(Gap: X=5.000mm, Y=5.000mm)",
       "(X Direction: positive, Y Direction: positive)", "(Sort by Tool: No)", "",
       "(Standard replication - all tools per part in original order)",
       "(Tool changes per part: 1)", "",
       "(Part 1 of 2 - Row 1, Col 1)", "(Offset: X=0.000, Y=0.000)", "",
       "T1 M6", "G1 X1.000", "G91", "G1 X2", "",
       "(Part 2 of 2 - Row 1, Col 2)", "(Offset: X=10.000, Y=0.000)", "",
       "T1 M6", "G1 X11.000", "G91", "G1 X2", "",
       "M30 (Program end)"] :=
  ⟨createOffsetFn_incremental, by with_unfolding_all decide⟩

/-- Witness for C8's universally-quantified clause: a `G91 X5` line enters
Incremental mode and is returned unchanged. -/
theorem claim_C8_witness :
    (createOffsetFn 10 5 true "G91 X5").2 = false ∧
    (createOffsetFn 10 5 true "G91 X5").1 = "G91 X5" :=
  ⟨by with_unfolding_all decide,
    claim_C8.1 10 5 true "G91 X5" (by with_unfolding_all decide)⟩

/-! ## C7: 1×1 identity assembly -/

/-- **C7 (counterexample).** Assembling `G90 / M3 / G1 X10 Y20 / M5 / M30`
with rows = 1, columns = 1 and empty skip specification does not reproduce
the cutting line `G1 X10 Y20` character-for-character: the zero-offset
rewrite still reformats X/Y values to three decimals, emitting
`G1 X10.000 Y20.000` instead. -/
theorem claim_C7_counterexample :
    "G1 X10 Y20" ∈
      (splitPhases ((splitCh '\n' ("G90\nM3\nG1 X10 Y20\nM5\nM30").data).map
        List.asString)).cutting ∧
    "G1 X10 Y20" ∉
      generateReplicatedGCodeLines "G90\nM3\nG1 X10 Y20\nM5\nM30"
        ⟨1, 1, "positive", "positive", 10, 10, 5, 5, false, "", "p.nc"⟩ := by
  with_unfolding_all decide

/-- **C7 (amended).** Assembling with rows = 1, columns = 1 and empty skip
reproduces the original cutting content with zero offset, up to reformatting:
lines without X/Y coordinate tokens pass through `createOffsetFn` unchanged
for any offset; a source whose X/Y values are already in 3-decimal form is
reproduced character-for-character (full output shown); and a cutting line
such as `G1 X10 Y20` is re-emitted as the numerically equal
`G1 X10.000 Y20.000`. -/
theorem claim_C7_amended :
    (∀ (ox oy : ℚ) (st : Bool) (line : String),
      (trimUpper line).contains 'X' = false →
      (trimUpper line).contains 'Y' = false →
      (createOffsetFn ox oy st line).1 = line) ∧
    generateReplicatedGCodeLines "G90\nM3\nG1 X10.000 Y20.000\nM5\nM30"
        ⟨1, 1, "positive", "positive", 10, 10, 5, 5, false, "", "p.nc"⟩ =
      ["(Replicated G-code generated by Replicator Plugin)", "(Source: p.nc)",
       "(Grid: 1 columns x 1 rows = 1 parts)", "(Gap: X=5.000mm, Y=5.000mm)",
       "(X Direction: positive, Y Direction: positive)", "(Sort by Tool: No)", "",
       "G90", "",
       "(Part 1 of 1 - Row 1, Col 1)", "(Offset: X=0.000, Y=0.000)",
       "M3", "G1 X10.000 Y20.000", "", "M5",
       "M30 (Program end)"] ∧
    "G1 X10.000 Y20.000" ∈
      generateReplicatedGCodeLines "G90\nM3\nG1 X10 Y20\nM5\nM30"
        ⟨1, 1, "positive", "positive", 10, 10, 5, 5, false, "", "p.nc"⟩ := by
  refine ⟨?_, by with_unfolding_all decide, by with_unfolding_all decide⟩
  intro ox oy st line hx hy
  unfold createOffsetFn
  dsimp only
  repeat' split
  all_goals first
    | rfl
    | simp_all

/-- Witness for C7's universally-quantified clause: a coordinate-free line
passes through unchanged. -/
theorem claim_C7_witness :
    (trimUpper "M3").contains 'X' = false ∧
    (trimUpper "M3").contains 'Y' = false ∧
    (createOffsetFn 10 5 true "M3").1 = "M3" :=
  ⟨by decide, by decide, claim_C7_amended.1 10 5 true "M3" (by decide) (by decide)⟩

/-! ## Span-replacement relation

`createOffsetFn` rewrites a line by replacing each `X`/`Y` coordinate
numeral with the letter followed by a fixed 3-decimal numeral.  `SpanEq`
relates a character list to any list obtained by such replacements: all
characters are copied except spans `L · numeral` where the letter is
upper-cased and the numeral (non-empty, ending in a digit, made of digits,
dot and signs) is exchanged for another of the same shape.  The tool-change,
program-end and spindle-stop classifiers never look inside such spans, so
they are invariant under `SpanEq`. -/

/-- Characters that may appear in a coordinate numeral (either the matched
`[+-]?\d*\.?\d+` span or the emitted `toFixed(3)` text). -/
def isNumChar (c : Char) : Bool := c.isDigit || c = '.' || c = '-' || c = '+'

/-- Letter pair of a replacement span: the upper-case letter emitted and
the letter found in the source (either case). -/
def coordPair (ℓ L : Char) : Prop :=
  (ℓ = 'X' ∧ (L = 'x' ∨ L = 'X')) ∨ (ℓ = 'Y' ∧ (L = 'y' ∨ L = 'Y'))

/-- The relation between a line and its X/Y-numeral rewriting. -/
inductive SpanEq : List Char → List Char → Prop
  | nil : SpanEq [] []
  | copy (c : Char) {u v : List Char} : SpanEq u v → SpanEq (c :: u) (c :: v)
  | subst (ℓ L : Char) (a b : List Char) {u v : List Char} :
      coordPair ℓ L →
      (∀ c ∈ a, isNumChar c = true) → (∀ c ∈ b, isNumChar c = true) →
      (∃ d, a.getLast? = some d ∧ d.isDigit = true) →
      (∃ d, b.getLast? = some d ∧ d.isDigit = true) →
      SpanEq u v → SpanEq (L :: (a ++ u)) (ℓ :: (b ++ v))

theorem SpanEq.refl : ∀ s : List Char, SpanEq s s
  | [] => SpanEq.nil
  | c :: r => SpanEq.copy c (SpanEq.refl r)

theorem SpanEq.nil_iff {s t : List Char} (h : SpanEq s t) : s = [] ↔ t = [] := by
  cases h <;> simp

/-! ### Character-class facts about the replacement text -/

theorem decStr_ne_nil (n : ℕ) : decStr n ≠ [] := by
  unfold decStr
  split <;> simp

theorem decStr_digits (n : ℕ) : ∀ c ∈ decStr n, c.isDigit = true := by
  induction n using Nat.strong_induction_on with
  | _ n ih =>
    unfold decStr
    split
    · rename_i h
      intro c hc
      simp only [List.mem_singleton] at hc
      subst hc
      interval_cases n <;> decide
    · rename_i h
      intro c hc
      rw [List.mem_append] at hc
      rcases hc with hc | hc
      · exact ih (n / 10) (by omega) c hc
      · simp only [List.mem_singleton] at hc
        subst hc
        have h10 : n % 10 < 10 := Nat.mod_lt _ (by omega)
        set m := n % 10 with hm
        interval_cases m <;> decide

theorem decStr_last_digit (n : ℕ) :
    ∃ d, (decStr n).getLast? = some d ∧ d.isDigit = true := by
  refine ⟨(decStr n).getLast (decStr_ne_nil n),
    List.getLast?_eq_getLast _ _, ?_⟩
  exact decStr_digits n _ (List.getLast_mem _)

theorem getLast?_cons_ne_nil (a : Char) {l : List Char} (h : l ≠ []) :
    (a :: l).getLast? = l.getLast? := by
  cases l with
  | nil => exact absurd rfl h
  | cons b t => exact List.getLast?_cons_cons

/-- The fractional-digits part of `qToFixed3`. -/
def fixedFrac (fp : ℕ) : List Char :=
  if fp < 10 then '0' :: '0' :: decStr fp
  else if fp < 100 then '0' :: decStr fp
  else decStr fp

theorem qToFixed3_eq (q : ℚ) :
    qToFixed3 q =
      (if q < 0 then ['-'] else []) ++ decStr ((⌊|q| * 1000 + 1 / 2⌋).toNat / 1000) ++
        '.' :: fixedFrac ((⌊|q| * 1000 + 1 / 2⌋).toNat % 1000) := rfl

theorem fixedFrac_digits (fp : ℕ) : ∀ c ∈ fixedFrac fp, c.isDigit = true := by
  unfold fixedFrac
  intro c hc
  split at hc
  · simp only [List.mem_cons] at hc
    rcases hc with hc | hc | hc
    · subst hc; decide
    · subst hc; decide
    · exact decStr_digits _ _ hc
  · split at hc
    · simp only [List.mem_cons] at hc
      rcases hc with hc | hc
      · subst hc; decide
      · exact decStr_digits _ _ hc
    · exact decStr_digits _ _ hc

theorem fixedFrac_getLast (fp : ℕ) :
    ∃ d, (fixedFrac fp).getLast? = some d ∧ d.isDigit = true := by
  obtain ⟨d, hd1, hd2⟩ := decStr_last_digit fp
  unfold fixedFrac
  split
  · refine ⟨d, ?_, hd2⟩
    rw [getLast?_cons_ne_nil _ (by simp [decStr_ne_nil]),
      getLast?_cons_ne_nil _ (decStr_ne_nil fp)]
    exact hd1
  · split
    · refine ⟨d, ?_, hd2⟩
      rw [getLast?_cons_ne_nil _ (decStr_ne_nil fp)]
      exact hd1
    · exact ⟨d, hd1, hd2⟩

theorem qToFixed3_numChars (q : ℚ) : ∀ c ∈ qToFixed3 q, isNumChar c = true := by
  rw [qToFixed3_eq]
  intro c hc
  simp only [List.mem_append, List.mem_cons] at hc
  rcases hc with (hc | hc) | hc | hc
  · split at hc <;> simp_all [isNumChar]
  · simp [isNumChar, decStr_digits _ _ hc]
  · subst hc; rfl
  · simp [isNumChar, fixedFrac_digits _ _ hc]

theorem qToFixed3_last_digit (q : ℚ) :
    ∃ d, (qToFixed3 q).getLast? = some d ∧ d.isDigit = true := by
  rw [qToFixed3_eq]
  obtain ⟨d, hd1, hd2⟩ := fixedFrac_getLast ((⌊|q| * 1000 + 1 / 2⌋).toNat % 1000)
  have hfne : fixedFrac ((⌊|q| * 1000 + 1 / 2⌋).toNat % 1000) ≠ [] := by
    intro hcon; rw [hcon] at hd1; simp at hd1
  refine ⟨d, ?_, hd2⟩
  rw [List.append_assoc, List.getLast?_append_of_ne_nil _ (by simp),
    List.getLast?_append_of_ne_nil _ (by simp),
    getLast?_cons_ne_nil _ hfne]
  exact hd1

theorem qToFixed3_ne_nil (q : ℚ) : qToFixed3 q ≠ [] := by
  obtain ⟨d, hd1, -⟩ := qToFixed3_last_digit q
  intro hcon
  rw [hcon] at hd1
  simp at hd1

/-! ### Decomposition of a matched numeral -/

theorem takeWhile_digits_numChars (l : List Char) :
    ∀ c ∈ l.takeWhile Char.isDigit, isNumChar c = true := by
  intro c hc
  have := List.mem_takeWhile_imp hc
  simp [isNumChar, this]

theorem takeWhile_getLast_digit {l : List Char}
    (h : l.takeWhile Char.isDigit ≠ []) :
    ∃ d, (l.takeWhile Char.isDigit).getLast? = some d ∧ d.isDigit = true := by
  refine ⟨(l.takeWhile Char.isDigit).getLast h, List.getLast?_eq_getLast _ _, ?_⟩
  exact List.mem_takeWhile_imp (List.getLast_mem h)

theorem scanNumBody_decomp {sgn v : ℚ} {cs1 r' : List Char}
    (h : scanNumBody sgn cs1 = some (v, r')) :
    ∃ con, cs1 = con ++ r' ∧ (∀ c ∈ con, isNumChar c = true) ∧
      ∃ d, con.getLast? = some d ∧ d.isDigit = true := by
  have hsplit := List.takeWhile_append_dropWhile (p := Char.isDigit) (l := cs1)
  unfold scanNumBody at h
  dsimp only at h
  split at h
  case h_1 cs3 heq =>
    have hsplit3 := List.takeWhile_append_dropWhile (p := Char.isDigit) (l := cs3)
    split at h
    · rename_i hd2
      simp only [Option.some.injEq, Prod.mk.injEq] at h
      obtain ⟨-, hr⟩ := h; subst hr
      refine ⟨cs1.takeWhile Char.isDigit ++ '.' :: cs3.takeWhile Char.isDigit,
        ?_, ?_, ?_⟩
      · calc cs1 = cs1.takeWhile Char.isDigit ++ cs1.dropWhile Char.isDigit :=
              hsplit.symm
          _ = cs1.takeWhile Char.isDigit ++ '.' ::
                (cs3.takeWhile Char.isDigit ++ cs3.dropWhile Char.isDigit) := by
              rw [heq, hsplit3]
          _ = (cs1.takeWhile Char.isDigit ++ '.' :: cs3.takeWhile Char.isDigit) ++
                cs3.dropWhile Char.isDigit := by simp
      · intro c hc
        simp only [List.mem_append, List.mem_cons] at hc
        rcases hc with hc | hc | hc
        · exact takeWhile_digits_numChars _ c hc
        · subst hc; rfl
        · exact takeWhile_digits_numChars _ c hc
      · have hne : cs3.takeWhile Char.isDigit ≠ [] := by
          simp only [Bool.not_eq_true'] at hd2
          simpa using hd2
        obtain ⟨d, hd, hdig⟩ := takeWhile_getLast_digit hne
        refine ⟨d, ?_, hdig⟩
        rw [List.getLast?_append_of_ne_nil _ (by simp [hne]),
          getLast?_cons_ne_nil _ hne]
        exact hd
    · split at h
      · rename_i hd2 hd1
        simp only [Option.some.injEq, Prod.mk.injEq] at h
        obtain ⟨-, hr⟩ := h; subst hr
        have hne : cs1.takeWhile Char.isDigit ≠ [] := by
          simpa using hd1
        refine ⟨cs1.takeWhile Char.isDigit, ?_, takeWhile_digits_numChars _, ?_⟩
        · rw [← heq, hsplit]
        · exact takeWhile_getLast_digit hne
      · exact absurd h (by simp)
  case h_2 heq₂ =>
    split at h
    · rename_i hd1
      simp only [Option.some.injEq, Prod.mk.injEq] at h
      obtain ⟨-, hr⟩ := h; subst hr
      have hne : cs1.takeWhile Char.isDigit ≠ [] := by
        simpa using hd1
      exact ⟨cs1.takeWhile Char.isDigit, hsplit.symm,
        takeWhile_digits_numChars _, takeWhile_getLast_digit hne⟩
    · exact absurd h (by simp)

theorem scanNum_decomp {cs r' : List Char} {v : ℚ}
    (h : scanNum cs = some (v, r')) :
    ∃ con, cs = con ++ r' ∧ con ≠ [] ∧ (∀ c ∈ con, isNumChar c = true) ∧
      ∃ d, con.getLast? = some d ∧ d.isDigit = true := by
  unfold scanNum at h
  split at h
  case h_1 t =>
    obtain ⟨con, hcs, hnc, d, hd, hdig⟩ := scanNumBody_decomp h
    have hconne : con ≠ [] := by
      intro hcon; rw [hcon] at hd; simp at hd
    refine ⟨'+' :: con, by simp [hcs], by simp, ?_, d, ?_, hdig⟩
    · intro c hc
      simp only [List.mem_cons] at hc
      rcases hc with hc | hc
      · subst hc; rfl
      · exact hnc c hc
    · rw [getLast?_cons_ne_nil _ hconne]; exact hd
  case h_2 t =>
    obtain ⟨con, hcs, hnc, d, hd, hdig⟩ := scanNumBody_decomp h
    have hconne : con ≠ [] := by
      intro hcon; rw [hcon] at hd; simp at hd
    refine ⟨'-' :: con, by simp [hcs], by simp, ?_, d, ?_, hdig⟩
    · intro c hc
      simp only [List.mem_cons] at hc
      rcases hc with hc | hc
      · subst hc; rfl
      · exact hnc c hc
    · rw [getLast?_cons_ne_nil _ hconne]; exact hd
  case h_3 =>
    obtain ⟨con, hcs, hnc, d, hd, hdig⟩ := scanNumBody_decomp h
    have hconne : con ≠ [] := by
      intro hcon; rw [hcon] at hd; simp at hd
    exact ⟨con, hcs, hconne, hnc, d, hd, hdig⟩

/-! ### The rewrite is a span replacement -/

theorem replNum_spanEq (lo hi : Char) (off : ℚ)
    (hpair : (hi = 'X' ∧ lo = 'x') ∨ (hi = 'Y' ∧ lo = 'y')) :
    ∀ cs, SpanEq cs (replNum lo hi off cs) := by
  intro cs
  induction cs using replNum.induct lo hi off with
  | case1 =>
    simpa only [replNum] using SpanEq.nil
  | case2 c rest h vr hscan ih =>
    rw [replNum, if_pos h, hscan]
    obtain ⟨con, hrest, hconne, hnum, d, hlast, hdig⟩ := scanNum_decomp hscan
    rw [hrest]
    have hcp : coordPair hi c := by
      have hc : c = lo ∨ c = hi := by
        rcases Bool.or_eq_true_iff.mp h with h' | h'
        · exact Or.inl (by simpa using h')
        · exact Or.inr (by simpa using h')
      rcases hpair with ⟨hup, hlo⟩ | ⟨hup, hlo⟩ <;> rcases hc with hc | hc <;>
        subst hc <;> subst hlo <;> subst hup <;> simp [coordPair]
    have : SpanEq (c :: (con ++ vr.2))
        (hi :: (qToFixed3 (vr.1 + off) ++ replNum lo hi off vr.2)) :=
      SpanEq.subst hi c con (qToFixed3 (vr.1 + off)) hcp hnum
        (qToFixed3_numChars _) ⟨d, hlast, hdig⟩ (qToFixed3_last_digit _) ih
    simpa using this
  | case3 c rest h hscan ih =>
    rw [replNum, if_pos h, hscan]
    exact SpanEq.copy c ih
  | case4 c rest h ih =>
    rw [replNum, if_neg (by simpa using h)]
    exact SpanEq.copy c ih

/-! ### `SpanEq` is preserved by `toUpperCase` and `trim` -/

theorem toUpper_digit {c : Char} (h : c.isDigit = true) : Char.toUpper c = c := by
  simp only [Char.isDigit, Bool.and_eq_true, decide_eq_true_eq] at h
  have h2 : c.val.toNat ≤ (57 : UInt32).toNat := h.2
  have e2 : (57 : UInt32).toNat = 57 := rfl
  unfold Char.toUpper
  dsimp only
  rw [if_neg]
  intro hcon
  have h1 : 97 ≤ c.toNat := hcon.1
  have hv : c.toNat = c.val.toNat := rfl
  omega

theorem isNumChar_toUpper {c : Char} (h : isNumChar c = true) :
    Char.toUpper c = c := by
  unfold isNumChar at h
  simp only [Bool.or_eq_true, decide_eq_true_eq] at h
  rcases h with ((h | h) | h) | h
  · exact toUpper_digit h
  · subst h; decide
  · subst h; decide
  · subst h; decide

theorem spanEq_upper {s t : List Char} (h : SpanEq s t) :
    SpanEq (upper s) (upper t) := by
  induction h with
  | nil => exact SpanEq.nil
  | copy c h ih => exact SpanEq.copy (Char.toUpper c) ih
  | subst ℓ L a b hcp ha hb hda hdb h ih =>
    have hup : ∀ l : List Char, (∀ c ∈ l, isNumChar c = true) →
        List.map Char.toUpper l = l := by
      intro l hl
      induction l with
      | nil => rfl
      | cons c r ihr =>
        rw [List.map_cons, isNumChar_toUpper (hl c (by simp)),
          ihr (fun d hd => hl d (by simp [hd]))]
    have hL : Char.toUpper L = ℓ := by
      rcases hcp with ⟨hu, hl | hl⟩ | ⟨hu, hl | hl⟩ <;> subst hu <;> subst hl <;> decide
    have hℓ : Char.toUpper ℓ = ℓ := by
      rcases hcp with ⟨hu, -⟩ | ⟨hu, -⟩ <;> subst hu <;> decide
    have hℓcp : coordPair ℓ ℓ := by
      rcases hcp with ⟨hu, -⟩ | ⟨hu, -⟩ <;> subst hu <;> simp [coordPair]
    simp only [upper, List.map_cons, List.map_append] at ih ⊢
    rw [hL, hℓ, hup a ha, hup b hb]
    exact SpanEq.subst ℓ ℓ a b hℓcp ha hb hda hdb ih

theorem coordPair_not_ws {ℓ L : Char} (h : coordPair ℓ L) :
    isWS L = false ∧ isWS ℓ = false := by
  rcases h with ⟨hu, hl | hl⟩ | ⟨hu, hl | hl⟩ <;> subst hu <;> subst hl <;> decide

theorem coordPair_not_digit {ℓ L : Char} (h : coordPair ℓ L) :
    L.isDigit = false ∧ ℓ.isDigit = false := by
  rcases h with ⟨hu, hl | hl⟩ | ⟨hu, hl | hl⟩ <;> subst hu <;> subst hl <;> decide

theorem coordPair_word {ℓ L : Char} (h : coordPair ℓ L) :
    isWordCh L = true ∧ isWordCh ℓ = true := by
  rcases h with ⟨hu, hl | hl⟩ | ⟨hu, hl | hl⟩ <;> subst hu <;> subst hl <;> decide

theorem coordPair_ne {ℓ L : Char} (h : coordPair ℓ L) (c : Char)
    (hc : c = 'M' ∨ c = 'T' ∨ c = '6' ∨ c = '5' ∨ c = '0' ∨ c = '(' ∨ c = ';' ∨
      c = '%' ∨ c = ')' ∨ c = 'N' ∨ c = 'n' ∨ c = '.') :
    (L = c) = False ∧ (ℓ = c) = False := by
  rcases h with ⟨hu, hl | hl⟩ | ⟨hu, hl | hl⟩ <;> subst hu <;> subst hl <;>
    (constructor <;> simp only [eq_iff_iff, iff_false] <;> intro hcon <;>
      subst hcon <;> rcases hc with h | h | h | h | h | h | h | h | h | h | h | h <;>
      simp_all)

theorem numChar_ne {c : Char} (h : isNumChar c = true) (c₀ : Char)
    (hc : c₀ = 'M' ∨ c₀ = 'T' ∨ c₀ = '(' ∨ c₀ = ';' ∨ c₀ = '%' ∨ c₀ = ')' ∨
      c₀ = 'N' ∨ c₀ = 'n') : c ≠ c₀ := by
  intro hcon
  subst hcon
  rcases hc with h' | h' | h' | h' | h' | h' | h' | h' <;> subst h' <;>
    simp [isNumChar] at h

/-- Drop a leading-whitespace run on both sides. -/
theorem spanEq_dropWS {s t : List Char} (h : SpanEq s t) :
    SpanEq (s.dropWhile isWS) (t.dropWhile isWS) := by
  induction h with
  | nil => exact SpanEq.nil
  | copy c h ih =>
    by_cases hc : isWS c
    · simpa [List.dropWhile, hc] using ih
    · simpa [List.dropWhile, hc] using SpanEq.copy c h
  | subst ℓ L a b hcp ha hb hda hdb h ih =>
    obtain ⟨hL, hℓ⟩ := coordPair_not_ws hcp
    simpa [List.dropWhile, hL, hℓ] using SpanEq.subst ℓ L a b hcp ha hb hda hdb h

/-- The digit prefix is copied verbatim and the remainders stay related. -/
theorem spanEq_digits {s t : List Char} (h : SpanEq s t) :
    s.takeWhile Char.isDigit = t.takeWhile Char.isDigit ∧
    SpanEq (s.dropWhile Char.isDigit) (t.dropWhile Char.isDigit) := by
  induction h with
  | nil => exact ⟨rfl, SpanEq.nil⟩
  | copy c h ih =>
    by_cases hc : c.isDigit
    · exact ⟨by simp [List.takeWhile, hc, ih.1], by simpa [List.dropWhile, hc] using ih.2⟩
    · exact ⟨by simp [List.takeWhile, hc], by simpa [List.dropWhile, hc] using SpanEq.copy c h⟩
  | subst ℓ L a b hcp ha hb hda hdb h ih =>
    obtain ⟨hL, hℓ⟩ := coordPair_not_digit hcp
    exact ⟨by simp [List.takeWhile, hL, hℓ],
      by simpa [List.dropWhile, hL, hℓ] using SpanEq.subst ℓ L a b hcp ha hb hda hdb h⟩

/-- The zero run is copied verbatim and the remainders stay related. -/
theorem spanEq_zeros {s t : List Char} (h : SpanEq s t) :
    s.takeWhile (· = '0') = t.takeWhile (· = '0') ∧
    SpanEq (s.dropWhile (· = '0')) (t.dropWhile (· = '0')) := by
  induction h with
  | nil => exact ⟨rfl, SpanEq.nil⟩
  | copy c h ih =>
    by_cases hc : c = '0'
    · exact ⟨by simp [List.takeWhile, hc, ih.1], by simpa [List.dropWhile, hc] using ih.2⟩
    · exact ⟨by simp [List.takeWhile, hc], by simpa [List.dropWhile, hc] using SpanEq.copy c h⟩
  | subst ℓ L a b hcp ha hb hda hdb h ih =>
    obtain ⟨hL, hℓ⟩ := coordPair_ne hcp '0' (by simp)
    constructor
    · rw [List.takeWhile_cons, List.takeWhile_cons]
      simp [hL, hℓ]
    · rw [List.dropWhile_cons, List.dropWhile_cons]
      simpa [hL, hℓ] using SpanEq.subst ℓ L a b hcp ha hb hda hdb h

/-- Trailing-boundary test agrees on related lists. -/
theorem spanEq_boundaryOk {s t : List Char} (h : SpanEq s t) :
    boundaryOk s = boundaryOk t := by
  cases h with
  | nil => rfl
  | copy c h => rfl
  | subst ℓ L a b hcp ha hb hda hdb h =>
    obtain ⟨hL, hℓ⟩ := coordPair_word hcp
    simp [boundaryOk, hL, hℓ]

/-- Remove trailing whitespace, recursively from the left. -/
def dropTrailingWS : List Char → List Char
  | [] => []
  | c :: r =>
    let r' := dropTrailingWS r
    if r'.isEmpty && isWS c then [] else c :: r'

theorem dropTrailingWS_cons (c : Char) (r : List Char) :
    dropTrailingWS (c :: r) =
      if (dropTrailingWS r).isEmpty && isWS c then [] else c :: dropTrailingWS r := rfl

theorem dropTrailingWS_concat (ys : List Char) (y : Char) :
    dropTrailingWS (ys ++ [y]) =
      if isWS y then dropTrailingWS ys else ys ++ [y] := by
  induction ys with
  | nil =>
    by_cases hy : isWS y <;> simp [dropTrailingWS_cons, dropTrailingWS, hy]
  | cons c r ih =>
    rw [List.cons_append, dropTrailingWS_cons, ih]
    by_cases hy : isWS y
    · rw [if_pos hy, if_pos hy, dropTrailingWS_cons]
    · rw [if_neg hy, if_neg hy]
      have : (r ++ [y]).isEmpty = false := by simp
      rw [this]
      simp

theorem reverse_dropWhile_reverse (l : List Char) :
    (l.reverse.dropWhile isWS).reverse = dropTrailingWS l := by
  induction l using List.reverseRecOn with
  | nil => rfl
  | append_singleton ys y ih =>
    rw [List.reverse_append, dropTrailingWS_concat]
    by_cases hy : isWS y
    · rw [if_pos hy]
      simp only [List.reverse_singleton, List.singleton_append, List.dropWhile_cons]
      rw [if_pos hy]
      exact ih
    · rw [if_neg hy]
      simp only [List.reverse_singleton, List.singleton_append, List.dropWhile_cons]
      rw [if_neg (by simp [hy])]
      simp

theorem jsTrim_eq (cs : List Char) :
    jsTrim cs = dropTrailingWS (cs.dropWhile isWS) := by
  unfold jsTrim
  rw [reverse_dropWhile_reverse]

theorem dropTrailingWS_append (x y : List Char) :
    dropTrailingWS (x ++ y) =
      if (dropTrailingWS y).isEmpty then dropTrailingWS x
      else x ++ dropTrailingWS y := by
  induction x with
  | nil =>
    by_cases h : (dropTrailingWS y).isEmpty
    · rw [List.nil_append, if_pos h]
      rw [List.isEmpty_iff] at h
      rw [h]
      rfl
    · rw [List.nil_append, if_neg h, List.nil_append]
  | cons c r ih =>
    rw [List.cons_append, dropTrailingWS_cons, ih]
    by_cases h : (dropTrailingWS y).isEmpty
    · rw [if_pos h, if_pos h, dropTrailingWS_cons]
    · rw [if_neg h, if_neg h]
      have hne : (r ++ dropTrailingWS y).isEmpty = false := by
        rw [List.isEmpty_iff] at h
        cases hr : r ++ dropTrailingWS y with
        | nil => exact absurd (List.append_eq_nil.mp hr).2 h
        | cons a t => rfl
      rw [hne]
      simp

theorem dropTrailingWS_of_last_not_ws {l : List Char} {d : Char}
    (hd : l.getLast? = some d) (hws : isWS d = false) :
    dropTrailingWS l = l := by
  induction l with
  | nil => rfl
  | cons c r ih =>
    cases r with
    | nil =>
      simp only [List.getLast?_singleton, Option.some.injEq] at hd
      subst hd
      simp [dropTrailingWS_cons, dropTrailingWS, hws]
    | cons b t =>
      rw [List.getLast?_cons_cons] at hd
      have hr := ih hd
      rw [dropTrailingWS_cons, hr]
      simp

theorem digit_not_ws {d : Char} (h : d.isDigit = true) : isWS d = false := by
  by_contra hws
  rw [Bool.not_eq_false] at hws
  unfold isWS Char.isWhitespace at hws
  simp only [Bool.or_eq_true, decide_eq_true_eq] at hws
  rcases hws with ((rfl | rfl) | rfl) | rfl <;> exact absurd h (by decide)

theorem ne_nil_isEmpty_false {α : Type} {l : List α} (h : l ≠ []) :
    l.isEmpty = false := by
  cases l with
  | nil => exact absurd rfl h
  | cons a t => rfl

theorem getLast?_some_ne_nil {α : Type} {l : List α} {d : α}
    (h : l.getLast? = some d) : l ≠ [] := by
  intro hz
  rw [hz] at h
  simp at h

/-- SpanEq is preserved by removing trailing whitespace. -/
theorem spanEq_dropTrailing {s t : List Char} (h : SpanEq s t) :
    SpanEq (dropTrailingWS s) (dropTrailingWS t) := by
  induction h with
  | nil => exact SpanEq.nil
  | copy c h ih =>
    rename_i u v
    rw [dropTrailingWS_cons, dropTrailingWS_cons]
    by_cases hu : dropTrailingWS u = []
    · have hv : dropTrailingWS v = [] := ih.nil_iff.mp hu
      rw [hu, hv]
      by_cases hc : isWS c
      · rw [if_pos (by simp [hc])]
        exact SpanEq.nil
      · rw [if_neg (by simp [hc])]
        exact SpanEq.copy c SpanEq.nil
    · have hv : dropTrailingWS v ≠ [] := fun hz => hu (ih.nil_iff.mpr hz)
      rw [ne_nil_isEmpty_false hu, ne_nil_isEmpty_false hv]
      simp only [Bool.false_and, Bool.false_eq_true, if_false]
      exact SpanEq.copy c ih
  | subst ℓ L a b hcp ha hb hda hdb h ih =>
    rename_i u v
    obtain ⟨da, hda', hdda⟩ := hda
    obtain ⟨db, hdb', hddb⟩ := hdb
    have hane : a ≠ [] := getLast?_some_ne_nil hda'
    have hbne : b ≠ [] := getLast?_some_ne_nil hdb'
    rw [dropTrailingWS_cons, dropTrailingWS_cons,
      dropTrailingWS_append a u, dropTrailingWS_append b v]
    by_cases hu : dropTrailingWS u = []
    · have hv : dropTrailingWS v = [] := ih.nil_iff.mp hu
      rw [hu, hv]
      simp only [List.isEmpty_nil, if_true]
      rw [dropTrailingWS_of_last_not_ws hda' (digit_not_ws hdda),
        dropTrailingWS_of_last_not_ws hdb' (digit_not_ws hddb),
        ne_nil_isEmpty_false hane, ne_nil_isEmpty_false hbne]
      simp only [Bool.false_and, Bool.false_eq_true, if_false]
      have := SpanEq.subst ℓ L a b hcp ha hb ⟨da, hda', hdda⟩ ⟨db, hdb', hddb⟩ SpanEq.nil
      simpa using this
    · have hv : dropTrailingWS v ≠ [] := fun hz => hu (ih.nil_iff.mpr hz)
      rw [ne_nil_isEmpty_false hu, ne_nil_isEmpty_false hv]
      simp only [Bool.false_eq_true, if_false]
      have hae : (a ++ dropTrailingWS u).isEmpty = false :=
        ne_nil_isEmpty_false (by simp [hane])
      have hbe : (b ++ dropTrailingWS v).isEmpty = false :=
        ne_nil_isEmpty_false (by simp [hbne])
      rw [hae, hbe]
      simp only [Bool.false_and, Bool.false_eq_true, if_false]
      exact SpanEq.subst ℓ L a b hcp ha hb ⟨da, hda', hdda⟩ ⟨db, hdb', hddb⟩ ih

/-- SpanEq is preserved by JS trim. -/
theorem spanEq_jsTrim {s t : List Char} (h : SpanEq s t) :
    SpanEq (jsTrim s) (jsTrim t) := by
  rw [jsTrim_eq, jsTrim_eq]
  exact spanEq_dropTrailing (spanEq_dropWS h)

/-! ### Scanner reductions: head-mismatch and unfolding equations -/

/-- Tail of the `M6\s*T(\d+)` pattern after the `M6` and whitespace run. -/
def m6AtTail (w : List Char) : Option (List Char) :=
  match w with
  | 'T' :: r2 =>
    let ds := r2.takeWhile Char.isDigit
    if ds.isEmpty then none else some ds
  | _ => none

theorem m6At_M6 (r : List Char) :
    m6At ('M' :: '6' :: r) = m6AtTail (r.dropWhile isWS) := rfl

theorem m6At_not_M {c : Char} {rest : List Char} (h : ¬c = 'M') :
    m6At (c :: rest) = none := by
  unfold m6At
  split
  · simp_all
  · rfl

theorem m6At_M_not6 {c : Char} {rest : List Char} (h : ¬c = '6') :
    m6At ('M' :: c :: rest) = none := by
  unfold m6At
  split
  · simp_all
  · rfl

theorem m6AtTail_not_T {c : Char} {w : List Char} (h : ¬c = 'T') :
    m6AtTail (c :: w) = none := by
  unfold m6AtTail
  split
  · simp_all
  · rfl

/-- Tail of the `T(\d+)\s*M6` pattern after the digit group. -/
def tm6AtTail (ds w : List Char) : Option (List Char) :=
  match w with
  | 'M' :: '6' :: _ => some ds
  | _ => none

theorem tm6At_T (r : List Char) :
    tm6At ('T' :: r) =
      (if (r.takeWhile Char.isDigit).isEmpty then none
       else tm6AtTail (r.takeWhile Char.isDigit)
         ((r.dropWhile Char.isDigit).dropWhile isWS)) := rfl

theorem tm6At_not_T {c : Char} {rest : List Char} (h : ¬c = 'T') :
    tm6At (c :: rest) = none := by
  unfold tm6At
  split
  · simp_all
  · rfl

theorem tm6AtTail_not_M {ds : List Char} {c : Char} {w : List Char} (h : ¬c = 'M') :
    tm6AtTail ds (c :: w) = none := by
  unfold tm6AtTail
  split
  · simp_all
  · rfl

theorem tm6AtTail_M_not6 {ds : List Char} {c : Char} {w : List Char} (h : ¬c = '6') :
    tm6AtTail ds ('M' :: c :: w) = none := by
  unfold tm6AtTail
  split
  · simp_all
  · rfl

theorem tMatchTool_T (r : List Char) :
    tMatchTool ('T' :: r) =
      (if !r.isEmpty && r.all Char.isDigit then some r else none) := rfl

theorem tMatchTool_not_T {c : Char} {rest : List Char} (h : ¬c = 'T') :
    tMatchTool (c :: rest) = none := by
  unfold tMatchTool
  split
  · simp_all
  · rfl

/-- Tail of the spindle-stop pattern after the `M` and the zero run. -/
def stopAtTail (w : List Char) : Bool :=
  match w with
  | '5' :: r2 => stopNextOk r2
  | _ => false

theorem stopAt_eq (r : List Char) :
    stopAt r = stopAtTail (r.dropWhile (· = '0')) := rfl

theorem stopAtTail_not5 {c : Char} {w : List Char} (h : ¬c = '5') :
    stopAtTail (c :: w) = false := by
  unfold stopAtTail
  split
  · simp_all
  · rfl

/-! ### SpanEq invariance facts for the scanners -/

theorem spanEq_isEmpty {u v : List Char} (h : SpanEq u v) :
    u.isEmpty = v.isEmpty := by
  cases h <;> rfl

theorem spanEq_allDigit {u v : List Char} (h : SpanEq u v) :
    u.all Char.isDigit = v.all Char.isDigit := by
  induction h with
  | nil => rfl
  | copy c h ih => simp only [List.all_cons, ih]
  | subst ℓ L a b hcp ha hb hda hdb h2 =>
    obtain ⟨hL, hℓ⟩ := coordPair_not_digit hcp
    simp [List.all_cons, hL, hℓ]

theorem spanEq_m6At {u v : List Char} (h : SpanEq u v) :
    (m6At u).isSome = (m6At v).isSome := by
  cases h with
  | nil => rfl
  | subst ℓ L a b hcp ha hb hda hdb h2 =>
    rcases hcp with ⟨e1, e2 | e2⟩ | ⟨e1, e2 | e2⟩ <;> subst e1 <;> subst e2 <;> rfl
  | copy c h2 =>
    by_cases hc : c = 'M'
    case neg => rw [m6At_not_M hc, m6At_not_M hc]
    case pos =>
      subst hc
      cases h2 with
      | nil => rfl
      | subst ℓ L a b hcp ha hb hda hdb h3 =>
        rcases hcp with ⟨e1, e2 | e2⟩ | ⟨e1, e2 | e2⟩ <;> subst e1 <;> subst e2 <;> rfl
      | copy c2 h3 =>
        by_cases hc2 : c2 = '6'
        case neg => rw [m6At_M_not6 hc2, m6At_M_not6 hc2]
        case pos =>
          subst hc2
          rename_i u3 v3
          rw [m6At_M6, m6At_M6]
          have hd := spanEq_dropWS h3
          generalize hgu : u3.dropWhile isWS = w at hd
          generalize hgv : v3.dropWhile isWS = w2 at hd
          cases hd with
          | nil => rfl
          | subst ℓ L a b hcp ha hb hda hdb h4 =>
            rcases hcp with ⟨e1, e2 | e2⟩ | ⟨e1, e2 | e2⟩ <;> subst e1 <;> subst e2 <;> rfl
          | copy c3 h4 =>
            by_cases hc3 : c3 = 'T'
            case neg => rw [m6AtTail_not_T hc3, m6AtTail_not_T hc3]
            case pos =>
              subst hc3
              rename_i u4 v4
              have ht := (spanEq_digits h4).1
              show (if (u4.takeWhile Char.isDigit).isEmpty then none
                  else some (u4.takeWhile Char.isDigit) : Option (List Char)).isSome =
                (if (v4.takeWhile Char.isDigit).isEmpty then none
                  else some (v4.takeWhile Char.isDigit) : Option (List Char)).isSome
              rw [ht]

theorem spanEq_tm6AtTail {w w2 : List Char} (h : SpanEq w w2) (ds ds2 : List Char) :
    (tm6AtTail ds w).isSome = (tm6AtTail ds2 w2).isSome := by
  cases h with
  | nil => rfl
  | subst ℓ L a b hcp ha hb hda hdb h2 =>
    rcases hcp with ⟨e1, e2 | e2⟩ | ⟨e1, e2 | e2⟩ <;> subst e1 <;> subst e2 <;> rfl
  | copy c h2 =>
    by_cases hc : c = 'M'
    case neg => rw [tm6AtTail_not_M hc, tm6AtTail_not_M hc]
    case pos =>
      subst hc
      cases h2 with
      | nil => rfl
      | subst ℓ L a b hcp ha hb hda hdb h3 =>
        rcases hcp with ⟨e1, e2 | e2⟩ | ⟨e1, e2 | e2⟩ <;> subst e1 <;> subst e2 <;> rfl
      | copy c2 h3 =>
        by_cases hc2 : c2 = '6'
        case neg => rw [tm6AtTail_M_not6 hc2, tm6AtTail_M_not6 hc2]
        case pos =>
          subst hc2
          rfl

theorem spanEq_tm6At {u v : List Char} (h : SpanEq u v) :
    (tm6At u).isSome = (tm6At v).isSome := by
  cases h with
  | nil => rfl
  | subst ℓ L a b hcp ha hb hda hdb h2 =>
    rcases hcp with ⟨e1, e2 | e2⟩ | ⟨e1, e2 | e2⟩ <;> subst e1 <;> subst e2 <;> rfl
  | copy c h2 =>
    by_cases hc : c = 'T'
    case neg => rw [tm6At_not_T hc, tm6At_not_T hc]
    case pos =>
      subst hc
      rename_i u2 v2
      rw [tm6At_T, tm6At_T]
      obtain ⟨ht, hd⟩ := spanEq_digits h2
      rw [ht]
      by_cases he : (v2.takeWhile Char.isDigit).isEmpty = true
      · rw [if_pos he, if_pos he]
      · rw [if_neg he, if_neg he]
        exact spanEq_tm6AtTail (spanEq_dropWS hd) (v2.takeWhile Char.isDigit)
          (v2.takeWhile Char.isDigit)

theorem spanEq_tMatchTool {u v : List Char} (h : SpanEq u v) :
    (tMatchTool u).isSome = (tMatchTool v).isSome := by
  cases h with
  | nil => rfl
  | subst ℓ L a b hcp ha hb hda hdb h2 =>
    rcases hcp with ⟨e1, e2 | e2⟩ | ⟨e1, e2 | e2⟩ <;> subst e1 <;> subst e2 <;> rfl
  | copy c h2 =>
    by_cases hc : c = 'T'
    case neg => rw [tMatchTool_not_T hc, tMatchTool_not_T hc]
    case pos =>
      subst hc
      rename_i u2 v2
      rw [tMatchTool_T, tMatchTool_T, spanEq_isEmpty h2, spanEq_allDigit h2]
      cases hcond : (!v2.isEmpty && v2.all Char.isDigit) <;> simp [hcond]

theorem m6MatchTool_isSome_cons (c : Char) (r : List Char) :
    (m6MatchTool (c :: r)).isSome =
      ((m6At (c :: r)).isSome || (tm6At (c :: r)).isSome ||
        (m6MatchTool r).isSome) := by
  cases h1 : m6At (c :: r) <;> cases h2 : tm6At (c :: r) <;>
    simp [m6MatchTool, h1, h2]

theorem m6MatchTool_numChar_append {a : List Char}
    (ha : ∀ c ∈ a, isNumChar c = true) (u : List Char) :
    m6MatchTool (a ++ u) = m6MatchTool u := by
  induction a with
  | nil => rfl
  | cons c a2 ih =>
    have hc := ha c (List.mem_cons_self c a2)
    have hM : ¬c = 'M' := numChar_ne hc 'M' (by simp)
    have hT : ¬c = 'T' := numChar_ne hc 'T' (by simp)
    rw [List.cons_append]
    simp only [m6MatchTool, m6At_not_M hM, tm6At_not_T hT]
    exact ih (fun x hx => ha x (List.mem_cons_of_mem c hx))

theorem spanEq_m6MatchTool {s t : List Char} (h : SpanEq s t) :
    (m6MatchTool s).isSome = (m6MatchTool t).isSome := by
  induction h with
  | nil => rfl
  | copy c h ih =>
    rw [m6MatchTool_isSome_cons, m6MatchTool_isSome_cons,
      spanEq_m6At (SpanEq.copy c h), spanEq_tm6At (SpanEq.copy c h), ih]
  | subst ℓ L a b hcp ha hb hda hdb h2 ih =>
    rw [m6MatchTool_isSome_cons, m6MatchTool_isSome_cons]
    have hsp := SpanEq.subst ℓ L a b hcp ha hb hda hdb h2
    rw [spanEq_m6At hsp, spanEq_tm6At hsp,
      m6MatchTool_numChar_append ha, m6MatchTool_numChar_append hb, ih]

theorem spanEq_isToolChangeTok {s t : List Char} (h : SpanEq s t) :
    isToolChangeTok s = isToolChangeTok t := by
  unfold isToolChangeTok
  rw [spanEq_m6MatchTool h, spanEq_tMatchTool h]

theorem digit_ne_char {d c : Char} (hd : d.isDigit = true)
    (hc : c.isDigit = false) : ¬(d = c) := by
  intro h
  subst h
  rw [hd] at hc
  cases hc

theorem digit_isAlphanum {d : Char} (h : d.isDigit = true) :
    d.isAlphanum = true := by
  simp [Char.isAlphanum, h]

theorem spanEq_stopNextOk {u v : List Char} (h : SpanEq u v) :
    stopNextOk u = stopNextOk v := by
  cases h with
  | nil => rfl
  | copy c h2 => rfl
  | subst ℓ L a b hcp ha hb hda hdb h2 =>
    obtain ⟨hL, hℓ⟩ := coordPair_not_digit hcp
    simp [stopNextOk, hL, hℓ]

theorem spanEq_stopAt {u v : List Char} (h : SpanEq u v) :
    stopAt u = stopAt v := by
  rw [stopAt_eq, stopAt_eq]
  have hd := (spanEq_zeros h).2
  generalize hgu : u.dropWhile (· = '0') = w at hd
  generalize hgv : v.dropWhile (· = '0') = w2 at hd
  cases hd with
  | nil => rfl
  | subst ℓ L a b hcp ha hb hda hdb h2 =>
    rcases hcp with ⟨e1, e2 | e2⟩ | ⟨e1, e2 | e2⟩ <;> subst e1 <;> subst e2 <;> rfl
  | copy c h2 =>
    by_cases hc : c = '5'
    · subst hc
      exact spanEq_stopNextOk h2
    · rw [stopAtTail_not5 hc, stopAtTail_not5 hc]

theorem stopScan_numChar_run {a : List Char}
    (ha : ∀ c ∈ a, isNumChar c = true) {d : Char} (hlast : a.getLast? = some d) :
    ∀ (u : List Char) (p : Option Char), stopScan p (a ++ u) = stopScan (some d) u := by
  induction a with
  | nil => simp at hlast
  | cons c a2 ih =>
    intro u p
    have hc := ha c (List.mem_cons_self c a2)
    have hM : ¬(c = 'M') := numChar_ne hc 'M' (by simp)
    rw [List.cons_append]
    simp only [stopScan, hM, decide_False, Bool.false_and, Bool.false_or]
    cases a2 with
    | nil =>
      simp only [List.getLast?_singleton, Option.some.injEq] at hlast
      subst hlast
      rfl
    | cons b t =>
      rw [List.getLast?_cons_cons] at hlast
      exact ih (fun x hx => ha x (List.mem_cons_of_mem c hx)) hlast u (some c)

theorem spanEq_stopScan {s t : List Char} (h : SpanEq s t) :
    ∀ p q : Option Char, stopPrevOk p = stopPrevOk q → stopScan p s = stopScan q t := by
  induction h with
  | nil => intro p q hpq; rfl
  | copy c h2 ih =>
    intro p q hpq
    simp only [stopScan]
    rw [hpq, spanEq_stopAt h2, ih (some c) (some c) rfl]
  | subst ℓ L a b hcp ha hb hda hdb h2 ih =>
    intro p q hpq
    obtain ⟨da, hda2, hdda⟩ := hda
    obtain ⟨db, hdb2, hddb⟩ := hdb
    obtain ⟨hL, hℓ⟩ := coordPair_ne hcp 'M' (by simp)
    simp only [stopScan, hL, hℓ, decide_False, Bool.false_and, Bool.false_or]
    rw [stopScan_numChar_run ha hda2, stopScan_numChar_run hb hdb2]
    refine ih (some da) (some db) ?_
    simp [stopPrevOk, digit_isAlphanum hdda, digit_isAlphanum hddb]

theorem spanEq_isPrefixOf_digits (tk : List Char)
    (htk : ∀ c ∈ tk, c.isDigit = true) :
    ∀ {r r2 : List Char}, SpanEq r r2 →
      tk.isPrefixOf r = tk.isPrefixOf r2 ∧
      (tk.isPrefixOf r = true → SpanEq (r.drop tk.length) (r2.drop tk.length)) := by
  induction tk with
  | nil =>
    intro r r2 h
    exact ⟨by cases r <;> cases r2 <;> rfl, fun _ => by simpa using h⟩
  | cons d tk2 ih =>
    intro r r2 h
    have hd : d.isDigit = true := htk d (List.mem_cons_self d tk2)
    have htk2 : ∀ c ∈ tk2, c.isDigit = true :=
      fun c hc => htk c (List.mem_cons_of_mem d hc)
    cases h with
    | nil => exact ⟨rfl, fun hco => by simp [List.isPrefixOf] at hco⟩
    | copy c h2 =>
      by_cases hc : d = c
      · subst hc
        obtain ⟨h1, h2'⟩ := ih htk2 h2
        refine ⟨by simp [List.isPrefixOf, h1], ?_⟩
        intro hp
        simp only [List.isPrefixOf, beq_self_eq_true, Bool.true_and] at hp
        simpa [List.drop] using h2' hp
      · have hb : (d == c) = false := beq_eq_false_iff_ne.mpr hc
        refine ⟨by simp [List.isPrefixOf, hb], ?_⟩
        intro hp
        simp [List.isPrefixOf, hb] at hp
    | subst ℓ L a b hcp ha hb hda hdb h2 =>
      obtain ⟨hLd, hℓd⟩ := coordPair_not_digit hcp
      have h1 : (d == L) = false := beq_eq_false_iff_ne.mpr (digit_ne_char hd hLd)
      have h2' : (d == ℓ) = false := beq_eq_false_iff_ne.mpr (digit_ne_char hd hℓd)
      refine ⟨by simp [List.isPrefixOf, h1, h2'], ?_⟩
      intro hp
      simp [List.isPrefixOf, h1] at hp

theorem spanEq_tokAfter (tk : List Char) (htk : ∀ c ∈ tk, c.isDigit = true)
    {r r2 : List Char} (h : SpanEq r r2) : tokAfter tk r = tokAfter tk r2 := by
  unfold tokAfter
  obtain ⟨hz, hdz⟩ := spanEq_zeros h
  by_cases h0 : tk = ['0']
  · rw [if_pos h0, if_pos h0, hz, spanEq_boundaryOk hdz]
  · rw [if_neg h0, if_neg h0]
    obtain ⟨hp, hdp⟩ := spanEq_isPrefixOf_digits tk htk hdz
    rw [hp]
    by_cases hpre : tk.isPrefixOf (r2.dropWhile (· = '0')) = true
    · rw [spanEq_boundaryOk (hdp (by rw [hp]; exact hpre))]
    · rw [Bool.not_eq_true] at hpre
      rw [hpre]
      simp

theorem hasWordTokAux_numChar_run (tk : List Char) {a : List Char}
    (ha : ∀ c ∈ a, isNumChar c = true) {d : Char} (hlast : a.getLast? = some d)
    (hd : d.isDigit = true) :
    ∀ (u : List Char) (pw : Bool),
      hasWordTokAux 'M' tk pw (a ++ u) = hasWordTokAux 'M' tk true u := by
  induction a with
  | nil => simp at hlast
  | cons c a2 ih =>
    intro u pw
    have hc := ha c (List.mem_cons_self c a2)
    have hM : ¬(c = 'M') := numChar_ne hc 'M' (by simp)
    rw [List.cons_append]
    simp only [hasWordTokAux, hM, decide_False, Bool.false_and, Bool.false_or]
    cases a2 with
    | nil =>
      simp only [List.getLast?_singleton, Option.some.injEq] at hlast
      subst hlast
      simp [isWordCh, digit_isAlphanum hd]
    | cons b t =>
      rw [List.getLast?_cons_cons] at hlast
      exact ih (fun x hx => ha x (List.mem_cons_of_mem c hx)) hlast u (isWordCh c)

theorem spanEq_hasWordTokAux (tk : List Char) (htk : ∀ c ∈ tk, c.isDigit = true)
    {s t : List Char} (h : SpanEq s t) :
    ∀ pw : Bool, hasWordTokAux 'M' tk pw s = hasWordTokAux 'M' tk pw t := by
  induction h with
  | nil => intro pw; rfl
  | copy c h2 ih =>
    intro pw
    simp only [hasWordTokAux]
    rw [spanEq_tokAfter tk htk h2, ih (isWordCh c)]
  | subst ℓ L a b hcp ha hb hda hdb h2 ih =>
    intro pw
    obtain ⟨da, hda2, hdda⟩ := hda
    obtain ⟨db, hdb2, hddb⟩ := hdb
    obtain ⟨hL, hℓ⟩ := coordPair_ne hcp 'M' (by simp)
    simp only [hasWordTokAux, hL, hℓ, decide_False, Bool.false_and, Bool.false_or]
    rw [hasWordTokAux_numChar_run tk ha hda2 hdda,
      hasWordTokAux_numChar_run tk hb hdb2 hddb]
    exact ih true

theorem spanEq_hasWordTok (tk : List Char) (htk : ∀ c ∈ tk, c.isDigit = true)
    {s t : List Char} (h : SpanEq s t) :
    hasWordTok 'M' tk s = hasWordTok 'M' tk t := by
  unfold hasWordTok
  exact spanEq_hasWordTokAux tk htk h false

theorem spanEq_stripLineNum {s t : List Char} (h : SpanEq s t) :
    SpanEq (stripLineNum s) (stripLineNum t) := by
  cases h with
  | nil => exact SpanEq.nil
  | copy c h2 =>
    rename_i u v
    by_cases hc : (c = 'N' || c = 'n') = true
    · simp only [stripLineNum, hc, if_true]
      rw [(spanEq_digits h2).1]
      by_cases he : (v.takeWhile Char.isDigit).isEmpty = true
      · rw [if_pos he, if_pos he]
        exact SpanEq.copy c h2
      · rw [if_neg he, if_neg he]
        exact spanEq_dropWS (spanEq_digits h2).2
    · simp only [stripLineNum, hc, if_false]
      exact SpanEq.copy c h2
  | subst ℓ L a b hcp ha hb hda hdb h2 =>
    obtain ⟨hLN, hℓN⟩ := coordPair_ne hcp 'N' (by simp)
    obtain ⟨hLn, hℓn⟩ := coordPair_ne hcp 'n' (by simp)
    have hsp := SpanEq.subst ℓ L a b hcp ha hb hda hdb h2
    simp only [stripLineNum, hLN, hℓN, hLn, hℓn, decide_False, Bool.or_self, if_false]
    exact hsp

theorem spanEq_headIs {s t : List Char} (h : SpanEq s t) (c0 : Char)
    (hc0 : c0 = ';' ∨ c0 = '(') : headIs c0 s = headIs c0 t := by
  cases h with
  | nil => rfl
  | copy c h2 => rfl
  | subst ℓ L a b hcp ha hb hda hdb h2 =>
    rcases hc0 with h0 | h0 <;> subst h0
    · obtain ⟨hL, hℓ⟩ := coordPair_ne hcp ';' (by simp)
      simp [headIs, hL, hℓ]
    · obtain ⟨hL, hℓ⟩ := coordPair_ne hcp '(' (by simp)
      simp [headIs, hL, hℓ]

theorem spanEq_lastIs {s t : List Char} (h : SpanEq s t) :
    lastIs ')' s = lastIs ')' t := by
  induction h with
  | nil => rfl
  | copy c h2 ih =>
    rename_i u v
    by_cases hu : u = []
    · have hv : v = [] := (SpanEq.nil_iff h2).mp hu
      subst hu
      subst hv
      rfl
    · have hv : v ≠ [] := fun hz => hu ((SpanEq.nil_iff h2).mpr hz)
      unfold lastIs
      rw [getLast?_cons_ne_nil c hu, getLast?_cons_ne_nil c hv]
      exact ih
  | subst ℓ L a b hcp ha hb hda hdb h2 ih =>
    rename_i u v
    obtain ⟨da, hda2, hdda⟩ := hda
    obtain ⟨db, hdb2, hddb⟩ := hdb
    have hane : a ≠ [] := getLast?_some_ne_nil hda2
    have hbne : b ≠ [] := getLast?_some_ne_nil hdb2
    by_cases hu : u = []
    · have hv : v = [] := (SpanEq.nil_iff h2).mp hu
      subst hu
      subst hv
      unfold lastIs
      rw [getLast?_cons_ne_nil L (by simp [hane]),
        getLast?_cons_ne_nil ℓ (by simp [hbne]),
        List.append_nil, List.append_nil, hda2, hdb2]
      have h1 : ¬(da = ')') := digit_ne_char hdda (by decide)
      have h2' : ¬(db = ')') := digit_ne_char hddb (by decide)
      simp [h1, h2']
    · have hv : v ≠ [] := fun hz => hu ((SpanEq.nil_iff h2).mpr hz)
      have hau : a ++ u ≠ [] := by simp [hu]
      have hbv : b ++ v ≠ [] := by simp [hv]
      cases hgu : u.getLast? with
      | none => exact absurd (List.getLast?_eq_none.mp hgu) hu
      | some du =>
        cases hgv : v.getLast? with
        | none => exact absurd (List.getLast?_eq_none.mp hgv) hv
        | some dv =>
          unfold lastIs at ih ⊢
          rw [hgu, hgv] at ih
          rw [getLast?_cons_ne_nil L hau, getLast?_cons_ne_nil ℓ hbv,
            List.getLast?_append, List.getLast?_append, hgu, hgv]
          exact ih

theorem spanEq_isGcodeComment {s t : String} (h : SpanEq s.data t.data) :
    isGcodeComment s = isGcodeComment t := by
  unfold isGcodeComment
  dsimp only
  have hw : SpanEq (stripLineNum (jsTrim s.data)) (stripLineNum (jsTrim t.data)) :=
    spanEq_stripLineNum (spanEq_jsTrim h)
  rw [spanEq_headIs hw ';' (Or.inl rfl), spanEq_headIs hw '(' (Or.inr rfl),
    spanEq_lastIs hw]

/-! ### Output-line predicates and their invariance under the offset rewrite -/

/-- A non-comment line whose trimmed upper-cased text would trigger a tool
change in `parseToolSegments`. -/
def isToolChangeLine (s : String) : Bool :=
  !isGcodeComment s && isToolChangeTok (trimUpper s)

/-- A non-comment line carrying an `M30` or `M2` program-end word token. -/
def isProgramEndLine (s : String) : Bool :=
  !isGcodeComment s &&
    (hasWordTok 'M' "30".data (trimUpper s) || hasWordTok 'M' ['2'] (trimUpper s))

theorem createOffsetFn_data (ox oy : ℚ) (st : Bool) (line : String) :
    ((createOffsetFn ox oy st line).1).data = line.data ∨
      ((createOffsetFn ox oy st line).1).data =
        replNum 'y' 'Y' oy (replNum 'x' 'X' ox line.data) := by
  unfold createOffsetFn
  dsimp only
  repeat' split
  all_goals first
    | exact Or.inl rfl
    | exact Or.inr rfl

theorem spanEq_trimUpper {s t : String} (h : SpanEq s.data t.data) :
    SpanEq (trimUpper s) (trimUpper t) := spanEq_upper (spanEq_jsTrim h)

theorem spanEq_isToolChangeLine {s t : String} (h : SpanEq s.data t.data) :
    isToolChangeLine s = isToolChangeLine t := by
  unfold isToolChangeLine
  rw [spanEq_isGcodeComment h, spanEq_isToolChangeTok (spanEq_trimUpper h)]

theorem spanEq_isProgramEndLine {s t : String} (h : SpanEq s.data t.data) :
    isProgramEndLine s = isProgramEndLine t := by
  unfold isProgramEndLine
  rw [spanEq_isGcodeComment h,
    spanEq_hasWordTok "30".data (by decide) (spanEq_trimUpper h),
    spanEq_hasWordTok ['2'] (by decide) (spanEq_trimUpper h)]

theorem spanEq_isSpindleStopCommand {s t : String} (h : SpanEq s.data t.data) :
    isSpindleStopCommand s = isSpindleStopCommand t := by
  unfold isSpindleStopCommand
  rw [spanEq_isGcodeComment h,
    spanEq_stopScan (spanEq_upper (spanEq_jsTrim h)) none none rfl]

theorem offsetFn_toolChange (ox oy : ℚ) (st : Bool) (line : String) :
    isToolChangeLine ((createOffsetFn ox oy st line).1) = isToolChangeLine line := by
  rcases createOffsetFn_data ox oy st line with h | h
  · have himg : (createOffsetFn ox oy st line).1 = line := congrArg String.mk h
    rw [himg]
  · have himg : (createOffsetFn ox oy st line).1 =
        (⟨replNum 'y' 'Y' oy (replNum 'x' 'X' ox line.data)⟩ : String) :=
      congrArg String.mk h
    rw [himg]
    have e1 := @spanEq_isToolChangeLine line
      (⟨replNum 'x' 'X' ox line.data⟩ : String)
      (replNum_spanEq 'x' 'X' ox (Or.inl ⟨rfl, rfl⟩) line.data)
    have e2 := @spanEq_isToolChangeLine (⟨replNum 'x' 'X' ox line.data⟩ : String)
      (⟨replNum 'y' 'Y' oy (replNum 'x' 'X' ox line.data)⟩ : String)
      (replNum_spanEq 'y' 'Y' oy (Or.inr ⟨rfl, rfl⟩) (replNum 'x' 'X' ox line.data))
    exact (e1.trans e2).symm

theorem offsetFn_programEnd (ox oy : ℚ) (st : Bool) (line : String) :
    isProgramEndLine ((createOffsetFn ox oy st line).1) = isProgramEndLine line := by
  rcases createOffsetFn_data ox oy st line with h | h
  · have himg : (createOffsetFn ox oy st line).1 = line := congrArg String.mk h
    rw [himg]
  · have himg : (createOffsetFn ox oy st line).1 =
        (⟨replNum 'y' 'Y' oy (replNum 'x' 'X' ox line.data)⟩ : String) :=
      congrArg String.mk h
    rw [himg]
    have e1 := @spanEq_isProgramEndLine line
      (⟨replNum 'x' 'X' ox line.data⟩ : String)
      (replNum_spanEq 'x' 'X' ox (Or.inl ⟨rfl, rfl⟩) line.data)
    have e2 := @spanEq_isProgramEndLine (⟨replNum 'x' 'X' ox line.data⟩ : String)
      (⟨replNum 'y' 'Y' oy (replNum 'x' 'X' ox line.data)⟩ : String)
      (replNum_spanEq 'y' 'Y' oy (Or.inr ⟨rfl, rfl⟩) (replNum 'x' 'X' ox line.data))
    exact (e1.trans e2).symm

theorem offsetFn_spindleStop (ox oy : ℚ) (st : Bool) (line : String) :
    isSpindleStopCommand ((createOffsetFn ox oy st line).1) =
      isSpindleStopCommand line := by
  rcases createOffsetFn_data ox oy st line with h | h
  · have himg : (createOffsetFn ox oy st line).1 = line := congrArg String.mk h
    rw [himg]
  · have himg : (createOffsetFn ox oy st line).1 =
        (⟨replNum 'y' 'Y' oy (replNum 'x' 'X' ox line.data)⟩ : String) :=
      congrArg String.mk h
    rw [himg]
    have e1 := @spanEq_isSpindleStopCommand line
      (⟨replNum 'x' 'X' ox line.data⟩ : String)
      (replNum_spanEq 'x' 'X' ox (Or.inl ⟨rfl, rfl⟩) line.data)
    have e2 := @spanEq_isSpindleStopCommand (⟨replNum 'x' 'X' ox line.data⟩ : String)
      (⟨replNum 'y' 'Y' oy (replNum 'x' 'X' ox line.data)⟩ : String)
      (replNum_spanEq 'y' 'Y' oy (Or.inr ⟨rfl, rfl⟩) (replNum 'x' 'X' ox line.data))
    exact (e1.trans e2).symm

/-! ### Concrete facts about the assembler's emitted lines -/

theorem jsTrim_id {cs : List Char}
    (hh : ∃ c, cs.head? = some c ∧ isWS c = false)
    (hl : ∃ d, cs.getLast? = some d ∧ isWS d = false) : jsTrim cs = cs := by
  obtain ⟨c, hc, hcw⟩ := hh
  obtain ⟨d, hd, hdw⟩ := hl
  rw [jsTrim_eq]
  cases cs with
  | nil => simp at hc
  | cons a rest =>
    simp only [List.head?_cons, Option.some.injEq] at hc
    subst hc
    rw [List.dropWhile_cons, if_neg (by simp [hcw])]
    exact dropTrailingWS_of_last_not_ws hd hdw

theorem isGcodeComment_wrap (s : String) (h1 : s.data.head? = some '(')
    (h2 : s.data.getLast? = some ')') : isGcodeComment s = true := by
  unfold isGcodeComment
  dsimp only
  rw [jsTrim_id ⟨'(', h1, by decide⟩ ⟨')', h2, by decide⟩]
  cases hs : s.data with
  | nil => rw [hs] at h1; simp at h1
  | cons a rest =>
    rw [hs] at h1 h2
    simp only [List.head?_cons, Option.some.injEq] at h1
    subst h1
    simp only [stripLineNum]
    rw [if_neg (by decide)]
    simp [headIs, lastIs, h2]

theorem isGcodeComment_false_of_head (s : String) (c : Char)
    (hid : jsTrim s.data = s.data) (hc : s.data.head? = some c)
    (h1 : ¬c = ';') (h2 : ¬c = '(') (h3 : ¬c = 'N') (h4 : ¬c = 'n') :
    isGcodeComment s = false := by
  unfold isGcodeComment
  dsimp only
  rw [hid]
  cases hs : s.data with
  | nil => rw [hs] at hc; simp at hc
  | cons a rest =>
    rw [hs] at hc
    simp only [List.head?_cons, Option.some.injEq] at hc
    subst hc
    simp only [stripLineNum]
    rw [if_neg (by simp [h3, h4])]
    simp [headIs, h1, h2]

theorem map_toUpper_digits {l : List Char} (h : ∀ c ∈ l, c.isDigit = true) :
    l.map Char.toUpper = l := by
  induction l with
  | nil => rfl
  | cons c r ih =>
    rw [List.map_cons, toUpper_digit (h c (List.mem_cons_self c r)),
      ih (fun x hx => h x (List.mem_cons_of_mem c hx))]

theorem takeWhile_all {p : Char → Bool} {l : List Char} (h : ∀ c ∈ l, p c = true) :
    l.takeWhile p = l := by
  induction l with
  | nil => rfl
  | cons c r ih =>
    rw [List.takeWhile_cons, if_pos (h c (List.mem_cons_self c r)),
      ih (fun x hx => h x (List.mem_cons_of_mem c hx))]

theorem takeWhile_append_stop {p : Char → Bool} {l : List Char}
    (h : ∀ c ∈ l, p c = true) {c : Char} (hc : p c = false) (u : List Char) :
    (l ++ c :: u).takeWhile p = l := by
  induction l with
  | nil => simp [List.takeWhile_cons, hc]
  | cons a r ih =>
    rw [List.cons_append, List.takeWhile_cons,
      if_pos (h a (List.mem_cons_self a r)),
      ih (fun x hx => h x (List.mem_cons_of_mem a hx))]

theorem dropWhile_append_stop {p : Char → Bool} {l : List Char}
    (h : ∀ c ∈ l, p c = true) {c : Char} (hc : p c = false) (u : List Char) :
    (l ++ c :: u).dropWhile p = c :: u := by
  induction l with
  | nil => simp [List.dropWhile_cons, hc]
  | cons a r ih =>
    rw [List.cons_append, List.dropWhile_cons,
      if_pos (h a (List.mem_cons_self a r)),
      ih (fun x hx => h x (List.mem_cons_of_mem a hx))]

theorem m6line_data (t : ℕ) :
    ("M6 T" ++ decStrS t).data = 'M' :: '6' :: ' ' :: 'T' :: decStr t := rfl

theorem m6line_getLast (t : ℕ) :
    ("M6 T" ++ decStrS t).data.getLast? = (decStr t).getLast? := by
  rw [m6line_data]
  rw [getLast?_cons_ne_nil _ (by simp [decStr_ne_nil t]),
    getLast?_cons_ne_nil _ (by simp [decStr_ne_nil t]),
    getLast?_cons_ne_nil _ (by simp [decStr_ne_nil t]),
    getLast?_cons_ne_nil _ (decStr_ne_nil t)]

theorem jsTrim_m6line (t : ℕ) :
    jsTrim ('M' :: '6' :: ' ' :: 'T' :: decStr t) =
      'M' :: '6' :: ' ' :: 'T' :: decStr t := by
  obtain ⟨d, hd, hdd⟩ := decStr_last_digit t
  exact @jsTrim_id ('M' :: '6' :: ' ' :: 'T' :: decStr t) ⟨'M', rfl, by decide⟩
    ⟨d, by rw [← m6line_data, m6line_getLast]; exact hd, digit_not_ws hdd⟩

theorem trimUpper_m6line (t : ℕ) :
    trimUpper ("M6 T" ++ decStrS t) = 'M' :: '6' :: ' ' :: 'T' :: decStr t := by
  unfold trimUpper
  rw [m6line_data, jsTrim_m6line]
  show ('M' :: '6' :: ' ' :: 'T' :: decStr t).map Char.toUpper = _
  rw [List.map_cons, List.map_cons, List.map_cons, List.map_cons,
    map_toUpper_digits (decStr_digits t)]
  rfl

theorem tm6line_data (t : ℕ) :
    ("T" ++ decStrS t ++ " M6").data = 'T' :: (decStr t ++ [' ', 'M', '6']) := by
  show ("T".data ++ decStr t) ++ " M6".data = _
  rw [List.append_assoc]
  rfl

theorem tm6line_getLast (t : ℕ) :
    ("T" ++ decStrS t ++ " M6").data.getLast? = some '6' := by
  rw [tm6line_data, getLast?_cons_ne_nil _ (by simp), List.getLast?_append]
  rfl

theorem jsTrim_tm6line (t : ℕ) :
    jsTrim ('T' :: (decStr t ++ [' ', 'M', '6'])) =
      'T' :: (decStr t ++ [' ', 'M', '6']) :=
  @jsTrim_id ('T' :: (decStr t ++ [' ', 'M', '6'])) ⟨'T', rfl, by decide⟩
    ⟨'6', by rw [← tm6line_data, tm6line_getLast], by decide⟩

theorem trimUpper_tm6line (t : ℕ) :
    trimUpper ("T" ++ decStrS t ++ " M6") =
      'T' :: (decStr t ++ [' ', 'M', '6']) := by
  unfold trimUpper
  rw [tm6line_data, jsTrim_tm6line]
  show ('T' :: (decStr t ++ [' ', 'M', '6'])).map Char.toUpper = _
  rw [List.map_cons, List.map_append, map_toUpper_digits (decStr_digits t)]
  rfl

theorem isToolChangeLine_m6line (t : ℕ) :
    isToolChangeLine ("M6 T" ++ decStrS t) = true := by
  unfold isToolChangeLine
  rw [isGcodeComment_false_of_head _ 'M'
      (by rw [m6line_data]; exact jsTrim_m6line t)
      (by rw [m6line_data]; rfl) (by decide) (by decide) (by decide) (by decide)]
  rw [trimUpper_m6line]
  unfold isToolChangeTok
  have hm6 : m6At ('M' :: '6' :: ' ' :: 'T' :: decStr t) = some (decStr t) := by
    rw [m6At_M6]
    show (if ((decStr t).takeWhile Char.isDigit).isEmpty then none
      else some ((decStr t).takeWhile Char.isDigit) : Option (List Char)) = _
    rw [takeWhile_all (decStr_digits t), ne_nil_isEmpty_false (decStr_ne_nil t)]
    rfl
  simp [m6MatchTool, hm6]

theorem isToolChangeLine_tm6line (t : ℕ) :
    isToolChangeLine ("T" ++ decStrS t ++ " M6") = true := by
  unfold isToolChangeLine
  rw [isGcodeComment_false_of_head _ 'T'
      (by rw [tm6line_data]; exact jsTrim_tm6line t)
      (by rw [tm6line_data]; rfl) (by decide) (by decide) (by decide) (by decide)]
  rw [trimUpper_tm6line]
  unfold isToolChangeTok
  have hm6 : m6At ('T' :: (decStr t ++ [' ', 'M', '6'])) = none :=
    m6At_not_M (by decide)
  have htm : tm6At ('T' :: (decStr t ++ [' ', 'M', '6'])) = some (decStr t) := by
    rw [tm6At_T,
      takeWhile_append_stop (decStr_digits t) (by decide : Char.isDigit ' ' = false),
      dropWhile_append_stop (decStr_digits t) (by decide : Char.isDigit ' ' = false),
      ne_nil_isEmpty_false (decStr_ne_nil t)]
    rfl
  simp [m6MatchTool, hm6, htm]

theorem digit_isNumChar {c : Char} (h : c.isDigit = true) : isNumChar c = true := by
  simp [isNumChar, h]

theorem hasWordTokAux_no_letter {tk : List Char} {l : List Char}
    (h : ∀ c ∈ l, ¬(c = 'M')) : ∀ pw, hasWordTokAux 'M' tk pw l = false := by
  induction l with
  | nil => intro pw; rfl
  | cons c r ih =>
    intro pw
    simp only [hasWordTokAux]
    simp [h c (List.mem_cons_self c r),
      ih (fun x hx => h x (List.mem_cons_of_mem c hx)) (isWordCh c)]

theorem stopScan_no_M {l : List Char} (h : ∀ c ∈ l, ¬(c = 'M')) :
    ∀ p, stopScan p l = false := by
  induction l with
  | nil => intro p; rfl
  | cons c r ih =>
    intro p
    simp only [stopScan]
    simp [h c (List.mem_cons_self c r),
      ih (fun x hx => h x (List.mem_cons_of_mem c hx)) (some c)]

theorem no_M_m6tail (t : ℕ) : ∀ c ∈ ('6' :: ' ' :: 'T' :: decStr t), ¬(c = 'M') := by
  intro c hc
  rcases List.mem_cons.mp hc with rfl | hc
  · decide
  rcases List.mem_cons.mp hc with rfl | hc
  · decide
  rcases List.mem_cons.mp hc with rfl | hc
  · decide
  exact digit_ne_char (decStr_digits t c hc) (by decide)

theorem no_M_digits (t : ℕ) : ∀ c ∈ decStr t, ¬(c = 'M') :=
  fun c hc => digit_ne_char (decStr_digits t c hc) (by decide)

theorem isProgramEndLine_m6line (t : ℕ) :
    isProgramEndLine ("M6 T" ++ decStrS t) = false := by
  unfold isProgramEndLine
  rw [trimUpper_m6line]
  have h30 : hasWordTok 'M' "30".data ('M' :: '6' :: ' ' :: 'T' :: decStr t) = false := by
    unfold hasWordTok
    simp only [hasWordTokAux]
    rw [show tokAfter "30".data ('6' :: ' ' :: 'T' :: decStr t) = false from rfl,
      hasWordTokAux_no_letter (no_M_digits t) (isWordCh 'T')]
    simp
  have h2 : hasWordTok 'M' ['2'] ('M' :: '6' :: ' ' :: 'T' :: decStr t) = false := by
    unfold hasWordTok
    simp only [hasWordTokAux]
    rw [show tokAfter ['2'] ('6' :: ' ' :: 'T' :: decStr t) = false from rfl,
      hasWordTokAux_no_letter (no_M_digits t) (isWordCh 'T')]
    simp
  rw [h30, h2]
  simp

theorem isProgramEndLine_tm6line (t : ℕ) :
    isProgramEndLine ("T" ++ decStrS t ++ " M6") = false := by
  obtain ⟨d, hd, hdd⟩ := decStr_last_digit t
  unfold isProgramEndLine
  rw [trimUpper_tm6line]
  have hds : ∀ c ∈ decStr t, isNumChar c = true :=
    fun c hc => digit_isNumChar (decStr_digits t c hc)
  have h30 : hasWordTok 'M' "30".data ('T' :: (decStr t ++ [' ', 'M', '6'])) = false := by
    unfold hasWordTok
    simp only [hasWordTokAux]
    rw [hasWordTokAux_numChar_run "30".data hds hd hdd [' ', 'M', '6'] (isWordCh 'T'),
      show hasWordTokAux 'M' "30".data true [' ', 'M', '6'] = false from by decide]
    simp only [show decide ('T' = 'M') = false from rfl, Bool.false_and,
      Bool.and_false, Bool.false_or, Bool.or_false]
  have h2 : hasWordTok 'M' ['2'] ('T' :: (decStr t ++ [' ', 'M', '6'])) = false := by
    unfold hasWordTok
    simp only [hasWordTokAux]
    rw [hasWordTokAux_numChar_run ['2'] hds hd hdd [' ', 'M', '6'] (isWordCh 'T'),
      show hasWordTokAux 'M' ['2'] true [' ', 'M', '6'] = false from by decide]
    simp only [show decide ('T' = 'M') = false from rfl, Bool.false_and,
      Bool.and_false, Bool.false_or, Bool.or_false]
  rw [h30, h2]
  simp

theorem isSpindleStop_m6line (t : ℕ) :
    isSpindleStopCommand ("M6 T" ++ decStrS t) = false := by
  unfold isSpindleStopCommand
  have hup : upper (jsTrim ("M6 T" ++ decStrS t).data) =
      'M' :: '6' :: ' ' :: 'T' :: decStr t := trimUpper_m6line t
  rw [hup]
  have hscan : stopScan none ('M' :: '6' :: ' ' :: 'T' :: decStr t) = false := by
    simp only [stopScan]
    rw [show stopAt ('6' :: ' ' :: 'T' :: decStr t) = false from rfl,
      stopScan_no_M (no_M_digits t) (some 'T')]
    simp
  rw [hscan]
  simp

theorem isSpindleStop_tm6line (t : ℕ) :
    isSpindleStopCommand ("T" ++ decStrS t ++ " M6") = false := by
  obtain ⟨d, hd, hdd⟩ := decStr_last_digit t
  unfold isSpindleStopCommand
  have hup : upper (jsTrim ("T" ++ decStrS t ++ " M6").data) =
      'T' :: (decStr t ++ [' ', 'M', '6']) := trimUpper_tm6line t
  rw [hup]
  have hds : ∀ c ∈ decStr t, isNumChar c = true :=
    fun c hc => digit_isNumChar (decStr_digits t c hc)
  have hscan : stopScan none ('T' :: (decStr t ++ [' ', 'M', '6'])) = false := by
    simp only [stopScan]
    rw [stopScan_numChar_run hds hd [' ', 'M', '6'] (some 'T'),
      show stopScan (some d) [' ', 'M', '6'] =
        ((decide (' ' = 'M') && stopPrevOk (some d) && stopAt ['M', '6']) ||
          stopScan (some ' ') ['M', '6']) from rfl,
      show stopScan (some ' ') ['M', '6'] = false from by decide]
    simp only [show decide ('T' = 'M') = false from rfl,
      show decide (' ' = 'M') = false from rfl, Bool.false_and, Bool.and_false,
      Bool.false_or, Bool.or_false]
  rw [hscan]
  simp

/-! ### Counting lines through the replay loops -/

theorem procFold_countP (P : String → Bool)
    (hinv : ∀ ox oy st line, P ((createOffsetFn ox oy st line).1) = P line)
    (hop : ∀ line, isOperationNameComment line = true → P line = false)
    (ox oy : ℚ) (ss : Bool) :
    ∀ (lines : List String) (acc : List String × RepState),
      (∀ p, acc.2.pending = some p → isOperationNameComment p = true) →
      ((lines.foldl (procStep ox oy ss) acc).1).countP P =
        acc.1.countP P +
          (lines.filter (fun l => !(ss && isSpindleStopCommand l))).countP P := by
  intro lines
  induction lines with
  | nil =>
    intro acc hacc
    simp
  | cons l ls ih =>
    intro acc hacc
    obtain ⟨out, st⟩ := acc
    rw [List.foldl_cons]
    by_cases h1 : (ss && isSpindleStopCommand l) = true
    · have hstep : procStep ox oy ss (out, st) l =
          (out, ⟨st.pending,
            if hasSub "G53".data (trimUpper l) then true else st.afterG53,
            st.offAbs⟩) := by
        simp only [procStep]
        rw [if_pos h1]
      rw [hstep]
      rw [ih (out, (⟨st.pending,
          if hasSub "G53".data (trimUpper l) then true else st.afterG53,
          st.offAbs⟩ : RepState)) (fun p hp => hacc p hp)]
      rw [List.filter_cons,
        show (!(ss && isSpindleStopCommand l)) = false by simp [h1]]
      simp
    · have hkeep : (!(ss && isSpindleStopCommand l)) = true := by
        simp only [Bool.not_eq_true] at h1 ⊢
        simp [h1]
      by_cases h2 : (isOperationNameComment l &&
          (if hasSub "G53".data (trimUpper l) then true else st.afterG53)) = true
      · have hstep : procStep ox oy ss (out, st) l =
            (out, ⟨some l,
              if hasSub "G53".data (trimUpper l) then true else st.afterG53,
              st.offAbs⟩) := by
          simp only [procStep]
          rw [if_neg h1, if_pos h2]
        have hopl : isOperationNameComment l = true := by
          cases hcase : isOperationNameComment l
          · rw [hcase] at h2
            simp at h2
          · rfl
        rw [hstep]
        rw [ih (out, (⟨some l,
            if hasSub "G53".data (trimUpper l) then true else st.afterG53,
            st.offAbs⟩ : RepState))
          (by intro p hp; simp only at hp; injection hp with hp2; rw [← hp2]; exact hopl)]
        rw [List.filter_cons, if_pos hkeep, List.countP_cons]
        simp [hop l hopl]
      · by_cases h3 : (st.pending.isSome && isOperationStart l) = true
        · have hpend : ∃ p, st.pending = some p := by
            cases hsp : st.pending with
            | none => rw [hsp] at h3; simp at h3
            | some p => exact ⟨p, rfl⟩
          obtain ⟨p, hp⟩ := hpend
          have hstep : procStep ox oy ss (out, st) l =
              (out ++ [p] ++ [(createOffsetFn ox oy st.offAbs l).1],
                ⟨none,
                  if !headIs '(' (trimUpper l) && !headIs ';' (trimUpper l) &&
                      !(trimUpper l).isEmpty then
                    if !hasSub "G53".data (trimUpper l) then false else false
                  else false,
                  (createOffsetFn ox oy st.offAbs l).2⟩) := by
            simp only [procStep]
            rw [if_neg h1, if_neg h2, if_pos h3, hp]
            rfl
          rw [hstep]
          rw [ih (out ++ [p] ++ [(createOffsetFn ox oy st.offAbs l).1],
              (⟨none,
                if !headIs '(' (trimUpper l) && !headIs ';' (trimUpper l) &&
                    !(trimUpper l).isEmpty then
                  if !hasSub "G53".data (trimUpper l) then false else false
                else false,
                (createOffsetFn ox oy st.offAbs l).2⟩ : RepState))
            (by intro q hq; simp at hq)]
          rw [List.filter_cons, if_pos hkeep, List.countP_cons,
            List.countP_append, List.countP_append]
          have hPp : P p = false := hop p (hacc p hp)
          simp [List.countP_cons, hPp, hinv ox oy st.offAbs l]
          omega
        · have hstep : procStep ox oy ss (out, st) l =
              (out ++ [] ++ [(createOffsetFn ox oy st.offAbs l).1],
                ⟨st.pending,
                  if !headIs '(' (trimUpper l) && !headIs ';' (trimUpper l) &&
                      !(trimUpper l).isEmpty then
                    if !hasSub "G53".data (trimUpper l) then false
                    else if hasSub "G53".data (trimUpper l) then true else st.afterG53
                  else if hasSub "G53".data (trimUpper l) then true else st.afterG53,
                  (createOffsetFn ox oy st.offAbs l).2⟩) := by
            simp only [procStep]
            rw [if_neg h1, if_neg h2, if_neg h3]
          rw [hstep]
          rw [ih (out ++ [] ++ [(createOffsetFn ox oy st.offAbs l).1],
              (⟨st.pending,
                if !headIs '(' (trimUpper l) && !headIs ';' (trimUpper l) &&
                    !(trimUpper l).isEmpty then
                  if !hasSub "G53".data (trimUpper l) then false
                  else if hasSub "G53".data (trimUpper l) then true else st.afterG53
                else if hasSub "G53".data (trimUpper l) then true else st.afterG53,
                (createOffsetFn ox oy st.offAbs l).2⟩ : RepState))
            (fun q hq => hacc q hq)]
          rw [List.filter_cons, if_pos hkeep, List.countP_cons,
            List.countP_append, List.countP_append]
          simp [List.countP_cons, hinv ox oy st.offAbs l]
          omega

theorem procLines_countP (P : String → Bool)
    (hinv : ∀ ox oy st line, P ((createOffsetFn ox oy st line).1) = P line)
    (hop : ∀ line, isOperationNameComment line = true → P line = false)
    (ox oy : ℚ) (ss : Bool) (lines : List String) :
    (processLinesWithCommentRepositioning lines ox oy ss).countP P =
      (lines.filter (fun l => !(ss && isSpindleStopCommand l))).countP P := by
  unfold processLinesWithCommentRepositioning
  rw [procFold_countP P hinv hop ox oy ss lines ([], ⟨none, false, true⟩)
    (by intro p hp; simp at hp)]
  simp

theorem offsetReplay_countP (P : String → Bool)
    (hinv : ∀ ox oy st line, P ((createOffsetFn ox oy st line).1) = P line)
    (ox oy : ℚ) (isLast : Bool) (lines : List String) :
    (offsetReplay lines ox oy isLast).countP P =
      (lines.filter (fun l => !(!isLast && isSpindleStopCommand l))).countP P := by
  have haux : ∀ (ls : List String) (acc : List String × Bool),
      ((ls.foldl
        (fun (acc2 : List String × Bool) line =>
          if !isLast && isSpindleStopCommand line then acc2
          else
            let ol := createOffsetFn ox oy acc2.2 line
            (acc2.1 ++ [ol.1], ol.2)) acc).1).countP P =
        acc.1.countP P +
          (ls.filter (fun l => !(!isLast && isSpindleStopCommand l))).countP P := by
    intro ls
    induction ls with
    | nil => intro acc; simp
    | cons l ls2 ih =>
      intro acc
      rw [List.foldl_cons]
      by_cases h1 : (!isLast && isSpindleStopCommand l) = true
      · rw [if_pos h1, ih, List.filter_cons]
        rw [show (!(!isLast && isSpindleStopCommand l)) = false by simp [h1]]
        simp
      · rw [if_neg h1, ih, List.filter_cons,
          if_pos (by simp only [Bool.not_eq_true] at h1; simp [h1]),
          List.countP_cons, List.countP_append]
        simp [List.countP_cons, hinv ox oy acc.2 l]
        omega
  unfold offsetReplay
  rw [haux lines ([], true)]
  simp

/-! ### List bookkeeping: lastFlags, flatMap counts, first-seen order -/

theorem countP_eq_zero_of_all {P : String → Bool} {l : List String}
    (h : ∀ x ∈ l, P x = false) : l.countP P = 0 := by
  induction l with
  | nil => rfl
  | cons a r ih =>
    rw [List.countP_cons, h a (List.mem_cons_self a r),
      ih (fun x hx => h x (List.mem_cons_of_mem a hx))]
    simp

theorem countP_filter_subset {P q : String → Bool} {l : List String}
    (h : ∀ x ∈ l, P x = false) : (l.filter q).countP P = 0 :=
  countP_eq_zero_of_all (fun x hx => h x (List.mem_of_mem_filter hx))

theorem filter_skipFalse (lines : List String) :
    (lines.filter (fun l => !(false && isSpindleStopCommand l))) = lines := by
  induction lines with
  | nil => rfl
  | cons a r ih => simp [List.filter_cons, ih]

theorem filter_skipTrue_stop_zero (lines : List String) :
    ((lines.filter (fun l => !(true && isSpindleStopCommand l))).countP
      (fun l => isSpindleStopCommand l)) = 0 := by
  refine countP_eq_zero_of_all (fun x hx => ?_)
  have := (List.mem_filter.mp hx).2
  simp only [Bool.true_and, Bool.not_eq_true'] at this
  exact this

theorem lastFlags_length {α : Type} (l : List α) : (lastFlags l).length = l.length := by
  induction l with
  | nil => rfl
  | cons a r ih =>
    cases r with
    | nil => rfl
    | cons b t =>
      show ((a, false) :: lastFlags (b :: t)).length = _
      simp only [List.length_cons] at ih ⊢
      rw [ih]

theorem lastFlags_mem_fst {α : Type} {l : List α} {a : α} {b : Bool}
    (h : (a, b) ∈ lastFlags l) : a ∈ l := by
  induction l with
  | nil => simp [lastFlags] at h
  | cons x r ih =>
    cases r with
    | nil =>
      simp only [lastFlags, List.mem_singleton, Prod.mk.injEq] at h
      simp [h.1]
    | cons y t =>
      rw [show lastFlags (x :: y :: t) = (x, false) :: lastFlags (y :: t) from rfl,
        List.mem_cons] at h
      rcases h with h | h
      · simp [(Prod.mk.injEq _ _ _ _).mp h |>.1]
      · exact List.mem_cons_of_mem x (ih h)

theorem lastFlags_eq {α : Type} (l : List α) (h : l ≠ []) :
    lastFlags l = (l.dropLast.map (fun a => (a, false))) ++ [(l.getLast h, true)] := by
  induction l with
  | nil => exact absurd rfl h
  | cons a r ih =>
    cases r with
    | nil => rfl
    | cons b t =>
      show (a, false) :: lastFlags (b :: t) = _
      rw [ih (by simp)]
      rfl

theorem countP_flatMap {α : Type} (P : String → Bool) (f : α → List String)
    (l : List α) :
    ((l.flatMap f).countP P) = (l.map (fun a => (f a).countP P)).sum := by
  induction l with
  | nil => rfl
  | cons a r ih => simp [List.flatMap_cons, List.countP_append, ih]

theorem countP_flatMap_const {α : Type} (P : String → Bool) (f : α → List String)
    (l : List α) (c : ℕ) (h : ∀ a ∈ l, (f a).countP P = c) :
    ((l.flatMap f).countP P) = l.length * c := by
  induction l with
  | nil => simp
  | cons a r ih =>
    rw [List.flatMap_cons, List.countP_append, h a (List.mem_cons_self a r),
      ih (fun x hx => h x (List.mem_cons_of_mem a hx)), List.length_cons]
    ring

theorem firstSeenAux_mem (l : List ℕ) :
    ∀ (seen : List ℕ) (x : ℕ), x ∈ firstSeenAux seen l ↔ x ∈ l ∧ x ∉ seen := by
  induction l with
  | nil => intro seen x; simp [firstSeenAux]
  | cons t r ih =>
    intro seen x
    by_cases ht : t ∈ seen
    · rw [show firstSeenAux seen (t :: r) = firstSeenAux seen r by
        simp [firstSeenAux, ht], ih seen x]
      constructor
      · exact fun ⟨h1, h2⟩ => ⟨List.mem_cons_of_mem t h1, h2⟩
      · rintro ⟨h1, h2⟩
        rcases List.mem_cons.mp h1 with rfl | h1
        · exact absurd ht h2
        · exact ⟨h1, h2⟩
    · rw [show firstSeenAux seen (t :: r) = t :: firstSeenAux (t :: seen) r by
        simp [firstSeenAux, ht], List.mem_cons, ih (t :: seen) x]
      constructor
      · rintro (rfl | ⟨h1, h2⟩)
        · exact ⟨List.mem_cons_self _ _, ht⟩
        · exact ⟨List.mem_cons_of_mem t h1, fun hx => h2 (List.mem_cons_of_mem t hx)⟩
      · rintro ⟨h1, h2⟩
        rcases List.mem_cons.mp h1 with rfl | h1
        · exact Or.inl rfl
        · by_cases hxt : x = t
          · exact Or.inl hxt
          · exact Or.inr ⟨h1, fun hx => by
              rcases List.mem_cons.mp hx with h | h
              · exact hxt h
              · exact h2 h⟩

theorem firstSeenAux_nodup (l : List ℕ) :
    ∀ (seen : List ℕ), (firstSeenAux seen l).Nodup := by
  induction l with
  | nil => intro seen; simp [firstSeenAux]
  | cons t r ih =>
    intro seen
    by_cases ht : t ∈ seen
    · rw [show firstSeenAux seen (t :: r) = firstSeenAux seen r by
        simp [firstSeenAux, ht]]
      exact ih seen
    · rw [show firstSeenAux seen (t :: r) = t :: firstSeenAux (t :: seen) r by
        simp [firstSeenAux, ht]]
      refine List.nodup_cons.mpr ⟨?_, ih (t :: seen)⟩
      intro hmem
      exact ((firstSeenAux_mem r (t :: seen) t).mp hmem).2 (List.mem_cons_self t seen)

theorem firstSeen_mem (l : List ℕ) (x : ℕ) : x ∈ firstSeen l ↔ x ∈ l := by
  unfold firstSeen
  rw [firstSeenAux_mem l [] x]
  simp

theorem firstSeen_nodup (l : List ℕ) : (firstSeen l).Nodup := firstSeenAux_nodup l []

/-! ### Invariants of the tool segmenter and the phase splitter -/

theorem segFold_pred (Q : String → Prop) :
    ∀ (lines : List String),
      (∀ l ∈ lines, ¬(trimUpper l = "M30".data) → ¬(trimUpper l = "M2".data) →
        isToolChangeTok (trimUpper l) = false → Q l) →
      ∀ (acc : List Segment × Segment),
        (∀ seg ∈ acc.1, ∀ l ∈ seg.lines, Q l) →
        (∀ l ∈ acc.2.lines, Q l) →
        (∀ seg ∈ (lines.foldl segStep acc).1, ∀ l ∈ seg.lines, Q l) ∧
        (∀ l ∈ (lines.foldl segStep acc).2.lines, Q l) := by
  intro lines
  induction lines with
  | nil =>
    intro hQ acc h1 h2
    exact ⟨h1, h2⟩
  | cons l ls ih =>
    intro hQ acc h1 h2
    obtain ⟨done, cur⟩ := acc
    rw [List.foldl_cons]
    have hQls : ∀ x ∈ ls, ¬(trimUpper x = "M30".data) → ¬(trimUpper x = "M2".data) →
        isToolChangeTok (trimUpper x) = false → Q x :=
      fun x hx => hQ x (List.mem_cons_of_mem l hx)
    by_cases hm : (decide (trimUpper l = "M30".data) ||
        decide (trimUpper l = "M2".data)) = true
    · have hstep : segStep (done, cur) l = (done, cur) := by
        simp only [segStep]
        rw [if_pos hm]
      rw [hstep]
      exact ih hQls (done, cur) h1 h2
    · by_cases htc : isToolChangeTok (trimUpper l) = true
      · have hstep : segStep (done, cur) l =
            ((if cur.lines ≠ [] then done ++ [cur] else done),
              ⟨some (triggerToolNum (trimUpper l)), [], false⟩) := by
          simp only [segStep]
          rw [if_neg hm, if_pos htc]
        rw [hstep]
        refine ih hQls _ ?_ ?_
        · intro seg hseg x hx
          by_cases hc : cur.lines ≠ []
          · rw [if_pos hc] at hseg
            rcases List.mem_append.mp hseg with hseg | hseg
            · exact h1 seg hseg x hx
            · rw [List.mem_singleton] at hseg
              subst hseg
              exact h2 x hx
          · rw [if_neg hc] at hseg
            exact h1 seg hseg x hx
        · intro x hx
          simp at hx
      · have hstep : segStep (done, cur) l =
            (done, { cur with lines := cur.lines ++ [l] }) := by
          simp only [segStep]
          rw [if_neg hm, if_neg htc]
        rw [hstep]
        refine ih hQls _ h1 ?_
        intro x hx
        rcases List.mem_append.mp hx with hx | hx
        · exact h2 x hx
        · rw [List.mem_singleton] at hx
          subst hx
          simp only [Bool.or_eq_true, decide_eq_true_eq, not_or] at hm
          exact hQ x (List.mem_cons_self x ls) hm.1 hm.2 (by simpa using htc)

theorem parseToolSegments_pred (Q : String → Prop) (gcode : String)
    (hQ : ∀ l ∈ (splitCh '\n' gcode.data).map List.asString,
      ¬(trimUpper l = "M30".data) → ¬(trimUpper l = "M2".data) →
      isToolChangeTok (trimUpper l) = false → Q l) :
    ∀ seg ∈ parseToolSegments gcode, ∀ l ∈ seg.lines, Q l := by
  have h := segFold_pred Q ((splitCh '\n' gcode.data).map List.asString) hQ
    ([], ⟨none, [], true⟩) (by simp) (by simp)
  intro seg hseg
  unfold parseToolSegments at hseg
  dsimp only at hseg
  by_cases hc : (((splitCh '\n' gcode.data).map List.asString).foldl segStep
      ([], ⟨none, [], true⟩)).2.lines ≠ []
  · rw [if_pos hc] at hseg
    rcases List.mem_append.mp hseg with hseg | hseg
    · exact h.1 seg hseg
    · rw [List.mem_singleton] at hseg
      subst hseg
      exact h.2
  · rw [if_neg hc] at hseg
    exact h.1 seg hseg

theorem phaseStep_fields (acc : Phases × ℕ) (line : String) :
    ((phaseStep acc line).1.preamble = acc.1.preamble ∨
      (phaseStep acc line).1.preamble = acc.1.preamble ++ [line]) ∧
    ((phaseStep acc line).1.cutting = acc.1.cutting ∨
      (phaseStep acc line).1.cutting = acc.1.cutting ++ [line]) ∧
    ((phaseStep acc line).1.postamble = acc.1.postamble ∨
      (phaseStep acc line).1.postamble = acc.1.postamble ++ [line]) := by
  obtain ⟨ph, p⟩ := acc
  simp only [phaseStep]
  repeat' split
  all_goals simp

theorem phaseFold_pred (Q : String → Prop) :
    ∀ (lines : List String),
      (∀ l ∈ lines, (hasWordTok 'M' "30".data (trimUpper l) ||
        hasWordTok 'M' ['2'] (trimUpper l)) = false → Q l) →
      ∀ (acc : Phases × ℕ),
        (∀ l ∈ acc.1.preamble, Q l) → (∀ l ∈ acc.1.cutting, Q l) →
        (∀ l ∈ acc.1.postamble, Q l) →
        (∀ l ∈ (lines.foldl phaseStep acc).1.preamble, Q l) ∧
        (∀ l ∈ (lines.foldl phaseStep acc).1.cutting, Q l) ∧
        (∀ l ∈ (lines.foldl phaseStep acc).1.postamble, Q l) := by
  intro lines
  induction lines with
  | nil =>
    intro hQ acc h1 h2 h3
    exact ⟨h1, h2, h3⟩
  | cons l ls ih =>
    intro hQ acc h1 h2 h3
    obtain ⟨ph, p⟩ := acc
    rw [List.foldl_cons]
    have hQls : ∀ x ∈ ls, (hasWordTok 'M' "30".data (trimUpper x) ||
        hasWordTok 'M' ['2'] (trimUpper x)) = false → Q x :=
      fun x hx => hQ x (List.mem_cons_of_mem l hx)
    by_cases hm : (hasWordTok 'M' "30".data (trimUpper l) ||
        hasWordTok 'M' ['2'] (trimUpper l)) = true
    · have hstep : phaseStep (ph, p) l = (ph, p) := by
        simp only [phaseStep]
        rw [if_pos hm]
      rw [hstep]
      exact ih hQls (ph, p) h1 h2 h3
    · have hQl : Q l :=
        hQ l (List.mem_cons_self l ls) (by simpa using hm)
      obtain ⟨hpre, hcut, hpost⟩ := phaseStep_fields (ph, p) l
      refine ih hQls (phaseStep (ph, p) l) ?_ ?_ ?_
      · rcases hpre with he | he <;> rw [he]
        · exact h1
        · intro x hx
          rcases List.mem_append.mp hx with hx | hx
          · exact h1 x hx
          · rw [List.mem_singleton] at hx
            subst hx
            exact hQl
      · rcases hcut with he | he <;> rw [he]
        · exact h2
        · intro x hx
          rcases List.mem_append.mp hx with hx | hx
          · exact h2 x hx
          · rw [List.mem_singleton] at hx
            subst hx
            exact hQl
      · rcases hpost with he | he <;> rw [he]
        · exact h3
        · intro x hx
          rcases List.mem_append.mp hx with hx | hx
          · exact h3 x hx
          · rw [List.mem_singleton] at hx
            subst hx
            exact hQl

theorem splitPhases_pred (Q : String → Prop) (lines : List String)
    (hQ : ∀ l ∈ lines, (hasWordTok 'M' "30".data (trimUpper l) ||
      hasWordTok 'M' ['2'] (trimUpper l)) = false → Q l) :
    (∀ l ∈ (splitPhases lines).preamble, Q l) ∧
    (∀ l ∈ (splitPhases lines).cutting, Q l) ∧
    (∀ l ∈ (splitPhases lines).postamble, Q l) := by
  unfold splitPhases
  exact phaseFold_pred Q lines hQ (⟨[], [], []⟩, 0) (by simp) (by simp) (by simp)

theorem groupLines_mem {toolSegs : List Segment} {t : ℕ} {l : String}
    (h : l ∈ groupLines toolSegs t) : ∃ seg ∈ toolSegs, l ∈ seg.lines := by
  unfold groupLines at h
  obtain ⟨seg, hseg, hl⟩ := List.mem_flatMap.mp h
  exact ⟨seg, List.mem_of_mem_filter hseg, hl⟩

/-! ### Named projections of the assembler's intermediate values -/

/-- The non-header tool segments of a source program. -/
def toolSegsOf (src : String) : List Segment :=
  (parseToolSegments src).filter (fun s => !s.isHeader)

/-- The header segment, when present. -/
def headerOf (src : String) : Option Segment :=
  (parseToolSegments src).find? (·.isHeader)

/-- The fallback source lines (header lines if a header exists, else the raw
split). -/
def sourceLinesOf (src : String) : List String :=
  match headerOf src with
  | some h => h.lines
  | none => (splitCh '\n' src.data).map List.asString

/-- The parsed skip set of an options record. -/
def skipSetOf (o : GenOptions) : Finset ℤ :=
  parseSkipInstances o.skipInstances ((o.rows * o.columns : ℕ) : ℤ)

/-- The surviving grid positions of an options record. -/
def positionsOf (o : GenOptions) : List Pos :=
  generatePositions o.rows o.columns o.spacingX o.spacingY
    (if o.columnDirection = "positive" then 1 else -1)
    (if o.rowDirection = "positive" then 1 else -1) (skipSetOf o)

/-- The first-seen tool order of a source program. -/
def toolOrderOf (src : String) : List ℕ :=
  firstSeen ((toolSegsOf src).filterMap (·.toolNum))

theorem genLines_sortTool (src : String) (o : GenOptions)
    (hs : o.sortByTool = true) (hne : (toolSegsOf src).isEmpty = false) :
    generateReplicatedGCodeLines src o =
      genBanner o (o.rows * o.columns) (skipSetOf o) ++
      (["(Tool order optimized to minimize tool changes)",
        "(Unique tools: " ++ String.intercalate ", "
          ((toolOrderOf src).map (fun t => "T" ++ decStrS t)) ++ ")",
        "(Total tool changes: " ++ decStrS (toolOrderOf src).length ++
          ", reduced from " ++
          decStrS ((toolSegsOf src).length * (o.rows * o.columns)) ++ ")",
        ""] ++
        (toolOrderOf src).flatMap
          (sortToolGroupBlock (toolSegsOf src) (o.rows * o.columns)
            (positionsOf o))) ++
      ["M30 (Program end)"] := by
  simp only [generateReplicatedGCodeLines, toolSegsOf, skipSetOf, toolOrderOf,
    positionsOf]
  rw [hs]
  simp only [if_true]
  simp only [toolSegsOf] at hne
  rw [hne]
  simp only [Bool.false_eq_true, if_false]

theorem genLines_stdTool (src : String) (o : GenOptions)
    (hs : o.sortByTool = false) (hne : (toolSegsOf src).isEmpty = false) :
    generateReplicatedGCodeLines src o =
      genBanner o (o.rows * o.columns) (skipSetOf o) ++
      (["(Standard replication - all tools per part in original order)",
        "(Tool changes per part: " ++ decStrS (toolSegsOf src).length ++ ")",
        ""] ++
        (match headerOf src with
         | some h => if h.lines ≠ [] then h.lines ++ [""] else []
         | none => []) ++
        (lastFlags (positionsOf o)).flatMap
          (stdToolBlock (toolSegsOf src) (o.rows * o.columns))) ++
      ["M30 (Program end)"] := by
  simp only [generateReplicatedGCodeLines, toolSegsOf, skipSetOf, positionsOf,
    headerOf]
  rw [hs]
  simp only [Bool.false_eq_true, if_false]
  simp only [toolSegsOf] at hne
  rw [hne]
  simp only [Bool.false_eq_true, if_false]

theorem genLines_sortFallback (src : String) (o : GenOptions)
    (hs : o.sortByTool = true) (he : (toolSegsOf src).isEmpty = true) :
    generateReplicatedGCodeLines src o =
      genBanner o (o.rows * o.columns) (skipSetOf o) ++
      (["(No tool changes detected, using standard replication)", ""] ++
        (splitPhases (sourceLinesOf src)).preamble ++ [""] ++
        (lastFlags (positionsOf o)).flatMap
          (sortFallbackBlock (splitPhases (sourceLinesOf src)).cutting
            (o.rows * o.columns)) ++
        (splitPhases (sourceLinesOf src)).postamble) ++
      ["M30 (Program end)"] := by
  simp only [generateReplicatedGCodeLines, toolSegsOf, skipSetOf, positionsOf,
    sourceLinesOf, headerOf]
  rw [hs]
  simp only [if_true]
  simp only [toolSegsOf] at he
  rw [he]
  simp only [if_true]

theorem genLines_stdFallback (src : String) (o : GenOptions)
    (hs : o.sortByTool = false) (he : (toolSegsOf src).isEmpty = true) :
    generateReplicatedGCodeLines src o =
      genBanner o (o.rows * o.columns) (skipSetOf o) ++
      ((splitPhases (sourceLinesOf src)).preamble ++ [""] ++
        (lastFlags (positionsOf o)).flatMap
          (stdFallbackBlock (splitPhases (sourceLinesOf src)).cutting
            (o.rows * o.columns)) ++
        (splitPhases (sourceLinesOf src)).postamble) ++
      ["M30 (Program end)"] := by
  simp only [generateReplicatedGCodeLines, toolSegsOf, skipSetOf, positionsOf,
    sourceLinesOf, headerOf]
  rw [hs]
  simp only [Bool.false_eq_true, if_false]
  simp only [toolSegsOf] at he
  rw [he]
  simp only [if_true]

/-! ### Comment classification of the assembler's fixed lines -/

theorem headIs_some {c : Char} {w : List Char} (h : headIs c w = true) :
    w.head? = some c := by
  cases w with
  | nil => simp [headIs] at h
  | cons d r =>
    simp only [headIs, decide_eq_true_eq] at h
    subst h
    rfl

theorem stripLineNum_id {cs : List Char}
    (h : ∀ c, cs.head? = some c → ¬c = 'N' ∧ ¬c = 'n') : stripLineNum cs = cs := by
  cases cs with
  | nil => rfl
  | cons a rest =>
    obtain ⟨h1, h2⟩ := h a rfl
    simp only [stripLineNum]
    rw [if_neg (by simp [h1, h2])]

theorem opComment_isComment (l : String) (h : isOperationNameComment l = true) :
    isGcodeComment l = true := by
  unfold isOperationNameComment at h
  dsimp only at h
  by_cases hc : (headIs '(' (jsTrim l.data) && lastIs ')' (jsTrim l.data)) = true
  · have hc2 : headIs '(' (jsTrim l.data) = true ∧ lastIs ')' (jsTrim l.data) = true := by
      simpa using hc
    unfold isGcodeComment
    dsimp only
    rw [stripLineNum_id (fun c hcc => by
      rw [headIs_some hc2.1] at hcc
      injection hcc with e
      subst e
      exact ⟨by decide, by decide⟩)]
    rw [hc2.1, hc2.2]
    simp
  · rw [if_pos (by simp [hc])] at h
    exact absurd h (by simp)

theorem getLast?_str_append (x y : String) (h : y.data.getLast? = some ')') :
    (x ++ y).data.getLast? = some ')' := by
  rw [String.data_append, List.getLast?_append, h]
  rfl

theorem genBanner_all (o : GenOptions) (tp : ℕ) (ss : Finset ℤ) :
    ∀ l ∈ genBanner o tp ss, isGcodeComment l = true ∨ l = "" := by
  intro l hl
  unfold genBanner at hl
  rcases List.mem_append.mp hl with hl | hl
  · rcases List.mem_append.mp hl with hl | hl
    · rcases List.mem_cons.mp hl with rfl | hl
      · exact Or.inl (by decide)
      rcases List.mem_cons.mp hl with rfl | hl
      · exact Or.inl (isGcodeComment_wrap _ rfl (getLast?_str_append _ _ rfl))
      rcases List.mem_cons.mp hl with rfl | hl
      · exact Or.inl (isGcodeComment_wrap _ rfl (getLast?_str_append _ _ rfl))
      · simp at hl
    · by_cases hc : ss.card > 0
      · rw [if_pos hc] at hl
        rcases List.mem_cons.mp hl with rfl | hl
        · exact Or.inl (isGcodeComment_wrap _ rfl (getLast?_str_append _ _ rfl))
        rcases List.mem_cons.mp hl with rfl | hl
        · exact Or.inl (isGcodeComment_wrap _ rfl (getLast?_str_append _ _ rfl))
        · simp at hl
      · rw [if_neg hc] at hl
        simp at hl
  · rcases List.mem_cons.mp hl with rfl | hl
    · exact Or.inl (isGcodeComment_wrap _ rfl (getLast?_str_append _ _ rfl))
    rcases List.mem_cons.mp hl with rfl | hl
    · exact Or.inl (isGcodeComment_wrap _ rfl (getLast?_str_append _ _ rfl))
    rcases List.mem_cons.mp hl with rfl | hl
    · exact Or.inl (isGcodeComment_wrap _ rfl (getLast?_str_append _ _ rfl))
    rcases List.mem_cons.mp hl with rfl | hl
    · exact Or.inr rfl
    · simp at hl

theorem comment_TC_false {l : String} (h : isGcodeComment l = true) :
    isToolChangeLine l = false := by
  unfold isToolChangeLine
  rw [h]
  rfl

theorem comment_PE_false {l : String} (h : isGcodeComment l = true) :
    isProgramEndLine l = false := by
  unfold isProgramEndLine
  rw [h]
  rfl

theorem comment_STOP_false {l : String} (h : isGcodeComment l = true) :
    isSpindleStopCommand l = false := by
  unfold isSpindleStopCommand
  rw [h]
  rfl

theorem genBanner_TC (o : GenOptions) (tp : ℕ) (ss : Finset ℤ) :
    (genBanner o tp ss).countP isToolChangeLine = 0 :=
  countP_eq_zero_of_all fun l hl =>
    (genBanner_all o tp ss l hl).elim comment_TC_false
      (fun he => by rw [he]; decide)

theorem genBanner_PE (o : GenOptions) (tp : ℕ) (ss : Finset ℤ) :
    (genBanner o tp ss).countP isProgramEndLine = 0 :=
  countP_eq_zero_of_all fun l hl =>
    (genBanner_all o tp ss l hl).elim comment_PE_false
      (fun he => by rw [he]; decide)

theorem genBanner_STOP (o : GenOptions) (tp : ℕ) (ss : Finset ℤ) :
    (genBanner o tp ss).countP (fun l => isSpindleStopCommand l) = 0 :=
  countP_eq_zero_of_all fun l hl =>
    (genBanner_all o tp ss l hl).elim comment_STOP_false
      (fun he => by rw [he]; decide)

/-! ### Tool-change line counts through the assembler -/

theorem hop_TC : ∀ l, isOperationNameComment l = true → isToolChangeLine l = false :=
  fun l h => comment_TC_false (opComment_isComment l h)

theorem hop_PE : ∀ l, isOperationNameComment l = true → isProgramEndLine l = false :=
  fun l h => comment_PE_false (opComment_isComment l h)

theorem hop_STOP : ∀ l, isOperationNameComment l = true →
    isSpindleStopCommand l = false :=
  fun l h => comment_STOP_false (opComment_isComment l h)

theorem procLines_zero (P : String → Bool)
    (hinv : ∀ ox oy st line, P ((createOffsetFn ox oy st line).1) = P line)
    (hop : ∀ line, isOperationNameComment line = true → P line = false)
    (ox oy : ℚ) (ss : Bool) (lines : List String)
    (hall : ∀ l ∈ lines, P l = false) :
    (processLinesWithCommentRepositioning lines ox oy ss).countP P = 0 := by
  rw [procLines_countP P hinv hop ox oy ss lines]
  exact countP_filter_subset hall

theorem segLines_TC (src : String) :
    ∀ seg ∈ parseToolSegments src, ∀ l ∈ seg.lines, isToolChangeLine l = false := by
  have h := parseToolSegments_pred (fun l => isToolChangeTok (trimUpper l) = false)
    src (fun l _ _ _ hx => hx)
  intro seg hseg l hl
  unfold isToolChangeLine
  rw [h seg hseg l hl]
  simp

theorem groupLines_TC (src : String) (t : ℕ) :
    ∀ l ∈ groupLines (toolSegsOf src) t, isToolChangeLine l = false := by
  intro l hl
  obtain ⟨seg, hseg, hl2⟩ := groupLines_mem hl
  exact segLines_TC src seg (List.mem_of_mem_filter hseg) l hl2

theorem comment_toolHeader (t : ℕ) :
    isGcodeComment ("(Tool T" ++ decStrS t ++ " - All Parts)") = true :=
  isGcodeComment_wrap _ rfl (getLast?_str_append _ _ rfl)

theorem comment_offsetComment (p : Pos) : isGcodeComment (offsetComment p) = true := by
  unfold offsetComment
  exact isGcodeComment_wrap _ rfl (getLast?_str_append _ _ rfl)

theorem comment_partComment (tp : ℕ) (p : Pos) :
    isGcodeComment (partComment tp p) = true := by
  unfold partComment
  exact isGcodeComment_wrap _ rfl (getLast?_str_append _ _ rfl)

theorem comment_sortPartComment (t : ℕ) (p : Pos) :
    isGcodeComment ("(T" ++ decStrS t ++ " Part " ++ decStrS p.partNum ++
      " - Row " ++ decStrS p.row ++ ", Col " ++ decStrS p.col ++ ")") = true :=
  isGcodeComment_wrap _ rfl (getLast?_str_append _ _ rfl)

theorem sortToolGroupBlock_TC (src : String) (tp : ℕ) (positions : List Pos)
    (t : ℕ) :
    (sortToolGroupBlock (toolSegsOf src) tp positions t).countP
      isToolChangeLine = 1 := by
  unfold sortToolGroupBlock
  rw [List.countP_append]
  have h3 : (["(Tool T" ++ decStrS t ++ " - All Parts)", "M6 T" ++ decStrS t,
      ""]).countP isToolChangeLine = 1 := by
    simp [List.countP_cons, comment_TC_false (comment_toolHeader t),
      isToolChangeLine_m6line t, show isToolChangeLine "" = false from by decide]
  rw [h3]
  have hblocks : ((lastFlags positions).flatMap fun pl =>
      ["(T" ++ decStrS t ++ " Part " ++ decStrS pl.1.partNum ++ " - Row " ++
         decStrS pl.1.row ++ ", Col " ++ decStrS pl.1.col ++ ")",
       offsetComment pl.1] ++
        processLinesWithCommentRepositioning (groupLines (toolSegsOf src) t)
          pl.1.offsetX pl.1.offsetY (!pl.2) ++ [""]).countP isToolChangeLine = 0 := by
    rw [countP_flatMap_const isToolChangeLine _ _ 0 ?_]
    · simp
    intro pl hpl
    rw [List.countP_append, List.countP_append]
    rw [procLines_zero isToolChangeLine offsetFn_toolChange hop_TC _ _ _ _
      (groupLines_TC src t)]
    simp [List.countP_cons, comment_TC_false (comment_offsetComment pl.1),
      comment_TC_false (comment_sortPartComment t pl.1),
      show isToolChangeLine "" = false from by decide]
  rw [hblocks]

theorem headerBlock_TC (src : String) :
    (match headerOf src with
     | some h => if h.lines ≠ [] then h.lines ++ [""] else []
     | none => ([] : List String)).countP isToolChangeLine = 0 := by
  cases hh : headerOf src with
  | none => rfl
  | some hseg =>
    have hmem : hseg ∈ parseToolSegments src := List.mem_of_find?_eq_some hh
    dsimp only
    by_cases hc : hseg.lines ≠ []
    · rw [if_pos hc, List.countP_append,
        countP_eq_zero_of_all (segLines_TC src hseg hmem)]
      decide
    · rw [if_neg hc]
      rfl

theorem stdToolBlock_TC (src : String) (tp : ℕ) (pl : Pos × Bool) :
    (stdToolBlock (toolSegsOf src) tp pl).countP isToolChangeLine =
      (toolSegsOf src).length := by
  unfold stdToolBlock
  rw [List.countP_append]
  have h3 : ([partComment tp pl.1, offsetComment pl.1, ""]).countP
      isToolChangeLine = 0 := by
    simp [List.countP_cons, comment_TC_false (comment_partComment tp pl.1),
      comment_TC_false (comment_offsetComment pl.1),
      show isToolChangeLine "" = false from by decide]
  rw [h3]
  rw [countP_flatMap_const isToolChangeLine _ _ 1 ?_]
  · rw [lastFlags_length]
    simp
  intro sl hsl
  rw [List.countP_append, List.countP_append]
  have hproc : (processLinesWithCommentRepositioning sl.1.lines pl.1.offsetX
      pl.1.offsetY (!(pl.2 && sl.2))).countP isToolChangeLine = 0 := by
    refine procLines_zero isToolChangeLine offsetFn_toolChange hop_TC _ _ _ _ ?_
    intro l hl
    exact segLines_TC src sl.1
      (List.mem_of_mem_filter (lastFlags_mem_fst hsl)) l hl
  rw [hproc]
  simp [List.countP_cons, isToolChangeLine_tm6line,
    show isToolChangeLine "" = false from by decide]

theorem genLines_TC_sort (src : String) (o : GenOptions)
    (hs : o.sortByTool = true) (hne : (toolSegsOf src).isEmpty = false) :
    (generateReplicatedGCodeLines src o).countP isToolChangeLine =
      (toolOrderOf src).length := by
  rw [genLines_sortTool src o hs hne, List.countP_append, List.countP_append,
    genBanner_TC, List.countP_append]
  have hl2 : isToolChangeLine ("(Unique tools: " ++ String.intercalate ", "
      ((toolOrderOf src).map (fun t => "T" ++ decStrS t)) ++ ")") = false :=
    comment_TC_false (isGcodeComment_wrap _ rfl (getLast?_str_append _ _ rfl))
  have hl3 : isToolChangeLine ("(Total tool changes: " ++
      decStrS (toolOrderOf src).length ++ ", reduced from " ++
      decStrS ((toolSegsOf src).length * (o.rows * o.columns)) ++ ")") = false :=
    comment_TC_false (isGcodeComment_wrap _ rfl (getLast?_str_append _ _ rfl))
  have h4 : (["(Tool order optimized to minimize tool changes)",
      "(Unique tools: " ++ String.intercalate ", "
        ((toolOrderOf src).map (fun t => "T" ++ decStrS t)) ++ ")",
      "(Total tool changes: " ++ decStrS (toolOrderOf src).length ++
        ", reduced from " ++
        decStrS ((toolSegsOf src).length * (o.rows * o.columns)) ++ ")",
      ""]).countP isToolChangeLine = 0 := by
    simp [List.countP_cons, hl2, hl3,
      show isToolChangeLine "(Tool order optimized to minimize tool changes)" =
        false from by decide,
      show isToolChangeLine "" = false from by decide]
  rw [h4, countP_flatMap_const isToolChangeLine _ _ 1
    (fun t ht => sortToolGroupBlock_TC src _ _ t)]
  simp [show isToolChangeLine "M30 (Program end)" = false from by decide]

theorem genLines_TC_std (src : String) (o : GenOptions)
    (hs : o.sortByTool = false) (hne : (toolSegsOf src).isEmpty = false) :
    (generateReplicatedGCodeLines src o).countP isToolChangeLine =
      (positionsOf o).length * (toolSegsOf src).length := by
  rw [genLines_stdTool src o hs hne, List.countP_append, List.countP_append,
    genBanner_TC, List.countP_append, List.countP_append]
  have hl2 : isToolChangeLine ("(Tool changes per part: " ++
      decStrS (toolSegsOf src).length ++ ")") = false :=
    comment_TC_false (isGcodeComment_wrap _ rfl (getLast?_str_append _ _ rfl))
  have h3 : (["(Standard replication - all tools per part in original order)",
      "(Tool changes per part: " ++ decStrS (toolSegsOf src).length ++ ")",
      ""]).countP isToolChangeLine = 0 := by
    simp [List.countP_cons, hl2,
      show isToolChangeLine
        "(Standard replication - all tools per part in original order)" =
        false from by decide,
      show isToolChangeLine "" = false from by decide]
  rw [h3, headerBlock_TC, countP_flatMap_const isToolChangeLine _ _
    ((toolSegsOf src).length) (fun pl hpl => stdToolBlock_TC src _ pl),
    lastFlags_length]
  simp [show isToolChangeLine "M30 (Program end)" = false from by decide]

/-! ## C5: tool-change line counts of the assembled output -/

/-- **C5 (amended).** With `sortByTool = true` and at least one tool segment,
the assembled output contains exactly `toolOrder.length` non-comment
tool-change lines, where `toolOrder` is the duplicate-free first-seen list of
the segments' tool numbers (so its length is the number k of unique tools) —
independent of the number of surviving instances.  With `sortByTool = false`
the output contains exactly `positions.length * toolSegs.length` tool-change
lines: one per instance per tool segment, which exceeds k·n whenever a tool
number recurs in non-adjacent segments (the claim's "up to k·n" bound is
wrong), as the counterexample shows. -/
theorem claim_C5_amended (src : String) (o : GenOptions) :
    (o.sortByTool = true → (toolSegsOf src).isEmpty = false →
      (generateReplicatedGCodeLines src o).countP isToolChangeLine =
        (toolOrderOf src).length) ∧
    (o.sortByTool = false → (toolSegsOf src).isEmpty = false →
      (generateReplicatedGCodeLines src o).countP isToolChangeLine =
        (positionsOf o).length * (toolSegsOf src).length) ∧
    (toolOrderOf src).Nodup ∧
    (∀ x, x ∈ toolOrderOf src ↔ x ∈ (toolSegsOf src).filterMap (·.toolNum)) :=
  ⟨fun hs hne => genLines_TC_sort src o hs hne,
   fun hs hne => genLines_TC_std src o hs hne,
   firstSeen_nodup _, fun x => firstSeen_mem _ x⟩

/-- **C5 (counterexample).** A source whose tool 1 recurs in a non-adjacent
segment: 3 tool segments over k = 2 unique tools, a 1×1 grid (n = 1
surviving instance), standard mode.  The output contains 3 tool-change
lines, exceeding the claimed bound k·n = 2. -/
theorem claim_C5_counterexample :
    (generateReplicatedGCodeLines "T1 M6\nG1 X1\nT2 M6\nG1 X2\nT1 M6\nG1 X3"
      (⟨1, 1, "positive", "positive", 100, 100, 0, 0, false, "", "a.nc"⟩ :
        GenOptions)).countP isToolChangeLine = 3 ∧
    (toolOrderOf "T1 M6\nG1 X1\nT2 M6\nG1 X2\nT1 M6\nG1 X3").length = 2 ∧
    (positionsOf (⟨1, 1, "positive", "positive", 100, 100, 0, 0, false, "",
      "a.nc"⟩ : GenOptions)).length = 1 ∧
    ¬(3 ≤ 2 * 1) :=
  ⟨by with_unfolding_all decide, by with_unfolding_all decide,
   by with_unfolding_all decide, by decide⟩

/-- Witness for C5's sort-by-tool clause on a two-tool source with a 2×1
grid. -/
theorem claim_C5_witness :
    (generateReplicatedGCodeLines "T1 M6\nG1 X1\nT2 M6\nG1 X2"
      (⟨2, 1, "positive", "positive", 100, 100, 0, 0, true, "", "a.nc"⟩ :
        GenOptions)).countP isToolChangeLine =
      (toolOrderOf "T1 M6\nG1 X1\nT2 M6\nG1 X2").length :=
  (claim_C5_amended "T1 M6\nG1 X1\nT2 M6\nG1 X2"
    (⟨2, 1, "positive", "positive", 100, 100, 0, 0, true, "", "a.nc"⟩ :
      GenOptions)).1 rfl (by with_unfolding_all decide)

/-! ## C9: program-end lines of the assembled output -/

theorem phases_PE (lines : List String) :
    (∀ l ∈ (splitPhases lines).preamble, isProgramEndLine l = false) ∧
    (∀ l ∈ (splitPhases lines).cutting, isProgramEndLine l = false) ∧
    (∀ l ∈ (splitPhases lines).postamble, isProgramEndLine l = false) :=
  splitPhases_pred _ lines (fun l _ htokf => by
    unfold isProgramEndLine
    rw [htokf]
    simp)

theorem segLines_PE (src : String)
    (hsrc : ∀ l ∈ (splitCh '\n' src.data).map List.asString,
      (hasWordTok 'M' "30".data (trimUpper l) ||
        hasWordTok 'M' ['2'] (trimUpper l)) = true →
      trimUpper l = "M30".data ∨ trimUpper l = "M2".data) :
    ∀ seg ∈ parseToolSegments src, ∀ l ∈ seg.lines, isProgramEndLine l = false := by
  refine parseToolSegments_pred _ src ?_
  intro l hl h30 h2 _
  cases htok : (hasWordTok 'M' "30".data (trimUpper l) ||
      hasWordTok 'M' ['2'] (trimUpper l)) with
  | false =>
    unfold isProgramEndLine
    rw [htok]
    simp
  | true =>
    rcases hsrc l hl htok with he | he
    · exact absurd he h30
    · exact absurd he h2

theorem sortToolGroupBlock_PE (src : String) (tp : ℕ) (positions : List Pos)
    (t : ℕ)
    (hsegs : ∀ seg ∈ parseToolSegments src, ∀ l ∈ seg.lines,
      isProgramEndLine l = false) :
    (sortToolGroupBlock (toolSegsOf src) tp positions t).countP
      isProgramEndLine = 0 := by
  unfold sortToolGroupBlock
  rw [List.countP_append]
  have h3 : (["(Tool T" ++ decStrS t ++ " - All Parts)", "M6 T" ++ decStrS t,
      ""]).countP isProgramEndLine = 0 := by
    simp [List.countP_cons, comment_PE_false (comment_toolHeader t),
      isProgramEndLine_m6line t, show isProgramEndLine "" = false from by decide]
  rw [h3]
  have hgroup : ∀ l ∈ groupLines (toolSegsOf src) t, isProgramEndLine l = false := by
    intro l hl
    obtain ⟨seg, hseg, hl2⟩ := groupLines_mem hl
    exact hsegs seg (List.mem_of_mem_filter hseg) l hl2
  have hblocks : ((lastFlags positions).flatMap fun pl =>
      ["(T" ++ decStrS t ++ " Part " ++ decStrS pl.1.partNum ++ " - Row " ++
         decStrS pl.1.row ++ ", Col " ++ decStrS pl.1.col ++ ")",
       offsetComment pl.1] ++
        processLinesWithCommentRepositioning (groupLines (toolSegsOf src) t)
          pl.1.offsetX pl.1.offsetY (!pl.2) ++ [""]).countP isProgramEndLine = 0 := by
    rw [countP_flatMap_const isProgramEndLine _ _ 0 ?_]
    · simp
    intro pl hpl
    rw [List.countP_append, List.countP_append,
      procLines_zero isProgramEndLine offsetFn_programEnd hop_PE _ _ _ _ hgroup]
    simp [List.countP_cons, comment_PE_false (comment_offsetComment pl.1),
      comment_PE_false (comment_sortPartComment t pl.1),
      show isProgramEndLine "" = false from by decide]
  rw [hblocks]

theorem headerBlock_PE (src : String)
    (hsegs : ∀ seg ∈ parseToolSegments src, ∀ l ∈ seg.lines,
      isProgramEndLine l = false) :
    (match headerOf src with
     | some h => if h.lines ≠ [] then h.lines ++ [""] else []
     | none => ([] : List String)).countP isProgramEndLine = 0 := by
  cases hh : headerOf src with
  | none => rfl
  | some hseg =>
    have hmem : hseg ∈ parseToolSegments src := List.mem_of_find?_eq_some hh
    dsimp only
    by_cases hc : hseg.lines ≠ []
    · rw [if_pos hc, List.countP_append,
        countP_eq_zero_of_all (hsegs hseg hmem)]
      decide
    · rw [if_neg hc]
      rfl

theorem stdToolBlock_PE (src : String) (tp : ℕ) (pl : Pos × Bool)
    (hsegs : ∀ seg ∈ parseToolSegments src, ∀ l ∈ seg.lines,
      isProgramEndLine l = false) :
    (stdToolBlock (toolSegsOf src) tp pl).countP isProgramEndLine = 0 := by
  unfold stdToolBlock
  rw [List.countP_append]
  have h3 : ([partComment tp pl.1, offsetComment pl.1, ""]).countP
      isProgramEndLine = 0 := by
    simp [List.countP_cons, comment_PE_false (comment_partComment tp pl.1),
      comment_PE_false (comment_offsetComment pl.1),
      show isProgramEndLine "" = false from by decide]
  rw [h3]
  rw [countP_flatMap_const isProgramEndLine _ _ 0 ?_]
  · simp
  intro sl hsl
  rw [List.countP_append, List.countP_append,
    procLines_zero isProgramEndLine offsetFn_programEnd hop_PE _ _ _ _
      (hsegs sl.1 (List.mem_of_mem_filter (lastFlags_mem_fst hsl)))]
  simp [List.countP_cons, isProgramEndLine_tm6line,
    show isProgramEndLine "" = false from by decide]

theorem sortFallbackBlock_PE (cutting : List String) (tp : ℕ) (pl : Pos × Bool)
    (hcut : ∀ l ∈ cutting, isProgramEndLine l = false) :
    (sortFallbackBlock cutting tp pl).countP isProgramEndLine = 0 := by
  unfold sortFallbackBlock
  rw [List.countP_append, List.countP_append,
    procLines_zero isProgramEndLine offsetFn_programEnd hop_PE _ _ _ _ hcut]
  simp [List.countP_cons, comment_PE_false (comment_partComment tp pl.1),
    comment_PE_false (comment_offsetComment pl.1),
    show isProgramEndLine "" = false from by decide]

theorem offsetReplay_zero (P : String → Bool)
    (hinv : ∀ ox oy st line, P ((createOffsetFn ox oy st line).1) = P line)
    (ox oy : ℚ) (isLast : Bool) (lines : List String)
    (hall : ∀ l ∈ lines, P l = false) :
    (offsetReplay lines ox oy isLast).countP P = 0 := by
  rw [offsetReplay_countP P hinv ox oy isLast lines]
  exact countP_filter_subset hall

theorem stdFallbackBlock_PE (cutting : List String) (tp : ℕ) (pl : Pos × Bool)
    (hcut : ∀ l ∈ cutting, isProgramEndLine l = false) :
    (stdFallbackBlock cutting tp pl).countP isProgramEndLine = 0 := by
  unfold stdFallbackBlock
  rw [List.countP_append, List.countP_append,
    offsetReplay_zero isProgramEndLine offsetFn_programEnd _ _ _ _ hcut]
  simp [List.countP_cons, comment_PE_false (comment_partComment tp pl.1),
    comment_PE_false (comment_offsetComment pl.1),
    show isProgramEndLine "" = false from by decide]

theorem genLines_getLast (src : String) (o : GenOptions) :
    (generateReplicatedGCodeLines src o).getLast? = some "M30 (Program end)" := by
  simp only [generateReplicatedGCodeLines]
  rw [List.getLast?_append]
  rfl

theorem genLines_PE (src : String) (o : GenOptions)
    (hsrc : ∀ l ∈ (splitCh '\n' src.data).map List.asString,
      (hasWordTok 'M' "30".data (trimUpper l) ||
        hasWordTok 'M' ['2'] (trimUpper l)) = true →
      trimUpper l = "M30".data ∨ trimUpper l = "M2".data) :
    (generateReplicatedGCodeLines src o).countP isProgramEndLine = 1 := by
  have hsegs := segLines_PE src hsrc
  obtain ⟨hpre, hcut, hpost⟩ := phases_PE (sourceLinesOf src)
  cases hs : o.sortByTool with
  | true =>
    cases he : (toolSegsOf src).isEmpty with
    | false =>
      rw [genLines_sortTool src o hs he, List.countP_append, List.countP_append,
        genBanner_PE, List.countP_append]
      have hl2 : isProgramEndLine ("(Unique tools: " ++ String.intercalate ", "
          ((toolOrderOf src).map (fun t => "T" ++ decStrS t)) ++ ")") = false :=
        comment_PE_false (isGcodeComment_wrap _ rfl (getLast?_str_append _ _ rfl))
      have hl3 : isProgramEndLine ("(Total tool changes: " ++
          decStrS (toolOrderOf src).length ++ ", reduced from " ++
          decStrS ((toolSegsOf src).length * (o.rows * o.columns)) ++ ")") =
          false :=
        comment_PE_false (isGcodeComment_wrap _ rfl (getLast?_str_append _ _ rfl))
      have h4 : (["(Tool order optimized to minimize tool changes)",
          "(Unique tools: " ++ String.intercalate ", "
            ((toolOrderOf src).map (fun t => "T" ++ decStrS t)) ++ ")",
          "(Total tool changes: " ++ decStrS (toolOrderOf src).length ++
            ", reduced from " ++
            decStrS ((toolSegsOf src).length * (o.rows * o.columns)) ++ ")",
          ""]).countP isProgramEndLine = 0 := by
        simp [List.countP_cons, hl2, hl3,
          show isProgramEndLine
            "(Tool order optimized to minimize tool changes)" = false from
            by decide,
          show isProgramEndLine "" = false from by decide]
      rw [h4, countP_flatMap_const isProgramEndLine _ _ 0
        (fun t ht => sortToolGroupBlock_PE src _ _ t hsegs)]
      simp [show isProgramEndLine "M30 (Program end)" = true from by decide]
    | true =>
      rw [genLines_sortFallback src o hs he, List.countP_append,
        List.countP_append, genBanner_PE, List.countP_append,
        List.countP_append, List.countP_append, List.countP_append,
        countP_eq_zero_of_all hpre, countP_eq_zero_of_all hpost,
        countP_flatMap_const isProgramEndLine _ _ 0
          (fun pl hpl => sortFallbackBlock_PE _ _ pl hcut)]
      simp [show isProgramEndLine "M30 (Program end)" = true from by decide,
        show isProgramEndLine
          "(No tool changes detected, using standard replication)" = false from
          by decide,
        show isProgramEndLine "" = false from by decide, List.countP_cons]
  | false =>
    cases he : (toolSegsOf src).isEmpty with
    | false =>
      rw [genLines_stdTool src o hs he, List.countP_append, List.countP_append,
        genBanner_PE, List.countP_append, List.countP_append]
      have hl2 : isProgramEndLine ("(Tool changes per part: " ++
          decStrS (toolSegsOf src).length ++ ")") = false :=
        comment_PE_false (isGcodeComment_wrap _ rfl (getLast?_str_append _ _ rfl))
      have h3 : (["(Standard replication - all tools per part in original order)",
          "(Tool changes per part: " ++ decStrS (toolSegsOf src).length ++ ")",
          ""]).countP isProgramEndLine = 0 := by
        simp [List.countP_cons, hl2,
          show isProgramEndLine
            "(Standard replication - all tools per part in original order)" =
            false from by decide,
          show isProgramEndLine "" = false from by decide]
      rw [h3, headerBlock_PE src hsegs, countP_flatMap_const isProgramEndLine _ _ 0
        (fun pl hpl => stdToolBlock_PE src _ pl hsegs)]
      simp [show isProgramEndLine "M30 (Program end)" = true from by decide]
    | true =>
      rw [genLines_stdFallback src o hs he, List.countP_append,
        List.countP_append, genBanner_PE, List.countP_append,
        List.countP_append, List.countP_append,
        countP_eq_zero_of_all hpre, countP_eq_zero_of_all hpost,
        countP_flatMap_const isProgramEndLine _ _ 0
          (fun pl hpl => stdFallbackBlock_PE _ _ pl hcut)]
      simp [show isProgramEndLine "M30 (Program end)" = true from by decide,
        show isProgramEndLine "" = false from by decide, List.countP_cons]

/-- **C9 (amended).** The assembled output always ends with the single line
`M30 (Program end)`.  Its program-end line count is exactly 1 provided every
source line that carries an `M30`/`M2` word token is exactly `M30` or `M2`
after trimming and upper-casing (such lines are dropped by the segmenter and
the phase splitter).  Without that proviso the claim is false: a decorated
program-end line such as `M30 (end)` is replayed into the output next to the
appended terminator, as the counterexample shows. -/
theorem claim_C9_amended :
    (∀ (src : String) (o : GenOptions),
      (generateReplicatedGCodeLines src o).getLast? =
        some "M30 (Program end)") ∧
    (∀ (src : String) (o : GenOptions),
      (∀ l ∈ (splitCh '\n' src.data).map List.asString,
        (hasWordTok 'M' "30".data (trimUpper l) ||
          hasWordTok 'M' ['2'] (trimUpper l)) = true →
        trimUpper l = "M30".data ∨ trimUpper l = "M2".data) →
      (generateReplicatedGCodeLines src o).countP isProgramEndLine = 1) :=
  ⟨genLines_getLast, fun src o h => genLines_PE src o h⟩

/-- **C9 (counterexample).** The source `T1 M6 / G1 X1 / M30 (end)` carries a
decorated program-end line; with a 1×1 grid the assembled output contains 2
program-end lines, not exactly one. -/
theorem claim_C9_counterexample :
    (generateReplicatedGCodeLines "T1 M6\nG1 X1\nM30 (end)"
      (⟨1, 1, "positive", "positive", 100, 100, 0, 0, false, "", "a.nc"⟩ :
        GenOptions)).countP isProgramEndLine = 2 ∧ ¬(2 = 1) :=
  ⟨by with_unfolding_all decide, by decide⟩

/-- Witness for C9 on a source with several exact program-end tokens. -/
theorem claim_C9_witness :
    (generateReplicatedGCodeLines "G1 X1\nM30\nM2\nM30"
      (⟨1, 1, "positive", "positive", 100, 100, 0, 0, false, "", "a.nc"⟩ :
        GenOptions)).countP isProgramEndLine = 1 :=
  claim_C9_amended.2 "G1 X1\nM30\nM2\nM30"
    (⟨1, 1, "positive", "positive", 100, 100, 0, 0, false, "", "a.nc"⟩ :
      GenOptions) (by with_unfolding_all decide)

/-! ## C6: spindle-stop suppression -/

theorem procLines_STOP_skip (lines : List String) (ox oy : ℚ) :
    (processLinesWithCommentRepositioning lines ox oy true).countP
      (fun l => isSpindleStopCommand l) = 0 := by
  rw [procLines_countP _ offsetFn_spindleStop hop_STOP]
  exact filter_skipTrue_stop_zero lines

theorem procLines_STOP_keep (lines : List String) (ox oy : ℚ) :
    (processLinesWithCommentRepositioning lines ox oy false).countP
      (fun l => isSpindleStopCommand l) =
      lines.countP (fun l => isSpindleStopCommand l) := by
  rw [procLines_countP _ offsetFn_spindleStop hop_STOP, filter_skipFalse]

theorem offsetReplay_STOP_notlast (lines : List String) (ox oy : ℚ) :
    (offsetReplay lines ox oy false).countP
      (fun l => isSpindleStopCommand l) = 0 := by
  rw [offsetReplay_countP _ offsetFn_spindleStop]
  refine countP_eq_zero_of_all ?_
  intro x hx
  have := (List.mem_filter.mp hx).2
  simp only [Bool.not_false, Bool.true_and, Bool.not_eq_true'] at this
  exact this

theorem offsetReplay_STOP_last (lines : List String) (ox oy : ℚ) :
    (offsetReplay lines ox oy true).countP (fun l => isSpindleStopCommand l) =
      lines.countP (fun l => isSpindleStopCommand l) := by
  rw [offsetReplay_countP _ offsetFn_spindleStop]
  congr 1
  have : ∀ l : String, (!(!true && isSpindleStopCommand l)) = true := by
    intro l
    simp
  induction lines with
  | nil => rfl
  | cons a r ih => simp [List.filter_cons, this a, ih]

theorem flatMap_lastFlags_countP {α : Type} (P : String → Bool) (positions : List α)
    (hpos : positions ≠ []) (f : α × Bool → List String) (c : ℕ)
    (hfalse : ∀ p : α, (f (p, false)).countP P = 0)
    (hlast : (f (positions.getLast hpos, true)).countP P = c) :
    ((lastFlags positions).flatMap f).countP P = c := by
  rw [lastFlags_eq positions hpos, List.flatMap_append, List.countP_append,
    countP_flatMap_const P _ _ 0 (fun a ha => by
      obtain ⟨p, hp, rfl⟩ := List.mem_map.mp ha
      exact hfalse p)]
  simp [List.flatMap_cons, List.countP_append, hlast]

/-- The last tool segment (header default when there are none). -/
def lastSegOf (src : String) : Segment :=
  (toolSegsOf src).getLastD ⟨none, [], true⟩

/-- The header lines emitted verbatim by the standard multi-tool path. -/
def headerLinesOf (src : String) : List String :=
  match headerOf src with
  | some h => h.lines
  | none => []

theorem getLastD_of_ne_nil {α : Type} (l : List α) (d : α) (h : l ≠ []) :
    l.getLastD d = l.getLast h := by
  cases l with
  | nil => exact absurd rfl h
  | cons a r =>
    rw [List.getLastD_eq_getLast?, List.getLast?_eq_getLast (a :: r) (by simp)]
    rfl

theorem sortToolGroupBlock_STOP (src : String) (tp : ℕ) (positions : List Pos)
    (t : ℕ) (hpos : positions ≠ []) :
    (sortToolGroupBlock (toolSegsOf src) tp positions t).countP
      (fun l => isSpindleStopCommand l) =
      (groupLines (toolSegsOf src) t).countP (fun l => isSpindleStopCommand l) := by
  unfold sortToolGroupBlock
  rw [List.countP_append]
  have h3 : (["(Tool T" ++ decStrS t ++ " - All Parts)", "M6 T" ++ decStrS t,
      ""]).countP (fun l => isSpindleStopCommand l) = 0 := by
    simp [List.countP_cons, comment_STOP_false (comment_toolHeader t),
      isSpindleStop_m6line t,
      show isSpindleStopCommand "" = false from by decide]
  rw [h3, flatMap_lastFlags_countP _ positions hpos _
    ((groupLines (toolSegsOf src) t).countP (fun l => isSpindleStopCommand l))
    ?hfalse ?hlast]
  · simp
  case hfalse =>
    intro p
    rw [List.countP_append, List.countP_append]
    have hproc : (processLinesWithCommentRepositioning
        (groupLines (toolSegsOf src) t) (p, false).1.offsetX
        (p, false).1.offsetY (!(p, false).2)).countP
        (fun l => isSpindleStopCommand l) = 0 := procLines_STOP_skip _ _ _
    rw [hproc]
    simp [List.countP_cons, comment_STOP_false (comment_offsetComment p),
      comment_STOP_false (comment_sortPartComment t p),
      show isSpindleStopCommand "" = false from by decide]
  case hlast =>
    rw [List.countP_append, List.countP_append]
    have hproc : (processLinesWithCommentRepositioning
        (groupLines (toolSegsOf src) t)
        (positions.getLast hpos, true).1.offsetX
        (positions.getLast hpos, true).1.offsetY
        (!(positions.getLast hpos, true).2)).countP
        (fun l => isSpindleStopCommand l) =
        (groupLines (toolSegsOf src) t).countP
          (fun l => isSpindleStopCommand l) := procLines_STOP_keep _ _ _
    rw [hproc]
    simp [List.countP_cons,
      comment_STOP_false (comment_offsetComment (positions.getLast hpos)),
      comment_STOP_false (comment_sortPartComment t (positions.getLast hpos)),
      show isSpindleStopCommand "" = false from by decide]

theorem stdToolBlock_STOP_notlast (src : String) (tp : ℕ) (p : Pos) :
    (stdToolBlock (toolSegsOf src) tp (p, false)).countP
      (fun l => isSpindleStopCommand l) = 0 := by
  unfold stdToolBlock
  rw [List.countP_append]
  have h3 : ([partComment tp (p, false).1, offsetComment (p, false).1,
      ""]).countP (fun l => isSpindleStopCommand l) = 0 := by
    simp [List.countP_cons, comment_STOP_false (comment_partComment tp p),
      comment_STOP_false (comment_offsetComment p),
      show isSpindleStopCommand "" = false from by decide]
  rw [h3, countP_flatMap_const _ _ _ 0 ?_]
  · simp
  intro sl hsl
  rw [List.countP_append, List.countP_append]
  have hss : (!((p, false).2 && sl.2)) = true := by simp
  rw [hss]
  rw [procLines_STOP_skip]
  simp [List.countP_cons, isSpindleStop_tm6line,
    show isSpindleStopCommand "" = false from by decide]

theorem stdToolBlock_STOP_last (src : String) (tp : ℕ) (p : Pos)
    (hne : toolSegsOf src ≠ []) :
    (stdToolBlock (toolSegsOf src) tp (p, true)).countP
      (fun l => isSpindleStopCommand l) =
      ((toolSegsOf src).getLast hne).lines.countP
        (fun l => isSpindleStopCommand l) := by
  unfold stdToolBlock
  rw [List.countP_append]
  have h3 : ([partComment tp (p, true).1, offsetComment (p, true).1,
      ""]).countP (fun l => isSpindleStopCommand l) = 0 := by
    simp [List.countP_cons, comment_STOP_false (comment_partComment tp p),
      comment_STOP_false (comment_offsetComment p),
      show isSpindleStopCommand "" = false from by decide]
  rw [h3]
  rw [flatMap_lastFlags_countP _ (toolSegsOf src) hne _
    (((toolSegsOf src).getLast hne).lines.countP
      (fun l => isSpindleStopCommand l)) ?hfalse ?hlast]
  · simp
  case hfalse =>
    intro sg
    rw [List.countP_append, List.countP_append]
    have hss : (!((p, true).2 && ((sg, false) : Segment × Bool).2)) = true := by
      simp
    rw [hss, procLines_STOP_skip]
    simp [List.countP_cons, isSpindleStop_tm6line,
      show isSpindleStopCommand "" = false from by decide]
  case hlast =>
    rw [List.countP_append, List.countP_append]
    have hss : (!((p, true).2 &&
        (((toolSegsOf src).getLast hne, true) : Segment × Bool).2)) = false := by
      simp
    rw [hss, procLines_STOP_keep]
    simp [List.countP_cons, isSpindleStop_tm6line,
      show isSpindleStopCommand "" = false from by decide]

theorem isEmpty_false_ne_nil {α : Type} {l : List α} (h : l.isEmpty = false) :
    l ≠ [] := by
  intro hz
  rw [hz] at h
  simp at h

theorem sortFallbackBlock_STOP_notlast (cutting : List String) (tp : ℕ) (p : Pos) :
    (sortFallbackBlock cutting tp (p, false)).countP
      (fun l => isSpindleStopCommand l) = 0 := by
  unfold sortFallbackBlock
  rw [List.countP_append, List.countP_append]
  have hss : (!((p, false) : Pos × Bool).2) = true := by simp
  rw [hss, procLines_STOP_skip]
  simp [List.countP_cons, comment_STOP_false (comment_partComment tp p),
    comment_STOP_false (comment_offsetComment p),
    show isSpindleStopCommand "" = false from by decide]

theorem sortFallbackBlock_STOP_last (cutting : List String) (tp : ℕ) (p : Pos) :
    (sortFallbackBlock cutting tp (p, true)).countP
      (fun l => isSpindleStopCommand l) =
      cutting.countP (fun l => isSpindleStopCommand l) := by
  unfold sortFallbackBlock
  rw [List.countP_append, List.countP_append]
  have hss : (!((p, true) : Pos × Bool).2) = false := by simp
  rw [hss, procLines_STOP_keep]
  simp [List.countP_cons, comment_STOP_false (comment_partComment tp p),
    comment_STOP_false (comment_offsetComment p),
    show isSpindleStopCommand "" = false from by decide]

theorem stdFallbackBlock_STOP_notlast (cutting : List String) (tp : ℕ) (p : Pos) :
    (stdFallbackBlock cutting tp (p, false)).countP
      (fun l => isSpindleStopCommand l) = 0 := by
  unfold stdFallbackBlock
  rw [List.countP_append, List.countP_append, offsetReplay_STOP_notlast]
  simp [List.countP_cons, comment_STOP_false (comment_partComment tp p),
    comment_STOP_false (comment_offsetComment p),
    show isSpindleStopCommand "" = false from by decide]

theorem stdFallbackBlock_STOP_last (cutting : List String) (tp : ℕ) (p : Pos) :
    (stdFallbackBlock cutting tp (p, true)).countP
      (fun l => isSpindleStopCommand l) =
      cutting.countP (fun l => isSpindleStopCommand l) := by
  unfold stdFallbackBlock
  rw [List.countP_append, List.countP_append, offsetReplay_STOP_last]
  simp [List.countP_cons, comment_STOP_false (comment_partComment tp p),
    comment_STOP_false (comment_offsetComment p),
    show isSpindleStopCommand "" = false from by decide]

theorem genLines_STOP_sortTool (src : String) (o : GenOptions)
    (hs : o.sortByTool = true) (hne : (toolSegsOf src).isEmpty = false)
    (hpos : positionsOf o ≠ []) :
    (generateReplicatedGCodeLines src o).countP (fun l => isSpindleStopCommand l) =
      ((toolOrderOf src).map (fun t =>
        (groupLines (toolSegsOf src) t).countP
          (fun l => isSpindleStopCommand l))).sum := by
  rw [genLines_sortTool src o hs hne, List.countP_append, List.countP_append,
    genBanner_STOP, List.countP_append]
  have hl2 : isSpindleStopCommand ("(Unique tools: " ++ String.intercalate ", "
      ((toolOrderOf src).map (fun t => "T" ++ decStrS t)) ++ ")") = false :=
    comment_STOP_false (isGcodeComment_wrap _ rfl (getLast?_str_append _ _ rfl))
  have hl3 : isSpindleStopCommand ("(Total tool changes: " ++
      decStrS (toolOrderOf src).length ++ ", reduced from " ++
      decStrS ((toolSegsOf src).length * (o.rows * o.columns)) ++ ")") = false :=
    comment_STOP_false (isGcodeComment_wrap _ rfl (getLast?_str_append _ _ rfl))
  have h4 : (["(Tool order optimized to minimize tool changes)",
      "(Unique tools: " ++ String.intercalate ", "
        ((toolOrderOf src).map (fun t => "T" ++ decStrS t)) ++ ")",
      "(Total tool changes: " ++ decStrS (toolOrderOf src).length ++
        ", reduced from " ++
        decStrS ((toolSegsOf src).length * (o.rows * o.columns)) ++ ")",
      ""]).countP (fun l => isSpindleStopCommand l) = 0 := by
    simp [List.countP_cons, hl2, hl3,
      show isSpindleStopCommand
        "(Tool order optimized to minimize tool changes)" = false from by decide,
      show isSpindleStopCommand "" = false from by decide]
  rw [h4, countP_flatMap]
  have hmap : (toolOrderOf src).map (fun t =>
      (sortToolGroupBlock (toolSegsOf src) (o.rows * o.columns) (positionsOf o)
        t).countP (fun l => isSpindleStopCommand l)) =
      (toolOrderOf src).map (fun t =>
        (groupLines (toolSegsOf src) t).countP
          (fun l => isSpindleStopCommand l)) :=
    List.map_congr_left (fun t ht =>
      sortToolGroupBlock_STOP src (o.rows * o.columns) (positionsOf o) t hpos)
  rw [hmap]
  simp [show isSpindleStopCommand "M30 (Program end)" = false from by decide]

theorem genLines_STOP_stdTool (src : String) (o : GenOptions)
    (hs : o.sortByTool = false) (hne : (toolSegsOf src).isEmpty = false)
    (hpos : positionsOf o ≠ []) :
    (generateReplicatedGCodeLines src o).countP (fun l => isSpindleStopCommand l) =
      (headerLinesOf src).countP (fun l => isSpindleStopCommand l) +
        (lastSegOf src).lines.countP (fun l => isSpindleStopCommand l) := by
  have hne2 : toolSegsOf src ≠ [] := isEmpty_false_ne_nil hne
  rw [genLines_stdTool src o hs hne, List.countP_append, List.countP_append,
    genBanner_STOP, List.countP_append, List.countP_append]
  have hl2 : isSpindleStopCommand ("(Tool changes per part: " ++
      decStrS (toolSegsOf src).length ++ ")") = false :=
    comment_STOP_false (isGcodeComment_wrap _ rfl (getLast?_str_append _ _ rfl))
  have h3 : (["(Standard replication - all tools per part in original order)",
      "(Tool changes per part: " ++ decStrS (toolSegsOf src).length ++ ")",
      ""]).countP (fun l => isSpindleStopCommand l) = 0 := by
    simp [List.countP_cons, hl2,
      show isSpindleStopCommand
        "(Standard replication - all tools per part in original order)" =
        false from by decide,
      show isSpindleStopCommand "" = false from by decide]
  have hheader : (match headerOf src with
      | some h => if h.lines ≠ [] then h.lines ++ [""] else []
      | none => ([] : List String)).countP (fun l => isSpindleStopCommand l) =
      (headerLinesOf src).countP (fun l => isSpindleStopCommand l) := by
    unfold headerLinesOf
    cases hh : headerOf src with
    | none => rfl
    | some h =>
      dsimp only
      by_cases hc : h.lines ≠ []
      · rw [if_pos hc, List.countP_append]
        simp [show isSpindleStopCommand "" = false from by decide]
      · rw [if_neg hc]
        rw [not_not] at hc
        rw [hc]
  rw [h3, hheader, flatMap_lastFlags_countP _ (positionsOf o) hpos _
    ((lastSegOf src).lines.countP (fun l => isSpindleStopCommand l))
    ?hfalse ?hlast]
  · simp [show isSpindleStopCommand "M30 (Program end)" = false from by decide]
  case hfalse =>
    intro p
    exact stdToolBlock_STOP_notlast src (o.rows * o.columns) p
  case hlast =>
    rw [stdToolBlock_STOP_last src (o.rows * o.columns)
      ((positionsOf o).getLast hpos) hne2]
    rw [show lastSegOf src = (toolSegsOf src).getLast hne2 from
      getLastD_of_ne_nil _ _ hne2]

theorem genLines_STOP_sortFallback (src : String) (o : GenOptions)
    (hs : o.sortByTool = true) (he : (toolSegsOf src).isEmpty = true)
    (hpos : positionsOf o ≠ []) :
    (generateReplicatedGCodeLines src o).countP (fun l => isSpindleStopCommand l) =
      (splitPhases (sourceLinesOf src)).preamble.countP
          (fun l => isSpindleStopCommand l) +
        (splitPhases (sourceLinesOf src)).cutting.countP
          (fun l => isSpindleStopCommand l) +
        (splitPhases (sourceLinesOf src)).postamble.countP
          (fun l => isSpindleStopCommand l) := by
  rw [genLines_sortFallback src o hs he, List.countP_append, List.countP_append,
    genBanner_STOP, List.countP_append, List.countP_append, List.countP_append,
    List.countP_append, flatMap_lastFlags_countP _ (positionsOf o) hpos _
      ((splitPhases (sourceLinesOf src)).cutting.countP
        (fun l => isSpindleStopCommand l)) ?hfalse ?hlast]
  · simp [List.countP_cons,
      show isSpindleStopCommand
        "(No tool changes detected, using standard replication)" = false from
        by decide,
      show isSpindleStopCommand "" = false from by decide,
      show isSpindleStopCommand "M30 (Program end)" = false from by decide]
  case hfalse =>
    intro p
    exact sortFallbackBlock_STOP_notlast _ (o.rows * o.columns) p
  case hlast =>
    exact sortFallbackBlock_STOP_last _ (o.rows * o.columns) _

theorem genLines_STOP_stdFallback (src : String) (o : GenOptions)
    (hs : o.sortByTool = false) (he : (toolSegsOf src).isEmpty = true)
    (hpos : positionsOf o ≠ []) :
    (generateReplicatedGCodeLines src o).countP (fun l => isSpindleStopCommand l) =
      (splitPhases (sourceLinesOf src)).preamble.countP
          (fun l => isSpindleStopCommand l) +
        (splitPhases (sourceLinesOf src)).cutting.countP
          (fun l => isSpindleStopCommand l) +
        (splitPhases (sourceLinesOf src)).postamble.countP
          (fun l => isSpindleStopCommand l) := by
  rw [genLines_stdFallback src o hs he, List.countP_append, List.countP_append,
    genBanner_STOP, List.countP_append, List.countP_append, List.countP_append,
    flatMap_lastFlags_countP _ (positionsOf o) hpos _
      ((splitPhases (sourceLinesOf src)).cutting.countP
        (fun l => isSpindleStopCommand l)) ?hfalse ?hlast]
  · simp [List.countP_cons,
      show isSpindleStopCommand "" = false from by decide,
      show isSpindleStopCommand "M30 (Program end)" = false from by decide]
  case hfalse =>
    intro p
    exact stdFallbackBlock_STOP_notlast _ (o.rows * o.columns) p
  case hlast =>
    exact stdFallbackBlock_STOP_last _ (o.rows * o.columns) _

/-- **C6.** Spindle-stop suppression: the comment-repositioning replay with
`skipSpindleStop = true` emits no spindle-stop lines and with `false` keeps
exactly the source's count; at the whole-assembly level (for a non-empty
surviving-instance list), sort-by-tool mode keeps each tool group's stop
lines exactly once (at the group's last instance, giving the per-group sum),
standard multi-tool mode keeps exactly the header's stops plus the last
segment's stops (replayed only at the last instance's last segment), and
both fallback paths keep exactly the preamble, cutting (last instance only)
and postamble stops. -/
theorem claim_C6 :
    (∀ (lines : List String) (ox oy : ℚ),
      (processLinesWithCommentRepositioning lines ox oy true).countP
        (fun l => isSpindleStopCommand l) = 0) ∧
    (∀ (lines : List String) (ox oy : ℚ),
      (processLinesWithCommentRepositioning lines ox oy false).countP
        (fun l => isSpindleStopCommand l) =
        lines.countP (fun l => isSpindleStopCommand l)) ∧
    (∀ (src : String) (o : GenOptions), o.sortByTool = true →
      (toolSegsOf src).isEmpty = false → positionsOf o ≠ [] →
      (generateReplicatedGCodeLines src o).countP
        (fun l => isSpindleStopCommand l) =
        ((toolOrderOf src).map (fun t =>
          (groupLines (toolSegsOf src) t).countP
            (fun l => isSpindleStopCommand l))).sum) ∧
    (∀ (src : String) (o : GenOptions), o.sortByTool = false →
      (toolSegsOf src).isEmpty = false → positionsOf o ≠ [] →
      (generateReplicatedGCodeLines src o).countP
        (fun l => isSpindleStopCommand l) =
        (headerLinesOf src).countP (fun l => isSpindleStopCommand l) +
          (lastSegOf src).lines.countP (fun l => isSpindleStopCommand l)) ∧
    (∀ (src : String) (o : GenOptions), o.sortByTool = true →
      (toolSegsOf src).isEmpty = true → positionsOf o ≠ [] →
      (generateReplicatedGCodeLines src o).countP
        (fun l => isSpindleStopCommand l) =
        (splitPhases (sourceLinesOf src)).preamble.countP
            (fun l => isSpindleStopCommand l) +
          (splitPhases (sourceLinesOf src)).cutting.countP
            (fun l => isSpindleStopCommand l) +
          (splitPhases (sourceLinesOf src)).postamble.countP
            (fun l => isSpindleStopCommand l)) ∧
    (∀ (src : String) (o : GenOptions), o.sortByTool = false →
      (toolSegsOf src).isEmpty = true → positionsOf o ≠ [] →
      (generateReplicatedGCodeLines src o).countP
        (fun l => isSpindleStopCommand l) =
        (splitPhases (sourceLinesOf src)).preamble.countP
            (fun l => isSpindleStopCommand l) +
          (splitPhases (sourceLinesOf src)).cutting.countP
            (fun l => isSpindleStopCommand l) +
          (splitPhases (sourceLinesOf src)).postamble.countP
            (fun l => isSpindleStopCommand l)) :=
  ⟨procLines_STOP_skip, procLines_STOP_keep,
   fun src o hs hne hpos => genLines_STOP_sortTool src o hs hne hpos,
   fun src o hs hne hpos => genLines_STOP_stdTool src o hs hne hpos,
   fun src o hs he hpos => genLines_STOP_sortFallback src o hs he hpos,
   fun src o hs he hpos => genLines_STOP_stdFallback src o hs he hpos⟩

/-- Witness for C6's standard multi-tool clause: a two-tool source with an
`M5` in each segment, a 2×1 grid; the output's stop count equals the header
stops (none) plus the last segment's stops (one). -/
theorem claim_C6_witness :
    (generateReplicatedGCodeLines "T1 M6\nG1 X1\nM5\nT2 M6\nG1 X2\nM5"
      (⟨2, 1, "positive", "positive", 100, 100, 0, 0, false, "", "a.nc"⟩ :
        GenOptions)).countP (fun l => isSpindleStopCommand l) =
      (headerLinesOf "T1 M6\nG1 X1\nM5\nT2 M6\nG1 X2\nM5").countP
          (fun l => isSpindleStopCommand l) +
        (lastSegOf "T1 M6\nG1 X1\nM5\nT2 M6\nG1 X2\nM5").lines.countP
          (fun l => isSpindleStopCommand l) :=
  claim_C6.2.2.2.1 "T1 M6\nG1 X1\nM5\nT2 M6\nG1 X2\nM5"
    (⟨2, 1, "positive", "positive", 100, 100, 0, 0, false, "", "a.nc"⟩ :
      GenOptions) rfl (by with_unfolding_all decide)
    (by with_unfolding_all decide)

end Replicator
